import Mathlib

/-! QMI client multiplexing engine (drivers/net/usb/qcusbnet/qmidevice.c)

A shallow embedding of the client registry and of the request engine of the
Gobi QMI driver, followed by theorems about it.

Conventions of the embedding:

* an intrusive kernel list (`struct list_head`) is a `List`, head first;
  `list_add_tail` appends at the end;
* a `u16`/`u8`/`int` value is a `Nat`/`Int`; a narrowing conversion made by the
  C code is written as an explicit `%`;
* a data pointer (`void *data` of a `readreq`) is the byte content of the
  buffer it points to; a context pointer or a function pointer is its address,
  `0` being `NULL`;
* effects on the outside world (invoking a notification hook, waking a wait
  queue, submitting / killing / freeing an URB, freeing a buffer) are appended
  to a ghost log of `Event`s; a hook is a function pointer, so its invocation
  is logged and its body is not run (the lock is released around the call);
  the definitions whose name ends in `_run` take the bodies of the hooks as a
  table and run the body at the call, and `hook_body` is the table of the
  driver (`upsem`, `wds_callback`);
* the codec of `qmi.c` (`qmux_parse`, `qmux_fill`, the `qmictl_*` builders and
  parsers) is a parameter, `qmi_codec`;
* every `kmalloc` takes its outcome from `World.mem`, so allocation failure is
  an input like any other;
* a call that sleeps in `down_interruptible` takes a script of what happens
  meanwhile (`Sleep`): control reads completing (`read_callback` runs) and the
  start of a teardown. The sleep of `read_sync` ends with 0 when `upsem` was
  invoked on the caller's semaphore, with the signal's value when a signal
  arrives, and otherwise does not end (`Result.blocked`);
* the global device list of `qcusbnet.c` is a `List` of entries with their
  address and the counter of their `struct kref`; the file operations of the
  character device work on a `Driver`: that list, a ghost log of the reference
  operations, and the QMI state of the device of the file;
* the loop of `qmi_ready` takes one `ready_env` per pass, and its `u16`
  counter is reduced modulo `2 ^ 16` at every step.
-/

namespace Qmi

/-! ## Constants -/

/-- Control service type and control client identifier (`QMICTL`). -/
def QMICTL : Nat := 0

def ENOENT : Int := 2
def EINTR : Int := 4
def ENXIO : Int := 6
def ENOMEM : Int := 12
def EFAULT : Int := 14
def EINVAL : Int := 22
def EBADR : Int := 53
def EPROTO : Int := 71
def EOVERFLOW : Int := 75
def ECONNRESET : Int := 104
def ESHUTDOWN : Int := 108
def ETOOMANYREFS : Int := 109
def ETIMEDOUT : Int := 110

/-! ## Data model (`struct readreq`, `struct notifyreq`, `struct client`) -/

/-- One buffered response: `struct readreq`. -/
structure readreq where
  data : List Nat
  tid : Nat
  size : Nat
deriving DecidableEq, Repr

/-- One pending notification: `struct notifyreq`; `func = 0` is a `NULL` hook. -/
structure notifyreq where
  func : Nat
  tid : Nat
  data : Nat
deriving DecidableEq, Repr

/-- One logical session: `struct client`. `urbs` holds the outstanding write
URBs (by address), `handle` the bound `struct qmihandle` if any. -/
structure client where
  cid : Nat
  reads : List readreq
  notifies : List notifyreq
  urbs : List Nat
  handle : Option Nat
deriving DecidableEq, Repr

/-- Effects that leave the registry. -/
inductive Event where
  | call (func : Nat) (cid : Nat) (data : Nat)
  | wake_up (handle : Nat)
  | wake_up_interruptible (handle : Nat)
  | usb_submit_urb (urb : Nat) (result : Int)
  | usb_kill_urb (urb : Nat)
  | usb_free_urb (urb : Nat)
  | kfree (data : List Nat)
  | resubmit_int_urb
  | usb_autopm_get_interface (result : Int)
  | usb_autopm_put_interface
  | qc_stopread
  | cdev_del
  | unregister_chrdev_region
  | device_create (qmiidx : Int)
  | netif_carrier_off
  | netif_carrier_on
deriving DecidableEq, Repr

/-! ## Per-client queue operations -/

/-- The idiom `list_for_each(node, l) { if (p(node)) { list_del(node); ... } }`:
the first element satisfying `p`, and the list without it. -/
def list_del_first {α : Type} (p : α → Bool) : List α → Option (α × List α)
  | [] => none
  | x :: rest =>
    if p x then some (x, rest)
    else
      match list_del_first p rest with
      | none => none
      | some (y, rest') => some (y, x :: rest')

/-- The test `!tid || tid == req->tid` of `client_delread` and `read_async`. -/
def read_matches (tid : Nat) (req : readreq) : Bool :=
  tid == 0 || tid == req.tid

/-- The test `!tid || !notify->tid || tid == notify->tid` of `client_notify`. -/
def notify_matches (tid : Nat) (n : notifyreq) : Bool :=
  tid == 0 || n.tid == 0 || tid == n.tid

/-- `client_addread`: `ok` is the outcome of the `kmalloc` of the entry. -/
def client_addread (ok : Bool) (c : client) (tid : Nat) (data : List Nat) (size : Nat) :
    Bool × client :=
  if ok then (true, { c with reads := c.reads ++ [⟨data, tid, size⟩] })
  else (false, c)

/-- `client_delread`: `some (data, size)` stands for `true` with the two
out-parameters written, `none` for `false`. -/
def client_delread (c : client) (tid : Nat) : Option (List Nat × Nat) × client :=
  match list_del_first (read_matches tid) c.reads with
  | some (req, rest) => (some (req.data, req.size), { c with reads := rest })
  | none => (none, c)

/-- `client_addnotify`: `ok` is the outcome of the `kmalloc` of the entry. -/
def client_addnotify (ok : Bool) (c : client) (tid : Nat) (hook : Nat) (data : Nat) :
    Bool × client :=
  if ok then (true, { c with notifies := c.notifies ++ [notifyreq.mk hook tid data] })
  else (false, c)

/-- `client_notify`: result, client afterwards, hook invocations made. -/
def client_notify (c : client) (tid : Nat) : Bool × client × List Event :=
  match list_del_first (notify_matches tid) c.notifies with
  | some (delnotify, rest) =>
    (true, { c with notifies := rest },
      if delnotify.func ≠ 0 then [Event.call delnotify.func c.cid delnotify.data] else [])
  | none => (false, c, [])

/-- `client_addurb`: `ok` is the outcome of the `kmalloc` of the entry. -/
def client_addurb (ok : Bool) (c : client) (urb : Nat) : Bool × client :=
  if ok then (true, { c with urbs := c.urbs ++ [urb] })
  else (false, c)

/-- `client_delurb`: pops the first outstanding URB, `none` is `NULL`. -/
def client_delurb (c : client) : Option Nat × client :=
  match c.urbs with
  | [] => (none, c)
  | urb :: rest => (some urb, { c with urbs := rest })

/-! ## Device, allocator and transport environment -/

/-- The part of `struct qcusbnet` the QMI engine uses: the connectivity flags,
the transaction-id counter `qmi.qmitid` (an `atomic_t`, kept as its 32-bit
pattern) and the registry `qmi.clients`. -/
structure qcusbnet where
  valid : Bool
  dying : Bool
  qmitid : Nat
  clients : List client
deriving DecidableEq, Repr

/-- The device together with what the kernel contributes: `mem` lists the
outcomes of the coming `kmalloc` calls (`false` is a `NULL` return, an
exhausted list means success), `log` is the ghost log of effects. -/
structure World where
  dev : qcusbnet
  mem : List Bool
  log : List Event
deriving DecidableEq, Repr

/-- One `kmalloc`: its outcome and the remaining outcomes. -/
def kmalloc (mem : List Bool) : Bool × List Bool :=
  match mem with
  | [] => (true, [])
  | ok :: rest => (ok, rest)

/-- A completed control-read URB as `read_callback` sees it. -/
structure urb where
  status : Int
  transfer_buffer : List Nat
  actual_length : Nat
deriving DecidableEq, Repr

/-- The QMUX / QMICTL codec (`qmi.c`), which the engine calls into.
`qmux_parse data size` is the pair of the return value and of the client id
written through the first argument; `qmux_fill cid buf size` is the return
value; a `qmictl_new_*` builder returns its message, `none` for `NULL`;
`qmictl_alloccid_resp buf size` is the return value and the identifier written
through the last argument. -/
structure qmi_codec where
  qmux_parse : List Nat → Nat → Int × Nat
  qmux_fill : Nat → List Nat → Int → Int
  qmictl_new_getcid : Nat → Nat → Option (List Nat)
  qmictl_alloccid_resp : List Nat → Nat → Int × Nat
  qmictl_new_releasecid : Nat → Nat → Option (List Nat)
  qmictl_freecid_resp : List Nat → Nat → Int

/-- What another context does while a caller sleeps in `down_interruptible`:
a control read completes and `read_callback` runs, or `qc_deregister` starts
and sets `dev->dying`. -/
inductive EnvEvent where
  | read_complete (u : urb)
  | set_dying
deriving DecidableEq, Repr

/-- One sleep in `down_interruptible`: what happens meanwhile, and the value
returned when the semaphore is not released by a notification (`0` when no
signal arrives). -/
structure Sleep where
  events : List EnvEvent
  signal : Int
deriving DecidableEq, Repr

/-- Outcome of a call that may sleep: a value, an errno (negative), or the
caller is still asleep when the environment script ends. -/
inductive Result (α : Type) where
  | ok (a : α)
  | err (code : Int)
  | blocked
deriving DecidableEq, Repr

/-- Address of the hook `upsem`. -/
def upsem : Nat := 1

/-- `device_connected`. -/
def device_connected (dev : qcusbnet) : Bool :=
  dev.valid && !dev.dying

/-- `client_bycid`: the first client of the registry with the identifier. -/
def client_bycid (dev : qcusbnet) (cid : Nat) : Option client :=
  dev.clients.find? (fun c => c.cid == cid)

/-- A write through the pointer returned by `client_bycid dev cid`: the first
client with the identifier is replaced. -/
def client_store (cid : Nat) (c' : client) : List client → List client
  | [] => []
  | c :: rest => if c.cid == cid then c' :: rest else c :: client_store cid c' rest

/-- The world after a write through a client pointer. -/
def World.store (w : World) (cid : Nat) (c' : client) : World :=
  { w with dev := { w.dev with clients := client_store cid c' w.dev.clients } }

/-- The world with more effects logged. -/
def World.emit (w : World) (ev : List Event) : World :=
  { w with log := w.log ++ ev }

/-! ## Asynchronous read and delivery -/

/-- `read_async`. -/
def read_async (w : World) (cid tid : Nat) (hook : Nat) (data : Nat) : Int × World :=
  match client_bycid w.dev cid with
  | none => (- ENXIO, w)
  | some c =>
    if c.reads.any (read_matches tid) then
      (0, w.emit [Event.call hook cid data])
    else
      let (ok, mem1) := kmalloc w.mem
      let (_, c1) := client_addnotify ok c tid hook data
      (0, ({ w with mem := mem1 }).store cid c1)

/-- How the client loop of `read_callback` ends: it ran to its end (or to its
`break`), the `kmalloc` of the copy failed, or `client_addread` failed. -/
inductive loop_exit where
  | done
  | copy_failed
  | addread_failed
deriving DecidableEq, Repr

/-- The `list_for_each` over `dev->qmi.clients` in `read_callback`: the
registry, the allocator outcomes left, the effects, and the way it ended. -/
def read_callback_loop (cid tid : Nat) (data : List Nat) (size : Nat) :
    List client → List Bool → List client × List Bool × List Event × loop_exit
  | [], mem => ([], mem, [], loop_exit.done)
  | c :: rest, mem =>
    if c.cid == cid || (c.cid ||| 0xff00) == cid then
      let (ok1, mem1) := kmalloc mem
      if !ok1 then (c :: rest, mem1, [], loop_exit.copy_failed)
      else
        let copy := data.take size
        let (ok2, mem2) := kmalloc mem1
        let (added, c1) := client_addread ok2 c tid copy size
        if !added then (c :: rest, mem2, [Event.kfree copy], loop_exit.addread_failed)
        else
          let ev1 := match c1.handle with
            | some h => [Event.wake_up_interruptible h]
            | none => []
          let (_, c2, ev2) := client_notify c1 tid
          if cid >>> 8 != 0xff then (c2 :: rest, mem2, ev1 ++ ev2, loop_exit.done)
          else
            let (rest', mem3, ev3, ex) := read_callback_loop cid tid data size rest mem2
            (c2 :: rest', mem3, ev1 ++ ev2 ++ ev3, ex)
    else
      let (rest', mem1, ev, ex) := read_callback_loop cid tid data size rest mem
      (c :: rest', mem1, ev, ex)

/-- What the body of the client loop of `read_callback` does to one matching
client when both of its allocations succeed: the copy is queued, the bound
handle (if any) is woken, a notification is fired. The client afterwards and the
effects. -/
def read_callback_deliver (c : client) (tid : Nat) (data : List Nat) (size : Nat) :
    client × List Event :=
  let c1 : client := { c with reads := c.reads ++ [readreq.mk (data.take size) tid size] }
  let ev1 := match c1.handle with
    | some h => [Event.wake_up_interruptible h]
    | none => []
  ((client_notify c1 tid).2.1, ev1 ++ (client_notify c1 tid).2.2)

/-- The transaction id `read_callback` reads at offset `result + 1`: one byte
for the control client, two bytes (little endian) otherwise. -/
def read_tid (cid : Nat) (data : List Nat) (result : Nat) : Nat :=
  if cid = QMICTL then data.getD (result + 1) 0 % 256
  else data.getD (result + 1) 0 % 256 + 256 * (data.getD (result + 2) 0 % 256)

/-- The end of `read_callback` (lines 190-227): under `clients_lock` the
message is handed to the matching clients, then the interrupt URB is
resubmitted, except on the path where the copy could not be allocated. -/
def read_callback_dispatch (w : World) (cid tid : Nat) (data : List Nat) (size : Nat) : World :=
  let r := read_callback_loop cid tid data size w.dev.clients w.mem
  let w1 : World :=
    { dev := { w.dev with clients := r.1 }, mem := r.2.1, log := w.log ++ r.2.2.1 }
  if r.2.2.2 = loop_exit.copy_failed then w1 else w1.emit [Event.resubmit_int_urb]

/-- `read_callback`. -/
def read_callback (q : qmi_codec) (u : urb) (w : World) : World :=
  if u.status = 0 then
    let data := u.transfer_buffer
    let size := u.actual_length % 65536
    let (result, cid16) := q.qmux_parse data size
    let cid := cid16 % 65536
    if result < 0 then w.emit [Event.resubmit_int_urb]
    else if (size : Int) < result + 3 then w.emit [Event.resubmit_int_urb]
    else
      read_callback_dispatch w cid (read_tid cid data result.toNat) data size
  else if u.status = -ECONNRESET ∨ u.status = -ENOENT ∨ u.status = -ESHUTDOWN
      ∨ u.status = -EPROTO then w
  else w.emit [Event.resubmit_int_urb]

/-- One step of the environment. -/
def EnvEvent.run (q : qmi_codec) (w : World) : EnvEvent → World
  | EnvEvent.read_complete u => read_callback q u w
  | EnvEvent.set_dying => { w with dev := { w.dev with dying := true } }

/-- The environment's steps during one sleep. -/
def Sleep.run (q : qmi_codec) (s : Sleep) (w : World) : World :=
  s.events.foldl (EnvEvent.run q) w

/-! ## Synchronous read and write -/

/-- Dereference, after a sleep, of a client pointer obtained from
`client_bycid dev cid` before it; `old` is the value last seen. -/
def World.deref (w : World) (cid : Nat) (old : client) : client :=
  (client_bycid w.dev cid).getD old

/-- Whether `upsem` was invoked on the semaphore `sem` among the effects `ev`. -/
def sem_released (sem : Nat) (ev : List Event) : Bool :=
  ev.any (fun e =>
    match e with
    | Event.call func _ data => func == upsem && data == sem
    | _ => false)

/-- The `while (!client_delread(...))` loop of `read_sync`, for a caller whose
semaphore lives at `sem`; every iteration that has to sleep takes the next
`Sleep` of the script. -/
def read_sync_loop (q : qmi_codec) (sem cid tid : Nat) :
    List Sleep → World → Result (List Nat × Nat) × World
  | script, w =>
    match client_bycid w.dev cid with
    | none => (Result.err (- ENXIO), w)
    | some c =>
      match client_delread c tid with
      | (some (data, size), c1) => (Result.ok (data, size), w.store cid c1)
      | (none, _) =>
        let (ok, mem1) := kmalloc w.mem
        let (added, c1) := client_addnotify ok c tid upsem sem
        let w1 := ({ w with mem := mem1 }).store cid c1
        if !added then (Result.err (-EFAULT), w1)
        else
          match script with
          | [] => (Result.blocked, w1)
          | s :: script' =>
            let w2 := s.run q w1
            if sem_released sem (w2.log.drop w1.log.length) then
              if !device_connected w2.dev then (Result.err (- ENXIO), w2)
              else read_sync_loop q sem cid tid script' w2
            else if s.signal ≠ 0 then
              let c2 := w2.deref cid c1
              match list_del_first (fun n => n.data == sem) c2.notifies with
              | some (_, rest) =>
                (Result.err (-EINTR), w2.store cid { c2 with notifies := rest })
              | none => (Result.err (-EINTR), w2)
            else (Result.blocked, w2)

/-- `read_sync`: `Result.ok (data, size)` stands for the return value `size`
with `*buf = data`. -/
def read_sync (q : qmi_codec) (sem : Nat) (script : List Sleep) (w : World)
    (cid tid : Nat) : Result (List Nat × Nat) × World :=
  if !device_connected w.dev then (Result.err (- ENXIO), w)
  else
    match client_bycid w.dev cid with
    | none => (Result.err (- ENXIO), w)
    | some _ => read_sync_loop q sem cid tid script w

/-- What the transport does for one `write_sync`: the address returned by
`usb_alloc_urb` (`0` for `NULL`), the results of `usb_autopm_get_interface`
and of `usb_submit_urb`, the sleep in `down_interruptible` (its `signal` is
`0` when `write_callback` releases the semaphore), and `urb->status` after it. -/
structure write_env where
  urb : Nat
  autopm : Int
  submit : Int
  sleep : Sleep
  status : Int
deriving DecidableEq, Repr

/-- `write_sync`. -/
def write_sync (q : qmi_codec) (e : write_env) (w : World) (buf : List Nat) (size : Int)
    (cid : Nat) : Int × World :=
  if e.urb = 0 then (-ENOMEM, w)
  else
    let result := q.qmux_fill cid buf size
    if result < 0 then (result, w.emit [Event.usb_free_urb e.urb])
    else
      let w0 := w.emit [Event.usb_autopm_get_interface e.autopm]
      if e.autopm < 0 then (e.autopm, w0.emit [Event.usb_free_urb e.urb])
      else
        match client_bycid w0.dev cid with
        | none =>
          (-EINVAL, w0.emit [Event.usb_free_urb e.urb, Event.usb_autopm_put_interface])
        | some c =>
          let (ok, mem1) := kmalloc w0.mem
          let (added, c1) := client_addurb ok c e.urb
          let w1 := ({ w0 with mem := mem1 }).store cid c1
          if !added then
            (-EINVAL, w1.emit [Event.usb_free_urb e.urb, Event.usb_autopm_put_interface])
          else
            let w2 := w1.emit [Event.usb_submit_urb e.urb e.submit]
            if e.submit < 0 then
              let (_, c2) := client_delurb c1
              (e.submit, (w2.store cid c2).emit
                [Event.usb_free_urb e.urb, Event.usb_autopm_put_interface])
            else
              let w3 := (e.sleep.run q w2).emit [Event.usb_autopm_put_interface]
              let result := e.sleep.signal
              let (popped, c3) := client_delurb (w3.deref cid c1)
              let w4 := w3.store cid c3
              if popped ≠ some e.urb then (-EINVAL, w4.emit [Event.usb_free_urb e.urb])
              else if result = 0 then
                if e.status = 0 then (size, w4.emit [Event.usb_free_urb e.urb])
                else (e.status, w4.emit [Event.usb_free_urb e.urb])
              else
                (result, w4.emit [Event.usb_kill_urb e.urb, Event.usb_free_urb e.urb])

/-! ## Allocation and release of clients -/

/-- What the transport does for one control round trip (a `write_sync` then
a `read_sync` on the control client): the write, the address of the reader's
semaphore, and the reader's sleeps. -/
structure rpc_env where
  wr : write_env
  sem : Nat
  rd : List Sleep
deriving DecidableEq, Repr

/-- The idiom `tid = atomic_add_return(1, &dev->qmi.qmitid); if (!tid) tid =
atomic_add_return(1, &dev->qmi.qmitid);` with `u8 tid`. -/
def qmitid_next (w : World) : Nat × World :=
  let n1 := (w.dev.qmitid + 1) % 2 ^ 32
  if n1 % 256 = 0 then
    let n2 := (n1 + 1) % 2 ^ 32
    (n2 % 256, { w with dev := { w.dev with qmitid := n2 } })
  else (n1 % 256, { w with dev := { w.dev with qmitid := n1 } })

/-- The `if (type) { ... }` block of `client_alloc` (lines 638-674): the round
trip that obtains an identifier from the device. -/
def client_alloc_getcid (q : qmi_codec) (e : rpc_env) (w : World) (type : Nat) :
    Result Nat × World :=
  let (tid, w1) := qmitid_next w
  match q.qmictl_new_getcid tid type with
  | none => (Result.err (-ENOMEM), w1)
  | some wbuf =>
    let (result, w2) := write_sync q e.wr w1 wbuf wbuf.length QMICTL
    let w2 := w2.emit [Event.kfree wbuf]
    if result < 0 then (Result.err result, w2)
    else
      match read_sync q e.sem e.rd w2 QMICTL tid with
      | (Result.err code, w3) => (Result.err code, w3)
      | (Result.blocked, w3) => (Result.blocked, w3)
      | (Result.ok (rbuf, rbufsize), w3) =>
        let (result, cid16) := q.qmictl_alloccid_resp rbuf rbufsize
        let cid := cid16 % 65536
        let w4 := w3.emit [Event.kfree rbuf]
        if result < 0 then (Result.err result, w4)
        else if !device_connected w4.dev then (Result.err (- ENXIO), w4)
        else (Result.ok cid, w4)

/-- The end of `client_alloc` (lines 678-703): the duplicate check and the
insertion of the new client, under `clients_lock`. -/
def client_alloc_insert (w : World) (cid : Nat) : Result client × World :=
  match client_bycid w.dev cid with
  | some _ => (Result.err (-ETOOMANYREFS), w)
  | none =>
    let (ok, mem1) := kmalloc w.mem
    if !ok then (Result.err (-ENOMEM), { w with mem := mem1 })
    else
      let c : client := { cid := cid, reads := [], notifies := [], urbs := [], handle := none }
      (Result.ok c, { w with mem := mem1, dev := { w.dev with clients := w.dev.clients ++ [c] } })

/-- `client_alloc`: `Result.ok c` is the pointer to the new client,
`Result.err code` is `ERR_PTR(code)`. -/
def client_alloc (q : qmi_codec) (e : rpc_env) (w : World) (type : Nat) :
    Result client × World :=
  if !device_connected w.dev then (Result.err (- ENXIO), w)
  else if type ≠ 0 then
    match client_alloc_getcid q e w type with
    | (Result.ok cid, w1) => client_alloc_insert w1 cid
    | (Result.err code, w1) => (Result.err code, w1)
    | (Result.blocked, w1) => (Result.blocked, w1)
  else client_alloc_insert w 0

/-- The `if (cid != QMICTL && !dev->dying) { ... }` block of `client_free`
(lines 728-753): the best-effort round trip that tells the device that the
identifier is released. `false`: the caller is still asleep in `read_sync`. -/
def client_free_release (q : qmi_codec) (e : rpc_env) (w : World) (cid : Nat) :
    Bool × World :=
  let (tid, w1) := qmitid_next w
  match q.qmictl_new_releasecid tid cid with
  | none => (true, w1)
  | some wbuf =>
    let (result, w2) := write_sync q e.wr w1 wbuf wbuf.length QMICTL
    let w2 := w2.emit [Event.kfree wbuf]
    if result < 0 then (true, w2)
    else
      match read_sync q e.sem e.rd w2 QMICTL tid with
      | (Result.err _, w3) => (true, w3)
      | (Result.blocked, w3) => (false, w3)
      | (Result.ok (rbuf, _), w3) => (true, w3.emit [Event.kfree rbuf])

/-- `while (client_notify(client, dev, 0));` run at most `n` times. -/
def client_free_notifies : Nat → client → client × List Event
  | 0, c => (c, [])
  | n + 1, c =>
    match client_notify c 0 with
    | (true, c1, ev) =>
      let (c2, ev') := client_free_notifies n c1
      (c2, ev ++ ev')
    | (false, _, _) => (c, [])

/-- `while ((urb = client_delurb(client))) { usb_kill_urb(urb);
usb_free_urb(urb); }` run at most `n` times. -/
def client_free_urbs : Nat → client → client × List Event
  | 0, c => (c, [])
  | n + 1, c =>
    match client_delurb c with
    | (some urb, c1) =>
      let (c2, ev') := client_free_urbs n c1
      (c2, [Event.usb_kill_urb urb, Event.usb_free_urb urb] ++ ev')
    | (none, _) => (c, [])

/-- `while (client_delread(client, 0, &data, &size)) kfree(data);` run at most
`n` times. -/
def client_free_reads : Nat → client → client × List Event
  | 0, c => (c, [])
  | n + 1, c =>
    match client_delread c 0 with
    | (some (data, _), c1) =>
      let (c2, ev') := client_free_reads n c1
      (c2, [Event.kfree data] ++ ev')
    | (none, _) => (c, [])

/-- The end of `client_free` (lines 761-791): the client is unlinked from the
registry and its three queues are drained. Each loop removes one entry per
iteration, so the length of the queue bounds it. The result also gives the
client as it is when it is freed. -/
def client_free_unlink (w : World) (cid : Nat) : World × Option client :=
  match client_bycid w.dev cid with
  | none => (w, none)
  | some c =>
    let clients := w.dev.clients.eraseP (fun x => x.cid == cid)
    let (c1, ev1) := client_free_notifies c.notifies.length c
    let ev2 := match c1.handle with
      | some h => [Event.wake_up h]
      | none => []
    let (c2, ev3) := client_free_urbs c1.urbs.length c1
    let (c3, ev4) := client_free_reads c2.reads.length c2
    (({ w with dev := { w.dev with clients := clients } }).emit (ev1 ++ ev2 ++ ev3 ++ ev4),
      some c3)

/-- `client_free`. -/
def client_free (q : qmi_codec) (e : rpc_env) (w : World) (cid : Nat) :
    Result Unit × World :=
  if !w.dev.valid then (Result.ok (), w)
  else if cid ≠ QMICTL && !w.dev.dying then
    match client_free_release q e w cid with
    | (false, w1) => (Result.blocked, w1)
    | (true, w1) =>
      if !w1.dev.valid then (Result.ok (), w1)
      else (Result.ok (), (client_free_unlink w1 cid).1)
  else (Result.ok (), (client_free_unlink w cid).1)

/-- The `while (!list_empty(&dev->qmi.clients))` loop of `qc_deregister`, run
at most `n` times. -/
def qc_deregister_loop (q : qmi_codec) (e : rpc_env) : Nat → World → World
  | 0, w => w
  | n + 1, w =>
    match w.dev.clients with
    | [] => w
    | c :: _ => qc_deregister_loop q e n (client_free q e w c.cid).2

/-- `qc_deregister`, up to the removal of the device node. Every `client_free`
removes the head of the registry, so its length bounds the loop. -/
def qc_deregister (q : qmi_codec) (e : rpc_env) (w : World) : World :=
  if !w.dev.valid then w
  else
    let w1 := ({ w with dev := { w.dev with dying := true } }).emit [Event.qc_stopread]
    let w2 := qc_deregister_loop q e w1.dev.clients.length w1
    { w2 with dev := { w2.dev with valid := false } }

/-- A call on the registry. -/
inductive Op where
  | alloc (e : rpc_env) (type : Nat)
  | free (e : rpc_env) (cid : Nat)
  | deregister (e : rpc_env)
deriving DecidableEq, Repr

/-- The world after one call. -/
def Op.run (q : qmi_codec) (w : World) : Op → World
  | Op.alloc e type => (client_alloc q e w type).2
  | Op.free e cid => (client_free q e w cid).2
  | Op.deregister e => qc_deregister q e w

/-- The world after a sequence of calls. -/
def run_ops (q : qmi_codec) (w : World) (ops : List Op) : World :=
  ops.foldl (Op.run q) w

/-- The registry of `w'` holds the same identifiers, in the same order, as
the registry of `w`, and the `valid` flag is the same. -/
def World.same_ids (w w' : World) : Prop :=
  w'.dev.clients.map client.cid = w.dev.clients.map client.cid ∧ w'.dev.valid = w.dev.valid

/-! ## Registration -/

/-- What `qc_register` calls after it has allocated the control client. The
stages `qc_startread`, `qmi_ready(dev, 30000)`, `setup_wds_callback` and
`qmidms_getmeid` are given by their return value and their effect on the
world, `alloc_chrdev_region` and `cdev_add` by their return value; `qmiidx`
is the index parsed after `"qmi"` in the name of the network interface
(`simple_strtoul` stored in an `int`), `none` when `strstr` finds no `"qmi"`. -/
structure register_env where
  ctl : rpc_env
  qc_startread : World → Int × World
  qmi_ready : World → Bool × World
  setup_wds_callback : World → Int × World
  qmidms_getmeid : World → Int × World
  alloc_chrdev_region : Int
  cdev_add : Int
  qmiidx : Option Int

/-- The label `fail_start` of `qc_register`, reached with the error of the
failed stage in `result`: `dev->valid = false; return 0;`. -/
def qc_register_fail_start (_result : Int) (w : World) : Int × World :=
  (0, { w with dev := { w.dev with valid := false } })

/-- The label `fail_qmi` of `qc_register`: `qc_stopread(dev)`, then `fail_start`. -/
def qc_register_fail_qmi (result : Int) (w : World) : Int × World :=
  qc_register_fail_start result (w.emit [Event.qc_stopread])

/-- The label `fail_cdev` of `qc_register`: `unregister_chrdev_region`, then
`fail_qmi`. -/
def qc_register_fail_cdev (result : Int) (w : World) : Int × World :=
  qc_register_fail_qmi result (w.emit [Event.unregister_chrdev_region])

/-- The label `fail_name` of `qc_register`: `cdev_del`, then `fail_cdev`. -/
def qc_register_fail_name (result : Int) (w : World) : Int × World :=
  qc_register_fail_cdev result (w.emit [Event.cdev_del])

/-- `qc_register`. The allocation of the control client never sleeps, so the
branch `Result.blocked` is not taken. -/
def qc_register (q : qmi_codec) (e : register_env) (w : World) : Int × World :=
  let w0 : World := { w with dev := { w.dev with valid := true, dying := false } }
  match client_alloc q e.ctl w0 QMICTL with
  | (Result.err code, w1) => (code, { w1 with dev := { w1.dev with valid := false } })
  | (Result.blocked, w1) => (0, w1)
  | (Result.ok _, w1) =>
    let w2 : World := { w1 with dev := { w1.dev with qmitid := 1 } }
    let (result, w3) := e.qc_startread w2
    if result ≠ 0 then qc_register_fail_start result w3
    else
      let (ready, w4) := e.qmi_ready w3
      if !ready then qc_register_fail_qmi (-ETIMEDOUT) w4
      else
        let (result, w5) := e.setup_wds_callback w4
        if result ≠ 0 then qc_register_fail_qmi result w5
        else
          let (result, w6) := e.qmidms_getmeid w5
          if result ≠ 0 then qc_register_fail_qmi result w6
          else if e.alloc_chrdev_region < 0 then
            qc_register_fail_qmi e.alloc_chrdev_region w6
          else if e.cdev_add ≠ 0 then qc_register_fail_cdev e.cdev_add w6
          else
            match e.qmiidx with
            | none => qc_register_fail_name (- ENXIO) w6
            | some qmiidx =>
              if qmiidx < 0 then qc_register_fail_name (- ENXIO) w6
              else (0, w6.emit [Event.device_create qmiidx])

/-! ## The character device -/

/-- `devqmi_read` on a handle whose `cid` field is `hcid` (`0xFFFF`, that is
`(u16)-1`, on a handle bound to no client). `qmux_size` is the length of the
QMUX header (`qmi.c`), `size` the length of the caller's buffer, `uncopied`
the return value of `copy_to_user` (the number of bytes it could not copy).
Result: the return value, and the bytes written to the caller's buffer. The
comparison `result > size` is made on `unsigned long`, 32 bits wide here. -/
def devqmi_read (q : qmi_codec) (qmux_size : Nat) (sem : Nat) (script : List Sleep)
    (uncopied : Nat) (w : World) (hcid size : Nat) : Result Int × List Nat × World :=
  if !device_connected w.dev then (Result.err (- ENXIO), [], w)
  else if hcid = 0xFFFF then (Result.err (-EBADR), [], w)
  else
    match read_sync q sem script w hcid 0 with
    | (Result.err code, w1) => (Result.err code, [], w1)
    | (Result.blocked, w1) => (Result.blocked, [], w1)
    | (Result.ok (data, n), w1) =>
      if n = 0 then (Result.ok 0, [], w1)
      else
        let result : Int := (n : Int) - (qmux_size : Int)
        let smalldata := data.drop qmux_size
        if (result % 2 ^ 32).toNat > size then
          (Result.err (-EOVERFLOW), [], w1.emit [Event.kfree data])
        else if uncopied ≠ 0 then
          (Result.err (-EFAULT), smalldata.take (result.toNat - uncopied),
            w1.emit [Event.kfree data])
        else (Result.ok result, smalldata.take result.toNat, w1.emit [Event.kfree data])

/-- `devqmi_write` on a handle whose `cid` field is `hcid`; `buf` is the
caller's data (`size` is its length), `uncopied` the return value of
`copy_from_user`. The first `qmux_size` bytes of the kernel buffer are left
for `qmux_fill`. -/
def devqmi_write (q : qmi_codec) (qmux_size : Nat) (e : write_env) (uncopied : Nat)
    (w : World) (hcid : Nat) (buf : List Nat) : Int × World :=
  if !device_connected w.dev then (- ENXIO, w)
  else if hcid = 0xFFFF then (-EBADR, w)
  else
    let (ok, mem1) := kmalloc w.mem
    let w1 : World := { w with mem := mem1 }
    if !ok then (-ENOMEM, w1)
    else
      let wbuf := List.replicate qmux_size 0 ++ buf
      if uncopied ≠ 0 then ((uncopied : Int), w1.emit [Event.kfree wbuf])
      else
        let (status, w2) := write_sync q e w1 wbuf ((buf.length : Int) + (qmux_size : Int)) hcid
        let w3 := w2.emit [Event.kfree wbuf]
        if status = (buf.length : Int) + (qmux_size : Int) then ((buf.length : Int), w3)
        else (status, w3)

/-! ## The device list and its reference counts (`qcusbnet.c`) -/

/-- A device of the global list `qcusbnet_list`, as far as the list code looks
at it: its address, the address of its character device (`qmi.cdev`) and the
counter of its `struct kref`. The counter is an `atomic_t`; it is kept as an
unbounded integer (it counts the open handles of the device, far from
`2 ^ 31`). -/
structure qcusbnet_node where
  addr : Nat
  cdev : Nat
  refcount : Int
deriving DecidableEq, Repr

/-- `kref_get`: `atomic_inc`. -/
def kref_get (refcount : Int) : Int :=
  refcount + 1

/-- `kref_put`: `atomic_dec_and_test`; the counter afterwards, and whether the
release function is called. -/
def kref_put (refcount : Int) : Int × Bool :=
  (refcount - 1, decide (refcount - 1 = 0))

/-- `qcusbnet_put(dev)`, with `free_dev` as the release function: the counter of
the device at address `dev` is decremented, and the device is unlinked
(`list_del`) and freed when the counter reaches zero. The devices that exist
are those of the list: a put through a pointer to no device of the list finds
nothing to act on. -/
def qcusbnet_put (dev : Nat) : List qcusbnet_node → List qcusbnet_node
  | [] => []
  | e :: rest =>
    if e.addr = dev then
      if (kref_put e.refcount).2 then rest
      else { e with refcount := (kref_put e.refcount).1 } :: rest
    else e :: qcusbnet_put dev rest

/-- `qcusbnet_get(key)`: the result (`none` is `NULL`) and the list afterwards. -/
def qcusbnet_get (key : Nat) : List qcusbnet_node → Option Nat × List qcusbnet_node
  | [] => (none, [])
  | e :: rest =>
    if e.addr = key then (some e.addr, { e with refcount := kref_get e.refcount } :: rest)
    else
      let (r, rest') := qcusbnet_get key rest
      (r, e :: rest')

/-- A call on the device list. -/
inductive list_call where
  | get (key : Nat)
  | put (dev : Nat)
deriving DecidableEq, Repr

/-- The device list after one call. -/
def list_call.run (l : List qcusbnet_node) : list_call → List qcusbnet_node
  | list_call.get key => (qcusbnet_get key l).2
  | list_call.put dev => qcusbnet_put dev l

/-! ## Handles of the character device -/

/-- The value of the `n` bytes at offset `off` of a buffer, read as one
little-endian integer (`*(u64 *)buf`, `*(u32 *)(buf + 8)` on the little-endian
machines the driver runs on). -/
def read_le (data : List Nat) (off n : Nat) : Nat :=
  (List.range n).foldr (fun i acc => data.getD (off + i) 0 % 256 + 256 * acc) 0

def CDC_GET_MASK : Nat := 0xFFFF
def CDC_GET_ENCAPSULATED_RESPONSE : Nat := 0x01A1
def CDC_CONNECTION_SPEED_CHANGE : Nat := 0x08000000002AA1

/-- `set_bit(nr, &x)`. -/
def set_bit (nr x : Nat) : Nat :=
  x ||| (1 <<< nr)

/-- `clear_bit(nr, &x)`. -/
def clear_bit (nr x : Nat) : Nat :=
  x ^^^ (x &&& (1 <<< nr))

/-- `qc_setdown`: the word `dev->down` afterwards, and the effects. -/
def qc_setdown (down reason : Nat) : Nat × List Event :=
  (set_bit reason down, [Event.netif_carrier_off])

/-- `qc_cleardown`: the word `dev->down` afterwards, and the effects. -/
def qc_cleardown (down reason : Nat) : Nat × List Event :=
  (clear_bit reason down, if clear_bit reason down = 0 then [Event.netif_carrier_on] else [])

/-- `int_callback` on a completed interrupt URB `u`. `readurb` is the address
of the control-read URB and `submit` the return value of its `usb_submit_urb`;
`reason` is the bit number `DOWN_CDC_CONNECTION_SPEED`; `down` is the word
`dev->down`. Result: `dev->down` afterwards, and the effects. -/
def int_callback (u : urb) (readurb : Nat) (submit : Int) (reason down : Nat) :
    Nat × List Event :=
  if u.status ≠ 0 then
    if u.status ≠ -EOVERFLOW then (down, [])
    else (down, [Event.resubmit_int_urb])
  else if u.actual_length = 8 ∧
      read_le u.transfer_buffer 0 8 &&& CDC_GET_MASK = CDC_GET_ENCAPSULATED_RESPONSE then
    if submit ≠ 0 then (down, [Event.usb_submit_urb readurb submit])
    else (down, [Event.usb_submit_urb readurb submit, Event.resubmit_int_urb])
  else if u.actual_length = 16 ∧
      read_le u.transfer_buffer 0 8 = CDC_CONNECTION_SPEED_CHANGE then
    if read_le u.transfer_buffer 8 4 = 0 ∨ read_le u.transfer_buffer 12 4 = 0 then
      ((qc_setdown down reason).1, (qc_setdown down reason).2 ++ [Event.resubmit_int_urb])
    else
      ((qc_cleardown down reason).1,
        (qc_cleardown down reason).2 ++ [Event.resubmit_int_urb])
  else (down, [Event.resubmit_int_urb])

/-! ## The ready handshake -/

/-- What one pass of the loop of `qmi_ready` meets: the transport for its
`write_sync`, and what happens during its `msleep(100)`. -/
structure ready_env where
  wr : write_env
  msleep : List EnvEvent
deriving DecidableEq, Repr

/-- How one pass of the loop of `qmi_ready` ends: at the end of the body (the
loop goes on with `now += 100`), at a `break`, or at a `return`. -/
inductive ready_exit where
  | next
  | brk
  | ret (value : Bool)
deriving DecidableEq, Repr

/-- `kfree(wbuf)`, which does nothing for `NULL`. -/
def kfree_opt (wbuf : Option (List Nat)) : List Event :=
  match wbuf with
  | some buf => [Event.kfree buf]
  | none => []

/-- The body of the loop of `qmi_ready` (lines 1391-1433). `new_ready` is the
builder `qmictl_new_ready` of `qmi.c` (`none` for `NULL`), `sem` the address of
the local semaphore, `wbuf` the buffer of the previous pass. `down_trylock`
succeeds when `upsem` was invoked on `sem` since the `sema_init` at the start
of the pass. `return -ENOMEM` in a function returning `bool` returns `true`. -/
def qmi_ready_pass (q : qmi_codec) (new_ready : Nat → Option (List Nat)) (sem : Nat)
    (e : ready_env) (wbuf : Option (List Nat)) (w : World) :
    ready_exit × Option (List Nat) × World :=
  let (tid, w1) := qmitid_next w
  let w2 := w1.emit (kfree_opt wbuf)
  match new_ready tid with
  | none => (ready_exit.ret true, none, w2)
  | some buf =>
    let (result, w3) := read_async w2 QMICTL tid upsem sem
    if result ≠ 0 then (ready_exit.ret false, some buf, w3.emit [Event.kfree buf])
    else
      let (_, w4) := write_sync q e.wr w3 buf buf.length QMICTL
      let w5 := e.msleep.foldl (EnvEvent.run q) w4
      if sem_released sem (w5.log.drop w.log.length) then
        match client_bycid w5.dev QMICTL with
        | none => (ready_exit.brk, some buf, w5)
        | some c =>
          match client_delread c tid with
          | (some (rbuf, _), c1) =>
            (ready_exit.brk, some buf, (w5.store QMICTL c1).emit [Event.kfree rbuf])
          | (none, _) => (ready_exit.next, some buf, w5)
      else
        match client_bycid w5.dev QMICTL with
        | none => (ready_exit.brk, some buf, w5)
        | some c =>
          let (_, c1, ev) := client_notify c tid
          (ready_exit.next, some buf, (w5.store QMICTL c1).emit ev)

/-- The end of `qmi_ready` (lines 1436-1447): `kfree(wbuf)`, then `false` when
`now >= timeout` and `true` otherwise. -/
def qmi_ready_end (timeout now : Nat) (wbuf : Option (List Nat)) (w : World) :
    Result Bool × World :=
  (Result.ok (decide (¬ now ≥ timeout)), w.emit (kfree_opt wbuf))

/-- The loop `for (now = 0; now < timeout; now += 100)` of `qmi_ready`, from
the test of its condition with the counter at `now`; `now` and `timeout` are
`u16`. Every pass takes the next `ready_env`; `Result.blocked`: the loop is
still running when the script ends. -/
def qmi_ready_loop (q : qmi_codec) (new_ready : Nat → Option (List Nat)) (sem timeout : Nat) :
    List ready_env → Nat → Option (List Nat) → World → Result Bool × World
  | envs, now, wbuf, w =>
    if now < timeout then
      match envs with
      | [] => (Result.blocked, w)
      | e :: rest =>
        match qmi_ready_pass q new_ready sem e wbuf w with
        | (ready_exit.ret value, _, w1) => (Result.ok value, w1)
        | (ready_exit.brk, wbuf1, w1) => qmi_ready_end timeout now wbuf1 w1
        | (ready_exit.next, wbuf1, w1) =>
          qmi_ready_loop q new_ready sem timeout rest ((now + 100) % 65536) wbuf1 w1
    else qmi_ready_end timeout now wbuf w

/-- `qmi_ready(dev, timeout)`. -/
def qmi_ready (q : qmi_codec) (new_ready : Nat → Option (List Nat)) (sem : Nat)
    (envs : List ready_env) (timeout : Nat) (w : World) : Result Bool × World :=
  qmi_ready_loop q new_ready sem (timeout % 65536) envs 0 none w

/-! ## Delivery with the bodies of the hooks run -/

/-- A write through the pointer to the node of index `i` of the registry. -/
def World.store_at (w : World) (i : Nat) (c' : client) : World :=
  { w with dev := { w.dev with clients := w.dev.clients.set i c' } }

/-- One effect made on the world, with the table `hooks` of the bodies of the
hooks: an invocation `func(dev, cid, data)` is logged and then the body
`hooks func` is run; any other effect is logged. -/
def World.invoke (hooks : Nat → World → Nat → Nat → World) (w : World) : Event → World
  | Event.call func cid data => hooks func (w.emit [Event.call func cid data]) cid data
  | e => w.emit [e]

/-- `read_async`, the body of the hook run when it is invoked at once
(line 407). -/
def read_async_run (hooks : Nat → World → Nat → Nat → World) (w : World) (cid tid : Nat)
    (hook : Nat) (data : Nat) : Int × World :=
  match client_bycid w.dev cid with
  | none => (- ENXIO, w)
  | some c =>
    if c.reads.any (read_matches tid) then
      (0, w.invoke hooks (Event.call hook cid data))
    else
      let (ok, mem1) := kmalloc w.mem
      let (_, c1) := client_addnotify ok c tid hook data
      (0, ({ w with mem := mem1 }).store cid c1)

/-- `client_notify(client, dev, tid)` for the client at node `i` of the
registry, the body of the hook run at the call (line 897): the entry has been
unlinked (line 894) when the hook runs. -/
def client_notify_run (hooks : Nat → World → Nat → Nat → World) (i : Nat) (tid : Nat)
    (w : World) : Bool × World :=
  match w.dev.clients[i]? with
  | none => (false, w)
  | some c =>
    let (r, c1, ev) := client_notify c tid
    (r, ev.foldl (World.invoke hooks) (w.store_at i c1))

/-- The `list_for_each` over `dev->qmi.clients` in `read_callback`, the bodies
of the hooks run: `i` is the index of the node the cursor is on, `n` bounds the
nodes left to visit (the hooks of the driver change the queues of a client and
leave the linkage of the registry as it is, so the length of the registry at
entry is enough). -/
def read_callback_loop_run (hooks : Nat → World → Nat → Nat → World) (cid tid : Nat)
    (data : List Nat) (size : Nat) : Nat → Nat → World → World × loop_exit
  | 0, _, w => (w, loop_exit.done)
  | n + 1, i, w =>
    match w.dev.clients[i]? with
    | none => (w, loop_exit.done)
    | some c =>
      if c.cid == cid || (c.cid ||| 0xff00) == cid then
        let (ok1, mem1) := kmalloc w.mem
        if !ok1 then ({ w with mem := mem1 }, loop_exit.copy_failed)
        else
          let copy := data.take size
          let (ok2, mem2) := kmalloc mem1
          let (added, c1) := client_addread ok2 c tid copy size
          if !added then
            (({ w with mem := mem2 } : World).emit [Event.kfree copy], loop_exit.addread_failed)
          else
            let ev1 := match c1.handle with
              | some h => [Event.wake_up_interruptible h]
              | none => []
            let w1 := (({ w with mem := mem2 } : World).store_at i c1).emit ev1
            let (_, w2) := client_notify_run hooks i tid w1
            if cid >>> 8 != 0xff then (w2, loop_exit.done)
            else read_callback_loop_run hooks cid tid data size n (i + 1) w2
      else read_callback_loop_run hooks cid tid data size n (i + 1) w

/-- The end of `read_callback` (lines 190-227), the bodies of the hooks run. -/
def read_callback_dispatch_run (hooks : Nat → World → Nat → Nat → World) (w : World)
    (cid tid : Nat) (data : List Nat) (size : Nat) : World :=
  let r := read_callback_loop_run hooks cid tid data size w.dev.clients.length 0 w
  if r.2 = loop_exit.copy_failed then r.1 else r.1.emit [Event.resubmit_int_urb]

/-- `read_callback`, the bodies of the hooks run. -/
def read_callback_run (hooks : Nat → World → Nat → Nat → World) (q : qmi_codec) (u : urb)
    (w : World) : World :=
  if u.status = 0 then
    let data := u.transfer_buffer
    let size := u.actual_length % 65536
    let (result, cid16) := q.qmux_parse data size
    let cid := cid16 % 65536
    if result < 0 then w.emit [Event.resubmit_int_urb]
    else if (size : Int) < result + 3 then w.emit [Event.resubmit_int_urb]
    else
      read_callback_dispatch_run hooks w cid (read_tid cid data result.toNat) data size
  else if u.status = -ECONNRESET ∨ u.status = -ENOENT ∨ u.status = -ESHUTDOWN
      ∨ u.status = -EPROTO then w
  else w.emit [Event.resubmit_int_urb]

/-- Address of the hook `wds_callback`. -/
def wds_callback_addr : Nat := 2

/-- `wds_callback(dev, cid, data)` (lines 1450-1537), as far as the registry
goes: the client is looked up, its first buffered message is taken
(`client_delread` with transaction id 0) and freed, and the hook registers
itself again with `read_async(dev, cid, 0, wds_callback, data)`. The decoding of
the message into the statistics of the net device and into the link state
(lines 1486-1530) touches neither the registry nor the allocator and is left
out. `read_async` invokes the hook at once while a message is buffered, so the
first argument bounds the depth of that recursion. -/
def wds_callback_loop : Nat → World → Nat → Nat → World
  | 0, w, _, _ => w
  | fuel + 1, w, cid, data =>
    match client_bycid w.dev cid with
    | none => w
    | some c =>
      match client_delread c 0 with
      | (none, _) => w
      | (some (rbuf, _), c1) =>
        (read_async_run (fun _ => wds_callback_loop fuel)
          ((w.store cid c1).emit [Event.kfree rbuf]) cid 0 wds_callback_addr data).2

/-- `wds_callback`: every nested invocation takes one buffered message, so
one more than the number of buffered messages bounds the recursion. -/
def wds_callback (w : World) (cid data : Nat) : World :=
  wds_callback_loop (((client_bycid w.dev cid).map (fun c => c.reads.length)).getD 0 + 1)
    w cid data

/-- The bodies of the hooks of the driver, by address. `upsem` is `up(data)`:
the semaphore is released by the invocation itself, which the caller has
logged (see `sem_released`), so its body adds nothing. No other function is
passed to `read_async`. -/
def hook_body (func : Nat) (w : World) (cid data : Nat) : World :=
  if func = wds_callback_addr then wds_callback w cid data else w

/-! ## Notions used by the statements -/

/-- The effects of the end of `client_free` on a client `c`, in order: every
pending non-`NULL` hook invoked, the bound handle woken, every outstanding
write URB killed and freed, every buffered message freed. -/
def client_free_events (c : client) : List Event :=
  (c.notifies.filter (fun x => x.func != 0)).map (fun x => Event.call x.func c.cid x.data)
    ++ (match c.handle with
        | some h => [Event.wake_up h]
        | none => [])
    ++ c.urbs.flatMap (fun u => [Event.usb_kill_urb u, Event.usb_free_urb u])
    ++ c.reads.map (fun r => Event.kfree r.data)

/-- The effects `read_callback` can have: a hook invoked, a handle woken, a
copy freed, the interrupt URB resubmitted. -/
def Event.is_delivery : Event → Bool
  | Event.call _ _ _ => true
  | Event.wake_up_interruptible _ => true
  | Event.kfree _ => true
  | Event.resubmit_int_urb => true
  | _ => false

/-- What `read_callback` can do to one client: it keeps the identifier, the
outstanding writes and the handle, it appends to the response queue, it
removes entries from the notification queue. -/
def client.evolves (c c' : client) : Prop :=
  c'.cid = c.cid ∧ c'.urbs = c.urbs ∧ c'.handle = c.handle ∧
    c'.notifies.Sublist c.notifies ∧ c.reads <+: c'.reads

/-- The exits of the passes of the loop of `qmi_ready` run one after the other
on a script of environments, up to and including the first pass that does not
end at the end of the body. -/
def qmi_ready_exits (q : qmi_codec) (new_ready : Nat → Option (List Nat)) (sem : Nat) :
    List ready_env → Option (List Nat) → World → List ready_exit
  | [], _, _ => []
  | e :: rest, wbuf, w =>
    match qmi_ready_pass q new_ready sem e wbuf w with
    | (ready_exit.next, wbuf1, w1) =>
      ready_exit.next :: qmi_ready_exits q new_ready sem rest wbuf1 w1
    | (ex, _, _) => [ex]

/-! ## A concrete codec -/

/-- A codec to run the model on concrete inputs: a six-byte QMUX header with
the client id in bytes 4 and 5, a QMICTL message with its transaction id in
byte 7, and the allocated identifier in bytes 9 and 10 of the response. -/
def test_codec : qmi_codec where
  qmux_parse := fun data size =>
    if size < 6 then (-EINVAL, 0) else (6, data.getD 4 0 + 256 * data.getD 5 0)
  qmux_fill := fun _ _ size => if size < 6 then -EINVAL else 0
  qmictl_new_getcid := fun tid type => some [1, 0, 0, 0, 0, 0, 0, tid, 0x22, type]
  qmictl_alloccid_resp := fun buf size =>
    if size < 11 then (-EFAULT, 0) else (0, buf.getD 9 0 + 256 * buf.getD 10 0)
  qmictl_new_releasecid := fun tid cid => some [1, 0, 0, 0, 0, 0, 0, tid, 0x23, cid % 256, cid / 256]
  qmictl_freecid_resp := fun _ size => if size < 9 then -EFAULT else 0

/-! ## Lemmas on `list_del_first` -/

theorem list_del_first_none {α : Type} (p : α → Bool) (l : List α) :
    list_del_first p l = none ↔ ∀ x ∈ l, p x = false := by
  induction l with
  | nil => simp [list_del_first]
  | cons x rest ih =>
    unfold list_del_first
    by_cases hx : p x = true
    · simp [hx]
    · simp only [hx, Bool.false_eq_true, if_false]
      cases h : list_del_first p rest with
      | none =>
        have := ih.mp h
        simp only [List.mem_cons, forall_eq_or_imp, true_iff]
        exact ⟨by simpa using hx, this⟩
      | some r =>
        simp only [List.mem_cons, forall_eq_or_imp, false_iff, reduceCtorEq]
        intro hcon
        have := ih.mpr hcon.2
        rw [h] at this
        cases this

theorem list_del_first_some {α : Type} (p : α → Bool) (l : List α) (x : α) (rest : List α) :
    list_del_first p l = some (x, rest) ↔
      ∃ pre post, l = pre ++ x :: post ∧ rest = pre ++ post ∧ p x = true ∧
        ∀ y ∈ pre, p y = false := by
  induction l generalizing rest with
  | nil =>
    simp [list_del_first]
  | cons a l ih =>
    unfold list_del_first
    by_cases ha : p a = true
    · simp only [ha, if_true, Option.some.injEq, Prod.mk.injEq]
      constructor
      · rintro ⟨rfl, rfl⟩
        exact ⟨[], l, rfl, rfl, ha, by simp⟩
      · rintro ⟨pre, post, h1, h2, h3, h4⟩
        cases pre with
        | nil =>
          simp only [List.nil_append, List.cons.injEq] at h1
          obtain ⟨rfl, rfl⟩ := h1
          exact ⟨rfl, by simp [h2]⟩
        | cons b pre =>
          simp only [List.cons_append, List.cons.injEq] at h1
          have := h4 b (by simp)
          rw [← h1.1, ha] at this
          cases this
    · simp only [ha, Bool.false_eq_true, if_false]
      constructor
      · intro h
        cases h' : list_del_first p l with
        | none => rw [h'] at h; cases h
        | some r =>
          obtain ⟨y, rest'⟩ := r
          rw [h'] at h
          simp only [Option.some.injEq, Prod.mk.injEq] at h
          obtain ⟨rfl, rfl⟩ := h
          obtain ⟨pre, post, h1, h2, h3, h4⟩ := (ih rest').mp h'
          refine ⟨a :: pre, post, by simp [h1], by simp [h2], h3, ?_⟩
          intro z hz
          rcases List.mem_cons.mp hz with rfl | hz
          · simpa using ha
          · exact h4 z hz
      · rintro ⟨pre, post, h1, h2, h3, h4⟩
        cases pre with
        | nil =>
          simp only [List.nil_append, List.cons.injEq] at h1
          rw [← h1.1] at h3
          exact absurd h3 ha
        | cons b pre =>
          simp only [List.cons_append, List.cons.injEq] at h1
          obtain ⟨rfl, rfl⟩ := h1
          have := (ih (pre ++ post)).mpr ⟨pre, post, rfl, rfl, h3, fun y hy => h4 y (by simp [hy])⟩
          rw [this, h2]
          rfl

/-! ## Lemmas on the match tests -/

theorem read_matches_iff (tid : Nat) (req : readreq) :
    read_matches tid req = true ↔ (tid = 0 ∨ req.tid = tid) := by
  simp only [read_matches, Bool.or_eq_true, beq_iff_eq]
  constructor
  · rintro (h | h)
    · exact Or.inl h
    · exact Or.inr h.symm
  · rintro (h | h)
    · exact Or.inl h
    · exact Or.inr h.symm

theorem read_matches_false_iff (tid : Nat) (req : readreq) :
    read_matches tid req = false ↔ (tid ≠ 0 ∧ req.tid ≠ tid) := by
  rw [← Bool.not_eq_true, read_matches_iff]
  push_neg
  rfl

theorem notify_matches_iff (tid : Nat) (n : notifyreq) :
    notify_matches tid n = true ↔ (tid = 0 ∨ n.tid = 0 ∨ n.tid = tid) := by
  simp only [notify_matches, Bool.or_eq_true, beq_iff_eq]
  constructor
  · rintro ((h | h) | h)
    · exact Or.inl h
    · exact Or.inr (Or.inl h)
    · exact Or.inr (Or.inr h.symm)
  · rintro (h | h | h)
    · exact Or.inl (Or.inl h)
    · exact Or.inl (Or.inr h)
    · exact Or.inr h.symm

theorem notify_matches_false_iff (tid : Nat) (n : notifyreq) :
    notify_matches tid n = false ↔ (tid ≠ 0 ∧ n.tid ≠ 0 ∧ n.tid ≠ tid) := by
  rw [← Bool.not_eq_true, notify_matches_iff]
  push_neg
  rfl

theorem client_delread_of_split (c : client) (tid : Nat) (pre post : List readreq)
    (req : readreq) (hsplit : c.reads = pre ++ req :: post)
    (hreq : read_matches tid req = true) (hpre : ∀ x ∈ pre, read_matches tid x = false) :
    client_delread c tid = (some (req.data, req.size), { c with reads := pre ++ post }) := by
  have h := (list_del_first_some (read_matches tid) c.reads req (pre ++ post)).mpr
    ⟨pre, post, hsplit, rfl, hreq, hpre⟩
  simp [client_delread, h]

theorem client_delread_none_iff (c : client) (tid : Nat) :
    (client_delread c tid).1 = none ↔ ∀ x ∈ c.reads, read_matches tid x = false := by
  rw [← list_del_first_none]
  unfold client_delread
  cases h : list_del_first (read_matches tid) c.reads with
  | none => simp
  | some r => simp

theorem client_delread_none (c : client) (tid : Nat)
    (h : (client_delread c tid).1 = none) : client_delread c tid = (none, c) := by
  unfold client_delread at h ⊢
  cases h' : list_del_first (read_matches tid) c.reads with
  | none => rfl
  | some r => rw [h'] at h; simp at h

theorem client_delread_some (c : client) (tid : Nat) (d : List Nat × Nat)
    (h : (client_delread c tid).1 = some d) :
    ∃ pre req post, c.reads = pre ++ req :: post ∧ d = (req.data, req.size) ∧
      (∀ x ∈ pre, read_matches tid x = false) ∧ read_matches tid req = true ∧
      (client_delread c tid).2 = { c with reads := pre ++ post } := by
  unfold client_delread at h ⊢
  cases h' : list_del_first (read_matches tid) c.reads with
  | none => rw [h'] at h; simp at h
  | some r =>
    obtain ⟨req, rest⟩ := r
    rw [h'] at h
    simp only [Option.some.injEq] at h
    obtain ⟨pre, post, h1, h2, h3, h4⟩ := (list_del_first_some _ _ _ _).mp h'
    exact ⟨pre, req, post, h1, h.symm, h4, h3, by simp [h2]⟩

/-! ## Lemmas on the registry -/

theorem client_bycid_iff (dev : qcusbnet) (cid : Nat) (c : client) :
    client_bycid dev cid = some c ↔
      ∃ pre post, dev.clients = pre ++ c :: post ∧ c.cid = cid ∧ ∀ x ∈ pre, x.cid ≠ cid := by
  unfold client_bycid
  generalize dev.clients = l
  induction l with
  | nil => simp
  | cons a l ih =>
    by_cases ha : a.cid = cid
    · have : (a.cid == cid) = true := by simp [ha]
      simp only [List.find?_cons, this, Option.some.injEq]
      constructor
      · rintro rfl
        exact ⟨[], l, rfl, ha, by simp⟩
      · rintro ⟨pre, post, h1, h2, h3⟩
        cases pre with
        | nil => simp at h1; exact h1.1
        | cons b pre =>
          simp only [List.cons_append, List.cons.injEq] at h1
          exact absurd (h1.1 ▸ ha) (h3 b (by simp))
    · have : (a.cid == cid) = false := by simp [ha]
      simp only [List.find?_cons, this]
      rw [ih]
      constructor
      · rintro ⟨pre, post, h1, h2, h3⟩
        refine ⟨a :: pre, post, by simp [h1], h2, ?_⟩
        intro x hx
        rcases List.mem_cons.mp hx with rfl | hx
        · exact ha
        · exact h3 x hx
      · rintro ⟨pre, post, h1, h2, h3⟩
        cases pre with
        | nil =>
          simp only [List.nil_append, List.cons.injEq] at h1
          exact absurd (h1.1 ▸ h2) ha
        | cons b pre =>
          simp only [List.cons_append, List.cons.injEq] at h1
          exact ⟨pre, post, h1.2, h2, fun x hx => h3 x (by simp [hx])⟩

theorem client_bycid_cid (dev : qcusbnet) (cid : Nat) (c : client)
    (h : client_bycid dev cid = some c) : c.cid = cid := by
  obtain ⟨_, _, _, h2, _⟩ := (client_bycid_iff dev cid c).mp h
  exact h2

theorem client_bycid_none_iff (dev : qcusbnet) (cid : Nat) :
    client_bycid dev cid = none ↔ cid ∉ dev.clients.map client.cid := by
  unfold client_bycid
  simp

theorem client_bycid_congr (dev dev' : qcusbnet) (h : dev'.clients = dev.clients) (cid : Nat) :
    client_bycid dev' cid = client_bycid dev cid := by
  unfold client_bycid
  rw [h]

theorem client_store_split (cid : Nat) (c c' : client) (pre post : List client)
    (hc : c.cid = cid) (hpre : ∀ x ∈ pre, x.cid ≠ cid) :
    client_store cid c' (pre ++ c :: post) = pre ++ c' :: post := by
  induction pre with
  | nil => simp [client_store, hc]
  | cons a pre ih =>
    have ha : (a.cid == cid) = false := by simpa using hpre a (by simp)
    have ih' := ih (fun x hx => hpre x (by simp [hx]))
    simp only [List.cons_append, client_store, ha, Bool.false_eq_true, if_false, List.cons.injEq,
      true_and]
    exact ih'

theorem client_store_none (cid : Nat) (c' : client) (l : List client)
    (h : ∀ x ∈ l, x.cid ≠ cid) : client_store cid c' l = l := by
  induction l with
  | nil => rfl
  | cons a l ih =>
    have ha : (a.cid == cid) = false := by simpa using h a (by simp)
    simp only [client_store, ha, Bool.false_eq_true, if_false]
    rw [ih (fun x hx => h x (by simp [hx]))]

theorem client_store_self (dev : qcusbnet) (cid : Nat) (c : client)
    (h : client_bycid dev cid = some c) : client_store cid c dev.clients = dev.clients := by
  obtain ⟨pre, post, h1, h2, h3⟩ := (client_bycid_iff dev cid c).mp h
  rw [h1, client_store_split cid c c pre post h2 h3]

theorem client_store_cids (cid : Nat) (c' : client) (l : List client) (hc : c'.cid = cid) :
    (client_store cid c' l).map client.cid = l.map client.cid := by
  induction l with
  | nil => rfl
  | cons a l ih =>
    by_cases ha : a.cid = cid
    · have : (a.cid == cid) = true := by simp [ha]
      simp [client_store, this, hc, ha]
    · have : (a.cid == cid) = false := by simp [ha]
      simp [client_store, this, ih]

theorem client_bycid_store_same (w : World) (cid : Nat) (c c' : client)
    (h : client_bycid w.dev cid = some c) (hc : c'.cid = cid) :
    client_bycid (w.store cid c').dev cid = some c' := by
  obtain ⟨pre, post, h1, h2, h3⟩ := (client_bycid_iff w.dev cid c).mp h
  rw [client_bycid_iff]
  exact ⟨pre, post, by simp [World.store, h1, client_store_split cid c c' pre post h2 h3], hc, h3⟩

theorem client_bycid_store_other (w : World) (cid cid' : Nat) (c' : client)
    (hc : c'.cid = cid) (hne : cid' ≠ cid) :
    client_bycid (w.store cid c').dev cid' = client_bycid w.dev cid' := by
  unfold client_bycid World.store
  simp only
  generalize w.dev.clients = l
  induction l with
  | nil => rfl
  | cons a l ih =>
    by_cases ha : a.cid = cid
    · have h1 : (a.cid == cid) = true := by simp [ha]
      have h2 : (a.cid == cid') = false := by simp [ha, Ne.symm hne]
      have h3 : (c'.cid == cid') = false := by simp [hc, Ne.symm hne]
      simp [client_store, h1, h2, h3]
    · have h1 : (a.cid == cid) = false := by simp [ha]
      simp only [client_store, h1, Bool.false_eq_true, if_false, List.find?_cons]
      rw [ih]

/-! ## C1, C2: the response queue -/

/-- C1: `client_delread` returns the data and size of the earliest entry whose
transaction id equals the filter, or of the head entry when the filter is 0; it
returns false exactly when no entry is eligible; and `read_sync` on a
connected device returns that same entry, without sleeping, when there is one. -/
theorem client_delread_first_match (c : client) (tid : Nat) :
    (∀ pre req post, c.reads = pre ++ req :: post →
        (tid = 0 → pre = []) → (tid ≠ 0 → req.tid = tid ∧ ∀ x ∈ pre, x.tid ≠ tid) →
        (client_delread c tid).1 = some (req.data, req.size)) ∧
    ((client_delread c tid).1 = none ↔ ∀ x ∈ c.reads, ¬ (tid = 0 ∨ x.tid = tid)) ∧
    (∀ (q : qmi_codec) (sem : Nat) (script : List Sleep) (w : World) (cid : Nat)
        (d : List Nat × Nat),
        device_connected w.dev = true → client_bycid w.dev cid = some c →
        (client_delread c tid).1 = some d →
        (read_sync q sem script w cid tid).1 = Result.ok d) := by
  refine ⟨?_, ?_, ?_⟩
  · intro pre req post hsplit h0 h1
    have hreq : read_matches tid req = true := by
      rw [read_matches_iff]
      by_cases ht : tid = 0
      · exact Or.inl ht
      · exact Or.inr (h1 ht).1
    have hpre : ∀ x ∈ pre, read_matches tid x = false := by
      intro x hx
      by_cases ht : tid = 0
      · rw [h0 ht] at hx; cases hx
      · rw [read_matches_false_iff]; exact ⟨ht, (h1 ht).2 x hx⟩
    rw [client_delread_of_split c tid pre post req hsplit hreq hpre]
  · rw [client_delread_none_iff]
    constructor
    · intro h x hx
      have := (read_matches_false_iff tid x).mp (h x hx)
      push_neg
      exact this
    · intro h x hx
      rw [read_matches_false_iff]
      have := h x hx
      push_neg at this
      exact this
  · intro q sem script w cid d hconn hc hd
    unfold read_sync
    simp only [hconn, Bool.not_true, Bool.false_eq_true, if_false, hc]
    cases script <;>
    · unfold read_sync_loop
      simp only [hc]
      rcases hdel : client_delread c tid with ⟨_ | ⟨data, size⟩, c1⟩
      · rw [hdel] at hd; simp at hd
      · rw [hdel] at hd
        simp only [Option.some.injEq] at hd
        simp [← hd]

/-- A use of C1: filter 7 skips the entry of transaction 5 and returns the
first entry of transaction 7. -/
theorem client_delread_first_match_witness :
    (client_delread ⟨3, [⟨[1], 5, 1⟩, ⟨[2, 2], 7, 2⟩, ⟨[3], 7, 1⟩], [], [], none⟩ 7).1
      = some ([2, 2], 2) :=
  (client_delread_first_match ⟨3, [⟨[1], 5, 1⟩, ⟨[2, 2], 7, 2⟩, ⟨[3], 7, 1⟩], [], [], none⟩ 7).1
    [⟨[1], 5, 1⟩] ⟨[2, 2], 7, 2⟩ [⟨[3], 7, 1⟩] rfl (by decide) (by decide)

/-- C2: a successful `client_delread` leaves the queue equal to the old queue
with exactly the returned entry removed (the skipped entries before it and the
entries after it keep their order, the rest of the client is untouched); a
failed one leaves the client unchanged. -/
theorem client_delread_frame (c : client) (tid : Nat) :
    (∀ d, (client_delread c tid).1 = some d →
      ∃ pre req post, c.reads = pre ++ req :: post ∧ d = (req.data, req.size) ∧
        (∀ x ∈ pre, ¬ (tid = 0 ∨ x.tid = tid)) ∧ (tid = 0 ∨ req.tid = tid) ∧
        (client_delread c tid).2 = { c with reads := pre ++ post }) ∧
    ((client_delread c tid).1 = none → (client_delread c tid).2 = c) := by
  constructor
  · intro d hd
    obtain ⟨pre, req, post, h1, h2, h3, h4, h5⟩ := client_delread_some c tid d hd
    refine ⟨pre, req, post, h1, h2, ?_, (read_matches_iff tid req).mp h4, h5⟩
    intro x hx
    have := (read_matches_false_iff tid x).mp (h3 x hx)
    push_neg
    exact this
  · intro h
    rw [client_delread_none c tid h]

/-- A use of C2: the skipped entry and the later entry stay, in order. -/
theorem client_delread_frame_witness :
    ∃ pre req post,
      [(⟨[1], 5, 1⟩ : readreq), ⟨[2, 2], 7, 2⟩, ⟨[3], 7, 1⟩] = pre ++ req :: post ∧
      (([2, 2], 2) : List Nat × Nat) = (req.data, req.size) ∧
      (∀ x ∈ pre, ¬ (7 = 0 ∨ x.tid = 7)) ∧ (7 = 0 ∨ req.tid = 7) ∧
      (client_delread ⟨3, [⟨[1], 5, 1⟩, ⟨[2, 2], 7, 2⟩, ⟨[3], 7, 1⟩], [], [], none⟩ 7).2
        = ⟨3, pre ++ post, [], [], none⟩ :=
  (client_delread_frame ⟨3, [⟨[1], 5, 1⟩, ⟨[2, 2], 7, 2⟩, ⟨[3], 7, 1⟩], [], [], none⟩ 7).1
    ([2, 2], 2) (by decide)

/-! ## C4: firing a notification -/

theorem client_notify_of_split (c : client) (tid : Nat) (pre post : List notifyreq)
    (n : notifyreq) (hsplit : c.notifies = pre ++ n :: post)
    (hn : notify_matches tid n = true) (hpre : ∀ x ∈ pre, notify_matches tid x = false) :
    client_notify c tid = (true, { c with notifies := pre ++ post },
      if n.func ≠ 0 then [Event.call n.func c.cid n.data] else []) := by
  have h := (list_del_first_some (notify_matches tid) c.notifies n (pre ++ post)).mpr
    ⟨pre, post, hsplit, rfl, hn, hpre⟩
  simp [client_notify, h]

theorem client_notify_none (c : client) (tid : Nat)
    (h : ∀ x ∈ c.notifies, notify_matches tid x = false) :
    client_notify c tid = (false, c, []) := by
  have h' := (list_del_first_none (notify_matches tid) c.notifies).mpr h
  simp [client_notify, h']

/-- C4, as stated, fails: fired with transaction id 0, `client_notify` removes
and invokes the head entry although its filter (5) is neither zero nor equal to
the fired id, and returns true. -/
theorem client_notify_claim_fails :
    ¬ (∀ (c : client) (tid : Nat),
        (∀ n ∈ c.notifies, ¬ (n.tid = 0 ∨ n.tid = tid)) →
        client_notify c tid = (false, c, [])) := by
  intro h
  have := h ⟨3, [], [⟨7, 5, 9⟩], [], none⟩ 0 (by decide)
  revert this
  decide

/-- C4, amended: `client_notify` removes the first entry that is eligible,
where every entry is eligible when the fired id is 0, and otherwise an entry is
eligible when its filter is zero or equal to the fired id; the hook of that
entry is invoked once (unless it is `NULL`), all other entries stay queued in
order, and the result is true. When no entry is eligible nothing is invoked,
the client is unchanged and the result is false. -/
theorem client_notify_spec (c : client) (tid : Nat) :
    (∀ pre n post, c.notifies = pre ++ n :: post →
        (tid = 0 ∨ n.tid = 0 ∨ n.tid = tid) →
        (∀ x ∈ pre, tid ≠ 0 ∧ x.tid ≠ 0 ∧ x.tid ≠ tid) →
        client_notify c tid = (true, { c with notifies := pre ++ post },
          if n.func ≠ 0 then [Event.call n.func c.cid n.data] else [])) ∧
    ((∀ x ∈ c.notifies, tid ≠ 0 ∧ x.tid ≠ 0 ∧ x.tid ≠ tid) →
        client_notify c tid = (false, c, [])) ∧
    ((client_notify c tid).1 = false →
        ∀ x ∈ c.notifies, tid ≠ 0 ∧ x.tid ≠ 0 ∧ x.tid ≠ tid) := by
  refine ⟨?_, ?_, ?_⟩
  · intro pre n post hsplit hn hpre
    exact client_notify_of_split c tid pre post n hsplit ((notify_matches_iff tid n).mpr hn)
      (fun x hx => (notify_matches_false_iff tid x).mpr (hpre x hx))
  · intro h
    exact client_notify_none c tid (fun x hx => (notify_matches_false_iff tid x).mpr (h x hx))
  · intro h x hx
    rw [← notify_matches_false_iff]
    have hnone : list_del_first (notify_matches tid) c.notifies = none := by
      unfold client_notify at h
      cases h' : list_del_first (notify_matches tid) c.notifies with
      | none => rfl
      | some r => rw [h'] at h; simp at h
    exact (list_del_first_none _ _).mp hnone x hx

/-- A use of the amended C4: fired with id 7, the entry filtered on 5 is
skipped and the entry filtered on 7 is removed and invoked. -/
theorem client_notify_spec_witness :
    client_notify ⟨3, [], [⟨11, 5, 9⟩, ⟨12, 7, 8⟩, ⟨13, 0, 6⟩], [], none⟩ 7
      = (true, ⟨3, [], [⟨11, 5, 9⟩, ⟨13, 0, 6⟩], [], none⟩, [Event.call 12 3 8]) :=
  (client_notify_spec ⟨3, [], [⟨11, 5, 9⟩, ⟨12, 7, 8⟩, ⟨13, 0, 6⟩], [], none⟩ 7).1
    [⟨11, 5, 9⟩] ⟨12, 7, 8⟩ [⟨13, 0, 6⟩] rfl (by decide) (by decide)

/-! ## C3: asynchronous read -/

theorem reads_any_iff (c : client) (tid : Nat) :
    c.reads.any (read_matches tid) = true ↔ ∃ r ∈ c.reads, tid = 0 ∨ r.tid = tid := by
  simp only [List.any_eq_true, read_matches_iff]

/-- C3, as stated, fails: when the `kmalloc` of the notification entry fails,
`read_async` returns 0 but nothing is appended to the notification queue. -/
theorem read_async_claim_fails :
    ¬ (∀ (w : World) (cid tid hook data : Nat) (c : client),
        hook ≠ 0 → client_bycid w.dev cid = some c →
        (∀ r ∈ c.reads, ¬ (tid = 0 ∨ r.tid = tid)) →
        client_bycid (read_async w cid tid hook data).2.dev cid
          = some { c with notifies := c.notifies ++ [notifyreq.mk hook tid data] }) := by
  intro h
  have := h ⟨⟨true, false, 0, [⟨3, [], [], [], none⟩]⟩, [false], []⟩ 3 5 7 9
    ⟨3, [], [], [], none⟩ (by decide) (by decide) (by decide)
  revert this
  decide

/-- C3, amended: for an existing client and a hook, (1) if the response queue
holds an eligible entry (any entry when the filter is 0), `read_async` invokes
the hook exactly once, registers nothing, changes no queue and returns 0;
(2) otherwise, when the allocation of the notification entry succeeds, it
invokes nothing, appends (tid, hook, context) at the tail of the client's
notification queue and returns 0, the response queue and all other clients
staying as they were; (3) when that allocation fails it invokes nothing and
registers nothing: no queue changes. -/
theorem read_async_spec (w : World) (cid tid hook data : Nat) (c : client)
    (_hhook : hook ≠ 0) (hc : client_bycid w.dev cid = some c) :
    ((∃ r ∈ c.reads, tid = 0 ∨ r.tid = tid) →
        read_async w cid tid hook data
          = (0, { w with log := w.log ++ [Event.call hook cid data] })) ∧
    ((∀ r ∈ c.reads, ¬ (tid = 0 ∨ r.tid = tid)) → (kmalloc w.mem).1 = true →
        read_async w cid tid hook data
          = (0, ({ w with mem := (kmalloc w.mem).2 }).store cid
              { c with notifies := c.notifies ++ [notifyreq.mk hook tid data] }) ∧
        (read_async w cid tid hook data).2.log = w.log ∧
        client_bycid (read_async w cid tid hook data).2.dev cid
          = some { c with notifies := c.notifies ++ [notifyreq.mk hook tid data] } ∧
        ∀ cid', cid' ≠ cid →
          client_bycid (read_async w cid tid hook data).2.dev cid' = client_bycid w.dev cid') ∧
    ((∀ r ∈ c.reads, ¬ (tid = 0 ∨ r.tid = tid)) → (kmalloc w.mem).1 = false →
        (read_async w cid tid hook data).2 = { w with mem := (kmalloc w.mem).2 }) := by
  have hcid : c.cid = cid := client_bycid_cid w.dev cid c hc
  refine ⟨?_, ?_, ?_⟩
  · intro h
    have hany := (reads_any_iff c tid).mpr h
    simp [read_async, hc, hany, World.emit]
  · intro h hk
    have hany : c.reads.any (read_matches tid) = false := by
      rw [← Bool.not_eq_true, reads_any_iff]
      push_neg
      intro r hr
      have := h r hr
      push_neg at this
      exact this
    have heq : read_async w cid tid hook data
          = (0, ({ w with mem := (kmalloc w.mem).2 }).store cid
              { c with notifies := c.notifies ++ [notifyreq.mk hook tid data] }) := by
      simp [read_async, hc, hany, client_addnotify, hk]
    refine ⟨heq, ?_, ?_, ?_⟩
    · rw [heq]; rfl
    · rw [heq]
      exact client_bycid_store_same { w with mem := (kmalloc w.mem).2 } cid c _ hc hcid
    · intro cid' hne
      rw [heq]
      exact client_bycid_store_other { w with mem := (kmalloc w.mem).2 } cid cid' _ hcid hne
  · intro h hk
    have hany : c.reads.any (read_matches tid) = false := by
      rw [← Bool.not_eq_true, reads_any_iff]
      push_neg
      intro r hr
      have := h r hr
      push_neg at this
      exact this
    have hst := client_store_self w.dev cid c hc
    simp [read_async, hc, hany, client_addnotify, hk, World.store, hst]

/-- A use of the amended C3: a response of transaction 5 is buffered, so a
`read_async` filtered on 5 invokes the hook at once and registers nothing. -/
theorem read_async_spec_witness :
    read_async ⟨⟨true, false, 0, [⟨3, [⟨[1], 5, 1⟩], [], [], none⟩]⟩, [], []⟩ 3 5 7 9
      = (0, ⟨⟨true, false, 0, [⟨3, [⟨[1], 5, 1⟩], [], [], none⟩]⟩, [], [Event.call 7 3 9]⟩) :=
  (read_async_spec ⟨⟨true, false, 0, [⟨3, [⟨[1], 5, 1⟩], [], [], none⟩]⟩, [], []⟩ 3 5 7 9
    ⟨3, [⟨[1], 5, 1⟩], [], [], none⟩ (by decide) (by decide)).1
    ⟨⟨[1], 5, 1⟩, by decide, by decide⟩

/-! ## Lemmas on `read_callback` -/

theorem or_ff00_shift (x cid : Nat) (h : x ||| 0xff00 = cid) (hc : cid < 65536) :
    cid >>> 8 = 0xff := by
  subst h
  apply Nat.eq_of_testBit_eq
  intro i
  rw [Nat.testBit_shiftRight, Nat.testBit_or]
  by_cases hi : i < 8
  · have h1 : Nat.testBit 0xff00 (8 + i) = true := by
      interval_cases i <;> decide
    have h2 : Nat.testBit 0xff i = true := by
      interval_cases i <;> decide
    rw [h1, h2, Bool.or_true]
  · have hlt : x ||| 0xff00 < 2 ^ (8 + i) :=
      lt_of_lt_of_le hc (by
        have : (65536 : Nat) = 2 ^ 16 := by norm_num
        rw [this]
        exact Nat.pow_le_pow_right (by norm_num) (by omega))
    have h1 := Nat.testBit_lt_two_pow hlt
    rw [Nat.testBit_or] at h1
    have h2 : Nat.testBit 0xff i = false :=
      Nat.testBit_lt_two_pow (lt_of_lt_of_le (by norm_num : (0xff : Nat) < 2 ^ 8)
        (Nat.pow_le_pow_right (by norm_num) (by omega)))
    rw [h1, h2]

theorem kmalloc_all_ok (mem : List Bool) (h : ∀ b ∈ mem, b = true) :
    kmalloc mem = (true, mem.tail) ∧ ∀ b ∈ mem.tail, b = true := by
  cases mem with
  | nil => simp [kmalloc]
  | cons a m =>
    have ha : a = true := h a (by simp)
    subst ha
    exact ⟨rfl, fun b hb => h b (by simp at hb; simp [hb])⟩

theorem read_callback_loop_cons (cid tid : Nat) (data : List Nat) (size : Nat) (c : client)
    (rest : List client) (mem : List Bool) :
    read_callback_loop cid tid data size (c :: rest) mem =
      if (c.cid == cid || (c.cid ||| 0xff00) == cid) = true then
        if (kmalloc mem).1 = false then (c :: rest, (kmalloc mem).2, [], loop_exit.copy_failed)
        else if (kmalloc (kmalloc mem).2).1 = false then
          (c :: rest, (kmalloc (kmalloc mem).2).2, [Event.kfree (data.take size)],
            loop_exit.addread_failed)
        else if cid >>> 8 ≠ 0xff then
          ((read_callback_deliver c tid data size).1 :: rest, (kmalloc (kmalloc mem).2).2,
            (read_callback_deliver c tid data size).2, loop_exit.done)
        else
          ((read_callback_deliver c tid data size).1
              :: (read_callback_loop cid tid data size rest (kmalloc (kmalloc mem).2).2).1,
            (read_callback_loop cid tid data size rest (kmalloc (kmalloc mem).2).2).2.1,
            (read_callback_deliver c tid data size).2
              ++ (read_callback_loop cid tid data size rest (kmalloc (kmalloc mem).2).2).2.2.1,
            (read_callback_loop cid tid data size rest (kmalloc (kmalloc mem).2).2).2.2.2)
      else
        (c :: (read_callback_loop cid tid data size rest mem).1,
          (read_callback_loop cid tid data size rest mem).2.1,
          (read_callback_loop cid tid data size rest mem).2.2.1,
          (read_callback_loop cid tid data size rest mem).2.2.2) := by
  rw [read_callback_loop]
  by_cases hm : (c.cid == cid || (c.cid ||| 0xff00) == cid) = true
  · rw [if_pos hm, if_pos hm]
    rcases h1 : kmalloc mem with ⟨ok1, mem1⟩
    cases ok1
    · simp
    · rcases h2 : kmalloc mem1 with ⟨ok2, mem2⟩
      cases ok2
      · simp [client_addread, h2]
      · by_cases hb : cid >>> 8 = 0xff
        · simp [client_addread, h2, hb, read_callback_deliver]
        · simp [client_addread, h2, hb, read_callback_deliver]
  · rw [if_neg hm, if_neg hm]

theorem client_notify_frame (c : client) (tid : Nat) :
    (client_notify c tid).2.1.cid = c.cid ∧ (client_notify c tid).2.1.reads = c.reads ∧
    (client_notify c tid).2.1.urbs = c.urbs ∧ (client_notify c tid).2.1.handle = c.handle := by
  unfold client_notify
  cases list_del_first (notify_matches tid) c.notifies with
  | none => simp
  | some r => simp

theorem client_notify_calls (c : client) (tid : Nat) (e : Event)
    (h : e ∈ (client_notify c tid).2.2) :
    ∃ n ∈ c.notifies, e = Event.call n.func c.cid n.data := by
  unfold client_notify at h
  cases h' : list_del_first (notify_matches tid) c.notifies with
  | none => rw [h'] at h; simp at h
  | some r =>
    obtain ⟨n, rest⟩ := r
    rw [h'] at h
    obtain ⟨pre, post, h1, _, _, _⟩ := (list_del_first_some _ _ _ _).mp h'
    by_cases hf : n.func = 0
    · simp [hf] at h
    · simp only [ne_eq, hf, not_false_eq_true, if_true, List.mem_singleton] at h
      exact ⟨n, by simp [h1], h⟩

theorem read_callback_deliver_frame (c : client) (tid : Nat) (data : List Nat) (size : Nat) :
    (read_callback_deliver c tid data size).1.cid = c.cid ∧
    (read_callback_deliver c tid data size).1.reads
      = c.reads ++ [readreq.mk (data.take size) tid size] ∧
    (read_callback_deliver c tid data size).1.urbs = c.urbs ∧
    (read_callback_deliver c tid data size).1.handle = c.handle := by
  unfold read_callback_deliver
  simp only
  have h := client_notify_frame
    { c with reads := c.reads ++ [readreq.mk (data.take size) tid size] } tid
  exact h

theorem read_callback_deliver_calls (c : client) (tid : Nat) (data : List Nat) (size : Nat)
    (f k d : Nat) (h : Event.call f k d ∈ (read_callback_deliver c tid data size).2) :
    k = c.cid ∧ ∃ n ∈ c.notifies, n.func = f ∧ n.data = d := by
  unfold read_callback_deliver at h
  simp only [List.mem_append] at h
  rcases h with h | h
  · cases hh : c.handle with
    | none => rw [hh] at h; simp at h
    | some x => rw [hh] at h; simp at h
  · obtain ⟨n, hn, he⟩ := client_notify_calls _ tid _ h
    simp only [Event.call.injEq] at he
    exact ⟨he.2.1, n, hn, he.1.symm, he.2.2.symm⟩

theorem read_callback_loop_cids (cid tid : Nat) (data : List Nat) (size : Nat)
    (clients : List client) (mem : List Bool) :
    (read_callback_loop cid tid data size clients mem).1.map client.cid
      = clients.map client.cid := by
  induction clients generalizing mem with
  | nil => simp [read_callback_loop]
  | cons c rest ih =>
    rw [read_callback_loop_cons]
    split_ifs
    · rfl
    · rfl
    · simp [(read_callback_deliver_frame c tid data size).1]
    · simp [(read_callback_deliver_frame c tid data size).1, ih]
    · simp [ih]

theorem read_callback_loop_calls (cid tid : Nat) (data : List Nat) (size : Nat)
    (clients : List client) (mem : List Bool) (f k d : Nat)
    (h : Event.call f k d ∈ (read_callback_loop cid tid data size clients mem).2.2.1) :
    ∃ x ∈ clients, x.cid = k ∧ ∃ n ∈ x.notifies, n.func = f ∧ n.data = d := by
  induction clients generalizing mem with
  | nil => simp [read_callback_loop] at h
  | cons c rest ih =>
    rw [read_callback_loop_cons] at h
    split_ifs at h
    · simp at h
    · simp at h
    · obtain ⟨h1, h2⟩ := read_callback_deliver_calls c tid data size f k d h
      exact ⟨c, by simp, h1.symm, h2⟩
    · simp only [List.mem_append] at h
      rcases h with h | h
      · obtain ⟨h1, h2⟩ := read_callback_deliver_calls c tid data size f k d h
        exact ⟨c, by simp, h1.symm, h2⟩
      · obtain ⟨x, hx, hr⟩ := ih _ h
        exact ⟨x, by simp [hx], hr⟩
    · obtain ⟨x, hx, hr⟩ := ih _ h
      exact ⟨x, by simp [hx], hr⟩

theorem read_callback_loop_hit (cid tid : Nat) (data : List Nat) (size : Nat) (c : client)
    (rest : List client) (mem : List Bool) (hmem : ∀ b ∈ mem, b = true)
    (hc : (c.cid == cid || (c.cid ||| 0xff00) == cid) = true) :
    (cid >>> 8 ≠ 0xff →
      read_callback_loop cid tid data size (c :: rest) mem =
        ((read_callback_deliver c tid data size).1 :: rest, mem.tail.tail,
          (read_callback_deliver c tid data size).2, loop_exit.done)) ∧
    (cid >>> 8 = 0xff →
      read_callback_loop cid tid data size (c :: rest) mem =
        ((read_callback_deliver c tid data size).1
            :: (read_callback_loop cid tid data size rest mem.tail.tail).1,
          (read_callback_loop cid tid data size rest mem.tail.tail).2.1,
          (read_callback_deliver c tid data size).2
            ++ (read_callback_loop cid tid data size rest mem.tail.tail).2.2.1,
          (read_callback_loop cid tid data size rest mem.tail.tail).2.2.2)) := by
  obtain ⟨hk1, _⟩ := kmalloc_all_ok mem hmem
  obtain ⟨hk2, _⟩ := kmalloc_all_ok mem.tail (kmalloc_all_ok mem hmem).2
  have e1 : (kmalloc mem).1 = true := by rw [hk1]
  have e2 : (kmalloc mem).2 = mem.tail := by rw [hk1]
  have e3 : (kmalloc mem.tail).1 = true := by rw [hk2]
  have e4 : (kmalloc mem.tail).2 = mem.tail.tail := by rw [hk2]
  constructor
  · intro hb
    rw [read_callback_loop_cons, if_pos hc, if_neg (by rw [e1]; simp), e2,
      if_neg (by rw [e3]; simp), e4, if_pos hb]
  · intro hb
    rw [read_callback_loop_cons, if_pos hc, if_neg (by rw [e1]; simp), e2,
      if_neg (by rw [e3]; simp), e4, if_neg (by simpa using hb)]

theorem read_callback_loop_skip (cid tid : Nat) (data : List Nat) (size : Nat) (c : client)
    (rest : List client) (mem : List Bool)
    (hc : ¬ (c.cid == cid || (c.cid ||| 0xff00) == cid) = true) :
    read_callback_loop cid tid data size (c :: rest) mem =
      (c :: (read_callback_loop cid tid data size rest mem).1,
        (read_callback_loop cid tid data size rest mem).2.1,
        (read_callback_loop cid tid data size rest mem).2.2.1,
        (read_callback_loop cid tid data size rest mem).2.2.2) := by
  rw [read_callback_loop_cons, if_neg hc]

theorem read_callback_loop_all_ok (cid tid : Nat) (data : List Nat) (size : Nat)
    (clients : List client) (mem : List Bool) (hmem : ∀ b ∈ mem, b = true) :
    (read_callback_loop cid tid data size clients mem).2.2.2 = loop_exit.done ∧
    ∀ b ∈ (read_callback_loop cid tid data size clients mem).2.1, b = true := by
  induction clients generalizing mem with
  | nil => simpa [read_callback_loop] using hmem
  | cons c rest ih =>
    have hm2 := (kmalloc_all_ok mem.tail (kmalloc_all_ok mem hmem).2).2
    by_cases hc : (c.cid == cid || (c.cid ||| 0xff00) == cid) = true
    · by_cases hb : cid >>> 8 = 0xff
      · rw [(read_callback_loop_hit cid tid data size c rest mem hmem hc).2 hb]
        exact ih _ hm2
      · rw [(read_callback_loop_hit cid tid data size c rest mem hmem hc).1 hb]
        exact ⟨rfl, hm2⟩
    · rw [read_callback_loop_skip cid tid data size c rest mem hc]
      exact ih _ hmem

/-- The client loop of `read_callback`, seen from one client that the message
reaches, when no allocation fails. -/
theorem read_callback_loop_split (cid tid : Nat) (data : List Nat) (size : Nat)
    (pre post : List client) (c : client) (mem : List Bool)
    (hmem : ∀ b ∈ mem, b = true)
    (hc : (c.cid == cid || (c.cid ||| 0xff00) == cid) = true)
    (hpre : cid >>> 8 = 0xff ∨
      ∀ x ∈ pre, (x.cid == cid || (x.cid ||| 0xff00) == cid) = false) :
    ∃ pre' post' mem' evpre evpost,
      read_callback_loop cid tid data size (pre ++ c :: post) mem
        = (pre' ++ (read_callback_deliver c tid data size).1 :: post', mem',
            evpre ++ (read_callback_deliver c tid data size).2 ++ evpost, loop_exit.done) ∧
      pre'.map client.cid = pre.map client.cid ∧
      post'.map client.cid = post.map client.cid ∧
      (∀ b ∈ mem', b = true) ∧
      (∀ f k d, Event.call f k d ∈ evpre → k ∈ pre.map client.cid) ∧
      (∀ f k d, Event.call f k d ∈ evpost → k ∈ post.map client.cid) := by
  induction pre generalizing mem with
  | nil =>
    have hm2 := (kmalloc_all_ok mem.tail (kmalloc_all_ok mem hmem).2).2
    rw [List.nil_append]
    by_cases hb : cid >>> 8 = 0xff
    · rw [(read_callback_loop_hit cid tid data size c post mem hmem hc).2 hb]
      obtain ⟨hex, hmm⟩ := read_callback_loop_all_ok cid tid data size post _ hm2
      refine ⟨[], (read_callback_loop cid tid data size post mem.tail.tail).1,
        (read_callback_loop cid tid data size post mem.tail.tail).2.1, [],
        (read_callback_loop cid tid data size post mem.tail.tail).2.2.1, ?_, rfl,
        read_callback_loop_cids cid tid data size post _, hmm, by simp, ?_⟩
      · rw [hex]; simp
      · intro f k d h
        obtain ⟨x, hx, hxk, _⟩ := read_callback_loop_calls cid tid data size post _ f k d h
        exact List.mem_map.mpr ⟨x, hx, hxk⟩
    · rw [(read_callback_loop_hit cid tid data size c post mem hmem hc).1 hb]
      exact ⟨[], post, _, [], [], by simp, rfl, rfl, hm2, by simp, by simp⟩
  | cons a pre ih =>
    rw [List.cons_append]
    by_cases ha : (a.cid == cid || (a.cid ||| 0xff00) == cid) = true
    · have hb : cid >>> 8 = 0xff := by
        rcases hpre with hb | hno
        · exact hb
        · have := hno a (by simp)
          rw [ha] at this
          cases this
      have hm2 := (kmalloc_all_ok mem.tail (kmalloc_all_ok mem hmem).2).2
      rw [(read_callback_loop_hit cid tid data size a _ mem hmem ha).2 hb]
      obtain ⟨pre', post', mem', evpre, evpost, h1, h2, h3, h4, h5, h6⟩ :=
        ih mem.tail.tail hm2 (Or.inl hb)
      refine ⟨(read_callback_deliver a tid data size).1 :: pre', post', mem',
        (read_callback_deliver a tid data size).2 ++ evpre, evpost, ?_, ?_, h3, h4, ?_, h6⟩
      · rw [h1]; simp
      · simp [h2, (read_callback_deliver_frame a tid data size).1]
      · intro f k d h
        simp only [List.mem_append] at h
        rcases h with h | h
        · simp [(read_callback_deliver_calls a tid data size f k d h).1]
        · simp [h5 f k d h]
    · rw [read_callback_loop_skip cid tid data size a _ mem ha]
      obtain ⟨pre', post', mem', evpre, evpost, h1, h2, h3, h4, h5, h6⟩ :=
        ih mem hmem (by
          rcases hpre with hb | hno
          · exact Or.inl hb
          · exact Or.inr (fun x hx => hno x (by simp [hx])))
      refine ⟨a :: pre', post', mem', evpre, evpost, ?_, by simp [h2], h3, h4, ?_, h6⟩
      · rw [h1]; rfl
      · intro f k d h
        simp [h5 f k d h]

/-- `read_callback` on a URB that completed with status 0, parsed, and is long
enough to hold a transaction id. -/
theorem read_callback_parsed (q : qmi_codec) (u : urb) (w : World) (result : Int) (pc : Nat)
    (hstatus : u.status = 0)
    (hparse : q.qmux_parse u.transfer_buffer (u.actual_length % 65536) = (result, pc))
    (hres : 0 ≤ result) (hsize : result + 3 ≤ ((u.actual_length % 65536 : Nat) : Int)) :
    read_callback q u w =
      read_callback_dispatch w (pc % 65536)
        (read_tid (pc % 65536) u.transfer_buffer result.toNat) u.transfer_buffer
        (u.actual_length % 65536) := by
  unfold read_callback
  simp only [hstatus, if_true, hparse]
  rw [if_neg (by omega), if_neg (by omega)]

theorem read_callback_dispatch_frame (w : World) (cid tid : Nat) (data : List Nat)
    (size : Nat) :
    (read_callback_dispatch w cid tid data size).dev.valid = w.dev.valid ∧
    (read_callback_dispatch w cid tid data size).dev.dying = w.dev.dying ∧
    (read_callback_dispatch w cid tid data size).dev.qmitid = w.dev.qmitid ∧
    (read_callback_dispatch w cid tid data size).dev.clients.map client.cid
      = w.dev.clients.map client.cid ∧
    ∃ ev, (read_callback_dispatch w cid tid data size).log = w.log ++ ev ∧
      ∀ f k d, Event.call f k d ∈ ev →
        ∃ x ∈ w.dev.clients, x.cid = k ∧ ∃ n ∈ x.notifies, n.func = f ∧ n.data = d := by
  have hcalls := read_callback_loop_calls cid tid data size w.dev.clients w.mem
  have hcids := read_callback_loop_cids cid tid data size w.dev.clients w.mem
  unfold read_callback_dispatch
  simp only
  split_ifs
  · exact ⟨rfl, rfl, rfl, hcids, _, rfl, hcalls⟩
  · refine ⟨rfl, rfl, rfl, hcids,
      (read_callback_loop cid tid data size w.dev.clients w.mem).2.2.1
        ++ [Event.resubmit_int_urb], ?_, ?_⟩
    · simp [World.emit]
    · intro f k d h
      simp only [List.mem_append, List.mem_singleton, reduceCtorEq, or_false] at h
      exact hcalls f k d h

/-- What `read_callback` never touches, whatever the URB: the flags, the
counter, the identifiers in the registry; it only adds to the log, and every
hook it invokes was pending on the client it is invoked for. -/
theorem read_callback_frame (q : qmi_codec) (u : urb) (w : World) :
    (read_callback q u w).dev.valid = w.dev.valid ∧
    (read_callback q u w).dev.dying = w.dev.dying ∧
    (read_callback q u w).dev.qmitid = w.dev.qmitid ∧
    (read_callback q u w).dev.clients.map client.cid = w.dev.clients.map client.cid ∧
    ∃ ev, (read_callback q u w).log = w.log ++ ev ∧
      ∀ f k d, Event.call f k d ∈ ev →
        ∃ x ∈ w.dev.clients, x.cid = k ∧ ∃ n ∈ x.notifies, n.func = f ∧ n.data = d := by
  by_cases hstatus : u.status = 0
  · rcases hparse : q.qmux_parse u.transfer_buffer (u.actual_length % 65536) with ⟨result, pc⟩
    by_cases hres : result < 0
    · have : read_callback q u w = w.emit [Event.resubmit_int_urb] := by
        unfold read_callback
        simp only [hstatus, if_true, hparse, hres]
      rw [this]
      exact ⟨rfl, rfl, rfl, rfl, [Event.resubmit_int_urb], rfl, by simp⟩
    · by_cases hsize : ((u.actual_length % 65536 : Nat) : Int) < result + 3
      · have : read_callback q u w = w.emit [Event.resubmit_int_urb] := by
          unfold read_callback
          simp only [hstatus, if_true, hparse, hres, if_false, hsize]
        rw [this]
        exact ⟨rfl, rfl, rfl, rfl, [Event.resubmit_int_urb], rfl, by simp⟩
      · rw [read_callback_parsed q u w result pc hstatus hparse (by omega) (by omega)]
        exact read_callback_dispatch_frame w _ _ _ _
  · unfold read_callback
    simp only [hstatus, if_false]
    split_ifs
    · exact ⟨rfl, rfl, rfl, rfl, [], by simp, by simp⟩
    · exact ⟨rfl, rfl, rfl, rfl, [Event.resubmit_int_urb], rfl, by simp⟩

theorem cids_ne_of_map_eq (l l' : List client) (cid : Nat)
    (h : l'.map client.cid = l.map client.cid) (hne : ∀ x ∈ l, x.cid ≠ cid) :
    ∀ x ∈ l', x.cid ≠ cid := by
  intro x hx hcid
  have : cid ∈ l'.map client.cid := List.mem_map.mpr ⟨x, hx, hcid⟩
  rw [h] at this
  obtain ⟨y, hy, hycid⟩ := List.mem_map.mp this
  exact hne y hy hycid

/-- A message whose parsed identifier is (or broadcasts to) the identifier of
a registered client reaches that client when no allocation fails. -/
theorem read_callback_reaches (q : qmi_codec) (u : urb) (w : World) (result : Int) (pc : Nat)
    (c : client) (pre post : List client)
    (hstatus : u.status = 0)
    (hparse : q.qmux_parse u.transfer_buffer (u.actual_length % 65536) = (result, pc))
    (hres : 0 ≤ result) (hsize : result + 3 ≤ ((u.actual_length % 65536 : Nat) : Int))
    (hmem : ∀ b ∈ w.mem, b = true)
    (hsplit : w.dev.clients = pre ++ c :: post) (hpre : ∀ x ∈ pre, x.cid ≠ c.cid)
    (hdeliv : c.cid = pc % 65536 ∨ (c.cid ||| 0xff00) = pc % 65536) :
    ∃ evpre evpost,
      (read_callback q u w).log = w.log ++ (evpre
          ++ (read_callback_deliver c (read_tid (pc % 65536) u.transfer_buffer result.toNat)
                u.transfer_buffer (u.actual_length % 65536)).2
          ++ evpost) ∧
      client_bycid (read_callback q u w).dev c.cid
        = some (read_callback_deliver c (read_tid (pc % 65536) u.transfer_buffer result.toNat)
                u.transfer_buffer (u.actual_length % 65536)).1 ∧
      (∀ b ∈ (read_callback q u w).mem, b = true) ∧
      (∀ f d, Event.call f c.cid d ∉ evpre) ∧
      (∀ f k d, Event.call f k d ∈ evpost → k ∈ post.map client.cid) := by
  have hmatch : (c.cid == pc % 65536 || (c.cid ||| 0xff00) == pc % 65536) = true := by
    rcases hdeliv with h | h
    · simp [h]
    · simp [h]
  have hfirst : (pc % 65536) >>> 8 = 0xff ∨
      ∀ x ∈ pre, (x.cid == pc % 65536 || (x.cid ||| 0xff00) == pc % 65536) = false := by
    by_cases hb : (pc % 65536) >>> 8 = 0xff
    · exact Or.inl hb
    · right
      intro x hx
      have hc_eq : c.cid = pc % 65536 := by
        rcases hdeliv with h | h
        · exact h
        · exact absurd (or_ff00_shift c.cid _ h (Nat.mod_lt _ (by norm_num))) hb
      have h1 : x.cid ≠ pc % 65536 := by rw [← hc_eq]; exact hpre x hx
      have h2 : (x.cid ||| 0xff00) ≠ pc % 65536 := fun h =>
        hb (or_ff00_shift x.cid _ h (Nat.mod_lt _ (by norm_num)))
      simp [h1, h2]
  obtain ⟨pre', post', mem', evpre, evpost, h1, h2, h3, h4, h5, h6⟩ :=
    read_callback_loop_split (pc % 65536) (read_tid (pc % 65536) u.transfer_buffer result.toNat)
      u.transfer_buffer (u.actual_length % 65536) pre post c w.mem hmem hmatch hfirst
  rw [← hsplit] at h1
  have hnotpre : c.cid ∉ pre.map client.cid := by
    intro h
    obtain ⟨x, hx, hxc⟩ := List.mem_map.mp h
    exact hpre x hx hxc
  rw [read_callback_parsed q u w result pc hstatus hparse hres hsize]
  unfold read_callback_dispatch
  simp only [h1, reduceCtorEq, if_false, World.emit]
  refine ⟨evpre, evpost ++ [Event.resubmit_int_urb], by simp, ?_, h4, ?_, ?_⟩
  · rw [client_bycid_iff]
    exact ⟨pre', post', rfl, (read_callback_deliver_frame c _ _ _).1,
      cids_ne_of_map_eq pre pre' c.cid h2 hpre⟩
  · intro f d h
    exact hnotpre (h5 f c.cid d h)
  · intro f k d h
    simp only [List.mem_append, List.mem_singleton, reduceCtorEq, or_false] at h
    exact h6 f k d h

theorem read_async_registers (w : World) (cid tid hook data : Nat) (c : client)
    (hc : client_bycid w.dev cid = some c) (hreads : c.reads = [])
    (hmem : ∀ b ∈ w.mem, b = true) :
    read_async w cid tid hook data
      = (0, ({ w with mem := w.mem.tail }).store cid
          { c with notifies := c.notifies ++ [notifyreq.mk hook tid data] }) := by
  obtain ⟨hk, _⟩ := kmalloc_all_ok w.mem hmem
  simp [read_async, hc, hreads, client_addnotify, hk]

theorem client_notify_single (c : client) (tid hook data : Nat)
    (h : c.notifies = [notifyreq.mk hook 0 data]) (hhook : hook ≠ 0) :
    client_notify c tid = (true, { c with notifies := [] }, [Event.call hook c.cid data]) := by
  have := client_notify_of_split c tid [] [] (notifyreq.mk hook 0 data) h
    (by simp [notify_matches]) (by simp)
  rw [this]
  simp [hhook]

theorem read_callback_deliver_single (c : client) (tid : Nat) (buf : List Nat) (size : Nat)
    (hook data : Nat) (h : c.notifies = [notifyreq.mk hook 0 data]) (hhook : hook ≠ 0) :
    (read_callback_deliver c tid buf size).1.notifies = [] ∧
    (read_callback_deliver c tid buf size).2.count (Event.call hook c.cid data) = 1 := by
  unfold read_callback_deliver
  simp only
  rw [client_notify_single { c with reads := c.reads ++ [readreq.mk (buf.take size) tid size] }
    tid hook data h hhook]
  constructor
  · rfl
  · cases c.handle with
    | none => simp
    | some x => simp

/-! ## C5: a notification registered with filter 0 fires once -/

theorem list_set_split {α : Type} (l : List α) (i : Nat) (c c' : α) (h : l[i]? = some c) :
    l.drop i = c :: l.drop (i + 1) ∧
    (l.set i c')[i]? = some c' ∧
    (l.set i c').take (i + 1) = l.take i ++ [c'] ∧
    (l.set i c').drop (i + 1) = l.drop (i + 1) ∧
    (l.set i c').length = l.length ∧
    l.take (i + 1) = l.take i ++ [c] ∧
    l.set i c' = l.take i ++ c' :: l.drop (i + 1) := by
  induction l generalizing i with
  | nil => simp at h
  | cons a l ih =>
    cases i with
    | zero =>
      simp at h
      subst h
      simp
    | succ i =>
      simp at h
      obtain ⟨h1, h2, h3, h4, h5, h6, h7⟩ := ih i h
      refine ⟨?_, ?_, ?_, ?_, ?_, ?_, ?_⟩
      · simpa using h1
      · simpa using h2
      · simpa using h3
      · simpa using h4
      · simp
      · simpa using h6
      · simpa using h7

theorem list_set_set {α : Type} (l : List α) (i : Nat) (a b : α) :
    (l.set i a).set i b = l.set i b := by
  induction l generalizing i with
  | nil => simp
  | cons x l ih =>
    cases i with
    | zero => simp
    | succ i => simp [ih]

theorem invoke_keeps (hooks : Nat → World → Nat → Nat → World)
    (hkeep : ∀ f w k d, (hooks f w k d).dev = w.dev ∧ (hooks f w k d).mem = w.mem ∧
      ∃ ev, (hooks f w k d).log = w.log ++ ev ∧ ∀ g j e, Event.call g j e ∉ ev)
    (w : World) (e : Event) :
    (w.invoke hooks e).dev = w.dev ∧ (w.invoke hooks e).mem = w.mem ∧
    ∃ ev, (w.invoke hooks e).log = w.log ++ ev ∧
      ∀ f k d, ev.count (Event.call f k d) = [e].count (Event.call f k d) := by
  cases e with
  | call g j x =>
    obtain ⟨h1, h2, ev, h3, h4⟩ := hkeep g (w.emit [Event.call g j x]) j x
    refine ⟨h1, h2, [Event.call g j x] ++ ev, ?_, ?_⟩
    · show (hooks g (w.emit [Event.call g j x]) j x).log = _
      rw [h3]
      simp [World.emit]
    · intro f k d
      rw [List.count_append, List.count_eq_zero.mpr (h4 f k d), Nat.add_zero]
  | _ => exact ⟨rfl, rfl, _, rfl, fun _ _ _ => rfl⟩

theorem invoke_foldl_keeps (hooks : Nat → World → Nat → Nat → World)
    (hkeep : ∀ f w k d, (hooks f w k d).dev = w.dev ∧ (hooks f w k d).mem = w.mem ∧
      ∃ ev, (hooks f w k d).log = w.log ++ ev ∧ ∀ g j e, Event.call g j e ∉ ev)
    (evs : List Event) (w : World) :
    (evs.foldl (World.invoke hooks) w).dev = w.dev ∧
    (evs.foldl (World.invoke hooks) w).mem = w.mem ∧
    ∃ ev, (evs.foldl (World.invoke hooks) w).log = w.log ++ ev ∧
      ∀ f k d, ev.count (Event.call f k d) = evs.count (Event.call f k d) := by
  induction evs generalizing w with
  | nil => exact ⟨rfl, rfl, [], by simp, fun _ _ _ => rfl⟩
  | cons e evs ih =>
    obtain ⟨h1, h2, ev1, h3, h4⟩ := invoke_keeps hooks hkeep w e
    obtain ⟨k1, k2, ev2, k3, k4⟩ := ih (w.invoke hooks e)
    rw [List.foldl_cons]
    refine ⟨k1.trans h1, k2.trans h2, ev1 ++ ev2, ?_, ?_⟩
    · rw [k3, h3, List.append_assoc]
    · intro f k d
      rw [List.count_append, h4, k4, ← List.count_append]
      rfl

theorem read_callback_loop_run_succ (hooks : Nat → World → Nat → Nat → World) (cid tid : Nat)
    (data : List Nat) (size : Nat) (n i : Nat) (w : World) (c : client)
    (hc : w.dev.clients[i]? = some c) :
    read_callback_loop_run hooks cid tid data size (n + 1) i w =
      if (c.cid == cid || (c.cid ||| 0xff00) == cid) = true then
        if (kmalloc w.mem).1 = false then
          ({ w with mem := (kmalloc w.mem).2 }, loop_exit.copy_failed)
        else if (kmalloc (kmalloc w.mem).2).1 = false then
          (({ w with mem := (kmalloc (kmalloc w.mem).2).2 } : World).emit
            [Event.kfree (data.take size)], loop_exit.addread_failed)
        else if cid >>> 8 ≠ 0xff then
          ((read_callback_deliver c tid data size).2.foldl (World.invoke hooks)
            (({ w with mem := (kmalloc (kmalloc w.mem).2).2 } : World).store_at i
              (read_callback_deliver c tid data size).1), loop_exit.done)
        else
          read_callback_loop_run hooks cid tid data size n (i + 1)
            ((read_callback_deliver c tid data size).2.foldl (World.invoke hooks)
              (({ w with mem := (kmalloc (kmalloc w.mem).2).2 } : World).store_at i
                (read_callback_deliver c tid data size).1))
      else read_callback_loop_run hooks cid tid data size n (i + 1) w := by
  rw [read_callback_loop_run]
  simp only [hc]
  by_cases hm : (c.cid == cid || (c.cid ||| 0xff00) == cid) = true
  · rw [if_pos hm, if_pos hm]
    rcases h1 : kmalloc w.mem with ⟨ok1, mem1⟩
    cases ok1
    · simp
    · rcases h2 : kmalloc mem1 with ⟨ok2, mem2⟩
      cases ok2
      · simp [client_addread, h2]
      · obtain ⟨-, hget, -, -, -, -, -⟩ := list_set_split w.dev.clients i c
          { c with reads := c.reads ++ [readreq.mk (data.take size) tid size] } hc
        by_cases hb : cid >>> 8 = 0xff
        · simp [client_addread, h2, hb, read_callback_deliver, client_notify_run, World.store_at,
            World.emit, hget, list_set_set, List.foldl_append]
          cases c.handle <;> simp [World.invoke, World.emit]
        · simp [client_addread, h2, hb, read_callback_deliver, client_notify_run, World.store_at,
            World.emit, hget, list_set_set, List.foldl_append]
          cases c.handle <;> simp [World.invoke, World.emit]
  · rw [if_neg hm, if_neg hm]

theorem take_drop_none (l : List client) (i : Nat) (h : l.length ≤ i) :
    l.take i = l ∧ l.drop i = [] :=
  ⟨List.take_of_length_le h, List.drop_eq_nil_of_le h⟩

/-- When the bodies of the hooks keep the registry and the allocator and
invoke no hook themselves, the client loop with the bodies run does to the
registry and to the allocator what the loop without them does, and it makes the
same invocations. -/
theorem read_callback_loop_run_keeps (hooks : Nat → World → Nat → Nat → World)
    (hkeep : ∀ f w k d, (hooks f w k d).dev = w.dev ∧ (hooks f w k d).mem = w.mem ∧
      ∃ ev, (hooks f w k d).log = w.log ++ ev ∧ ∀ g j e, Event.call g j e ∉ ev)
    (cid tid : Nat) (data : List Nat) (size : Nat) (n i : Nat) (w : World)
    (hn : w.dev.clients.length ≤ i + n) :
    (read_callback_loop_run hooks cid tid data size n i w).1.dev
      = { w.dev with clients := w.dev.clients.take i
            ++ (read_callback_loop cid tid data size (w.dev.clients.drop i) w.mem).1 } ∧
    (read_callback_loop_run hooks cid tid data size n i w).1.mem
      = (read_callback_loop cid tid data size (w.dev.clients.drop i) w.mem).2.1 ∧
    (read_callback_loop_run hooks cid tid data size n i w).2
      = (read_callback_loop cid tid data size (w.dev.clients.drop i) w.mem).2.2.2 ∧
    ∃ ev, (read_callback_loop_run hooks cid tid data size n i w).1.log = w.log ++ ev ∧
      ∀ f k d, ev.count (Event.call f k d)
        = (read_callback_loop cid tid data size (w.dev.clients.drop i) w.mem).2.2.1.count
            (Event.call f k d) := by
  induction n generalizing i w with
  | zero =>
    obtain ⟨h1, h2⟩ := take_drop_none w.dev.clients i (by omega)
    rw [h1, h2]
    refine ⟨by simp [read_callback_loop_run, read_callback_loop],
      by simp [read_callback_loop_run, read_callback_loop],
      by simp [read_callback_loop_run, read_callback_loop], [],
      by simp [read_callback_loop_run], fun _ _ _ => by simp [read_callback_loop]⟩
  | succ n ih =>
    cases hc : w.dev.clients[i]? with
    | none =>
      obtain ⟨h1, h2⟩ := take_drop_none w.dev.clients i
        (by simpa using List.getElem?_eq_none_iff.mp hc)
      rw [h1, h2]
      refine ⟨by simp [read_callback_loop_run, read_callback_loop, hc],
        by simp [read_callback_loop_run, read_callback_loop, hc],
        by simp [read_callback_loop_run, read_callback_loop, hc], [],
        by simp [read_callback_loop_run, hc], fun _ _ _ => by simp [read_callback_loop]⟩
    | some c =>
      obtain ⟨hdrop, -, -, -, -, htk, -⟩ := list_set_split w.dev.clients i c c hc
      rw [read_callback_loop_run_succ hooks cid tid data size n i w c hc, hdrop,
        read_callback_loop_cons]
      by_cases hm : (c.cid == cid || (c.cid ||| 0xff00) == cid) = true
      · rw [if_pos hm, if_pos hm]
        by_cases hk1 : (kmalloc w.mem).1 = false
        · rw [if_pos hk1, if_pos hk1]
          refine ⟨?_, rfl, rfl, [], by simp, fun _ _ _ => rfl⟩
          simp only
          rw [← hdrop, List.take_append_drop]
        · rw [if_neg hk1, if_neg hk1]
          by_cases hk2 : (kmalloc (kmalloc w.mem).2).1 = false
          · rw [if_pos hk2, if_pos hk2]
            refine ⟨?_, rfl, rfl, [Event.kfree (data.take size)], rfl, fun _ _ _ => rfl⟩
            simp only [World.emit]
            rw [← hdrop, List.take_append_drop]
          · rw [if_neg hk2, if_neg hk2]
            obtain ⟨-, -, htake, hdrop2, hlen, -, hset⟩ := list_set_split w.dev.clients i c
              (read_callback_deliver c tid data size).1 hc
            obtain ⟨f1, f2, ev1, f3, f4⟩ := invoke_foldl_keeps hooks hkeep
              (read_callback_deliver c tid data size).2
              (({ w with mem := (kmalloc (kmalloc w.mem).2).2 } : World).store_at i
                (read_callback_deliver c tid data size).1)
            by_cases hb : cid >>> 8 ≠ 0xff
            · rw [if_pos hb, if_pos hb]
              refine ⟨?_, f2, rfl, ev1, f3, f4⟩
              rw [f1]
              simp only [World.store_at, hset]
            · rw [if_neg hb, if_neg hb]
              obtain ⟨W2, hW2⟩ : ∃ W2 : World, W2 = List.foldl (World.invoke hooks)
                  (({ w with mem := (kmalloc (kmalloc w.mem).2).2 } : World).store_at i
                    (read_callback_deliver c tid data size).1)
                  (read_callback_deliver c tid data size).2 := ⟨_, rfl⟩
              rw [← hW2] at f1 f2 f3 ⊢
              have gd : W2.dev = qcusbnet.mk w.dev.valid w.dev.dying w.dev.qmitid
                  (w.dev.clients.set i (read_callback_deliver c tid data size).1) := f1
              have gm : W2.mem = (kmalloc (kmalloc w.mem).2).2 := f2
              have gl : W2.log = w.log ++ ev1 := f3
              obtain ⟨h1, h2, h3, ev, h4, h5⟩ := ih (i + 1) W2 (by rw [gd]; simp only; omega)
              rw [gd, gm] at h1 h2 h3 h5
              simp only [htake, hdrop2] at h1 h2 h3 h5
              refine ⟨?_, h2, h3, ev1 ++ ev, ?_, ?_⟩
              · rw [h1]
                simp
              · rw [h4, gl, List.append_assoc]
              · intro f k d
                rw [List.count_append, List.count_append, f4, h5]
      · rw [if_neg hm, if_neg hm]
        obtain ⟨h1, h2, h3, ev, h4, h5⟩ := ih (i + 1) w (by omega)
        refine ⟨?_, h2, h3, ev, h4, h5⟩
        rw [h1, htk]
        simp

theorem read_callback_dispatch_run_keeps (hooks : Nat → World → Nat → Nat → World)
    (hkeep : ∀ f w k d, (hooks f w k d).dev = w.dev ∧ (hooks f w k d).mem = w.mem ∧
      ∃ ev, (hooks f w k d).log = w.log ++ ev ∧ ∀ g j e, Event.call g j e ∉ ev)
    (w' w : World) (hd : w'.dev = w.dev) (hm : w'.mem = w.mem) (cid tid : Nat)
    (data : List Nat) (size : Nat) :
    (read_callback_dispatch_run hooks w' cid tid data size).dev
      = (read_callback_dispatch w cid tid data size).dev ∧
    (read_callback_dispatch_run hooks w' cid tid data size).mem
      = (read_callback_dispatch w cid tid data size).mem ∧
    ∃ ev' ev, (read_callback_dispatch_run hooks w' cid tid data size).log = w'.log ++ ev' ∧
      (read_callback_dispatch w cid tid data size).log = w.log ++ ev ∧
      ∀ f k d, ev'.count (Event.call f k d) = ev.count (Event.call f k d) := by
  obtain ⟨n, hn⟩ : ∃ n, n = w'.dev.clients.length := ⟨_, rfl⟩
  obtain ⟨h1, h2, h3, ev, h4, h5⟩ := read_callback_loop_run_keeps hooks hkeep cid tid data size
    n 0 w' (by omega)
  rw [List.take_zero, List.drop_zero, List.nil_append, hd, hm] at h1
  rw [List.drop_zero, hd, hm] at h2 h3 h5
  unfold read_callback_dispatch_run read_callback_dispatch
  rw [← hn]
  simp only [h3]
  by_cases hx : (read_callback_loop cid tid data size w.dev.clients w.mem).2.2.2
      = loop_exit.copy_failed
  · rw [if_pos hx, if_pos hx]
    exact ⟨h1, h2, ev, _, h4, rfl, h5⟩
  · rw [if_neg hx, if_neg hx]
    refine ⟨h1, h2, ev ++ [Event.resubmit_int_urb],
      (read_callback_loop cid tid data size w.dev.clients w.mem).2.2.1
        ++ [Event.resubmit_int_urb], ?_, ?_, ?_⟩
    · simp [World.emit, h4]
    · simp [World.emit]
    · intro f k d
      rw [List.count_append, List.count_append, h5]

/-- When the bodies of the hooks keep the registry and the allocator and
invoke no hook themselves, `read_callback` with the bodies run does to the
registry and to the allocator what `read_callback` without them does, and it
makes the same invocations. -/
theorem read_callback_run_keeps (hooks : Nat → World → Nat → Nat → World)
    (hkeep : ∀ f w k d, (hooks f w k d).dev = w.dev ∧ (hooks f w k d).mem = w.mem ∧
      ∃ ev, (hooks f w k d).log = w.log ++ ev ∧ ∀ g j e, Event.call g j e ∉ ev)
    (q : qmi_codec) (u : urb) (w' w : World) (hd : w'.dev = w.dev) (hm : w'.mem = w.mem) :
    (read_callback_run hooks q u w').dev = (read_callback q u w).dev ∧
    (read_callback_run hooks q u w').mem = (read_callback q u w).mem ∧
    ∃ ev' ev, (read_callback_run hooks q u w').log = w'.log ++ ev' ∧
      (read_callback q u w).log = w.log ++ ev ∧
      ∀ f k d, ev'.count (Event.call f k d) = ev.count (Event.call f k d) := by
  unfold read_callback_run read_callback
  by_cases hstatus : u.status = 0
  · rcases hparse : q.qmux_parse u.transfer_buffer (u.actual_length % 65536) with ⟨result, pc⟩
    simp only [hstatus, if_true, hparse]
    by_cases hres : result < 0
    · simp only [hres, if_true]
      exact ⟨hd, hm, [Event.resubmit_int_urb], [Event.resubmit_int_urb], rfl, rfl,
        fun _ _ _ => rfl⟩
    · simp only [hres, if_false]
      by_cases hsize : ((u.actual_length % 65536 : Nat) : Int) < result + 3
      · simp only [hsize, if_true]
        exact ⟨hd, hm, [Event.resubmit_int_urb], [Event.resubmit_int_urb], rfl, rfl,
          fun _ _ _ => rfl⟩
      · simp only [hsize, if_false]
        exact read_callback_dispatch_run_keeps hooks hkeep w' w hd hm _ _ _ _
  · simp only [hstatus, if_false]
    split_ifs
    · exact ⟨hd, hm, [], [], by simp, by simp, fun _ _ _ => rfl⟩
    · exact ⟨hd, hm, [Event.resubmit_int_urb], [Event.resubmit_int_urb], rfl, rfl,
        fun _ _ _ => rfl⟩

theorem read_async_run_registers (hooks : Nat → World → Nat → Nat → World) (w : World)
    (cid tid hook data : Nat) (c : client)
    (hc : client_bycid w.dev cid = some c) (hreads : c.reads = []) :
    read_async_run hooks w cid tid hook data = read_async w cid tid hook data := by
  simp [read_async_run, read_async, hc, hreads]

/-- A client with empty queues registers a hook with `read_async` and filter 0,
the bodies of the hooks left out. Whatever transaction id the next response
delivered to that client carries, that delivery invokes the hook exactly once
and removes it from the notification queue; no later `read_callback` invokes
anything for the client. -/
theorem read_callback_once_logged (q : qmi_codec) (u : urb) (w0 : World) (result : Int)
    (pc : Nat) (c0 : client) (hook data : Nat)
    (hc : client_bycid w0.dev c0.cid = some c0)
    (hreads : c0.reads = []) (hnot : c0.notifies = [])
    (hnodup : (w0.dev.clients.map client.cid).Nodup)
    (hmem : ∀ b ∈ w0.mem, b = true) (hhook : hook ≠ 0)
    (hstatus : u.status = 0)
    (hparse : q.qmux_parse u.transfer_buffer (u.actual_length % 65536) = (result, pc))
    (hres : 0 ≤ result) (hsize : result + 3 ≤ ((u.actual_length % 65536 : Nat) : Int))
    (hdeliv : c0.cid = pc % 65536 ∨ (c0.cid ||| 0xff00) = pc % 65536) :
    (read_async w0 c0.cid 0 hook data).1 = 0 ∧
    (∃ c, client_bycid (read_async w0 c0.cid 0 hook data).2.dev c0.cid = some c ∧
      c.reads = [] ∧ c.notifies = [notifyreq.mk hook 0 data]) ∧
    ∃ ev c1,
      (read_callback q u (read_async w0 c0.cid 0 hook data).2).log
        = (read_async w0 c0.cid 0 hook data).2.log ++ ev ∧
      ev.count (Event.call hook c0.cid data) = 1 ∧
      client_bycid (read_callback q u (read_async w0 c0.cid 0 hook data).2).dev c0.cid
        = some c1 ∧
      c1.notifies = [] ∧
      ∀ u2 : urb, ∃ ev2,
        (read_callback q u2 (read_callback q u (read_async w0 c0.cid 0 hook data).2)).log
          = (read_callback q u (read_async w0 c0.cid 0 hook data).2).log ++ ev2 ∧
        ∀ f d, Event.call f c0.cid d ∉ ev2 := by
  have hasync := read_async_registers w0 c0.cid 0 hook data c0 hc hreads hmem
  rw [hnot, List.nil_append] at hasync
  have hbycid := client_bycid_store_same { w0 with mem := w0.mem.tail } c0.cid c0
    { c0 with notifies := [notifyreq.mk hook 0 data] } hc rfl
  have hcids : (({ w0 with mem := w0.mem.tail } : World).store c0.cid
      { c0 with notifies := [notifyreq.mk hook 0 data] }).dev.clients.map client.cid
        = w0.dev.clients.map client.cid := client_store_cids c0.cid _ _ rfl
  have hmem1 : ∀ b ∈ (({ w0 with mem := w0.mem.tail } : World).store c0.cid
      { c0 with notifies := [notifyreq.mk hook 0 data] }).mem, b = true :=
    (kmalloc_all_ok w0.mem hmem).2
  rw [hasync]
  simp only
  refine ⟨trivial, ⟨_, hbycid, hreads, rfl⟩, ?_⟩
  generalize hw : ({ w0 with mem := w0.mem.tail } : World).store c0.cid
      { c0 with notifies := [notifyreq.mk hook 0 data] } = w at hbycid hcids hmem1
  obtain ⟨pre, post, hsplit, _, hpre⟩ := (client_bycid_iff w.dev c0.cid _).mp hbycid
  have hnd : ((pre ++ { c0 with notifies := [notifyreq.mk hook 0 data] } :: post).map
      client.cid).Nodup := by rw [← hsplit, hcids]; exact hnodup
  have hnotpost : c0.cid ∉ post.map client.cid := by
    rw [List.map_append, List.map_cons] at hnd
    exact (List.nodup_cons.mp (List.nodup_append.mp hnd).2.1).1
  obtain ⟨evpre, evpost, hlog, hby, _, hnopre, hpostcalls⟩ :=
    read_callback_reaches q u w result pc { c0 with notifies := [notifyreq.mk hook 0 data] }
      pre post hstatus hparse hres hsize hmem1 hsplit hpre hdeliv
  obtain ⟨hdel1, hdel2⟩ := read_callback_deliver_single
    { c0 with notifies := [notifyreq.mk hook 0 data] }
    (read_tid (pc % 65536) u.transfer_buffer result.toNat) u.transfer_buffer
    (u.actual_length % 65536) hook data rfl hhook
  refine ⟨_, _, hlog, ?_, hby, hdel1, ?_⟩
  · rw [List.count_append, List.count_append, hdel2,
      List.count_eq_zero.mpr (hnopre hook data),
      List.count_eq_zero.mpr (fun h => hnotpost (hpostcalls hook c0.cid data h))]
  · intro u2
    obtain ⟨_, _, _, hcids1, _⟩ := read_callback_frame q u w
    obtain ⟨_, _, _, _, ev2, hlog2, hcalls2⟩ := read_callback_frame q u2 (read_callback q u w)
    refine ⟨ev2, hlog2, ?_⟩
    intro f d hmem2
    obtain ⟨x, hx, hxcid, n, hn, _⟩ := hcalls2 f c0.cid d hmem2
    obtain ⟨pre1, post1, hsplit1, hc1cid, _⟩ := (client_bycid_iff _ c0.cid _).mp hby
    have hnd1 : ((read_callback q u w).dev.clients.map client.cid).Nodup := by
      rw [hcids1, hcids]; exact hnodup
    have hxeq := List.inj_on_of_nodup_map hnd1 hx (by rw [hsplit1]; simp)
      (hxcid.trans hc1cid.symm)
    rw [hxeq, hdel1] at hn
    cases hn

/-- C5, as stated, fails for `wds_callback`, the hook `setup_wds_callback`
registers with filter 0: client 3 has empty queues and registers it; the
delivery of a response for client 3 invokes it, and its body takes the message
and registers the hook again, so the notification queue holds the entry after
the delivery as before it, and the delivery of a second response invokes the
hook a second time. -/
theorem wds_callback_fires_again :
    client_bycid (read_async_run hook_body
        ⟨⟨true, false, 1, [⟨0, [], [], [], none⟩, ⟨3, [], [], [], none⟩]⟩, [], []⟩
        3 0 wds_callback_addr 0).2.dev 3
      = some ⟨3, [], [⟨wds_callback_addr, 0, 0⟩], [], none⟩ ∧
    client_bycid (read_callback_run hook_body test_codec ⟨0, [1, 8, 0, 0x80, 3, 0, 4, 0x2a, 0], 9⟩
        (read_async_run hook_body
          ⟨⟨true, false, 1, [⟨0, [], [], [], none⟩, ⟨3, [], [], [], none⟩]⟩, [], []⟩
          3 0 wds_callback_addr 0).2).dev 3
      = some ⟨3, [], [⟨wds_callback_addr, 0, 0⟩], [], none⟩ ∧
    (read_callback_run hook_body test_codec ⟨0, [1, 8, 0, 0x80, 3, 0, 4, 0x2b, 0], 9⟩
      (read_callback_run hook_body test_codec ⟨0, [1, 8, 0, 0x80, 3, 0, 4, 0x2a, 0], 9⟩
        (read_async_run hook_body
          ⟨⟨true, false, 1, [⟨0, [], [], [], none⟩, ⟨3, [], [], [], none⟩]⟩, [], []⟩
          3 0 wds_callback_addr 0).2)).log
      = [Event.call wds_callback_addr 3 0, Event.kfree [1, 8, 0, 0x80, 3, 0, 4, 0x2a, 0],
          Event.resubmit_int_urb,
          Event.call wds_callback_addr 3 0, Event.kfree [1, 8, 0, 0x80, 3, 0, 4, 0x2b, 0],
          Event.resubmit_int_urb] := by
  decide

/-- C5, amended: a client with empty queues registers a hook with `read_async`
and filter 0, and the bodies of the hooks that run keep the registry and the
allocator as they are and invoke no hook themselves (`upsem` is such a hook;
`wds_callback`, which registers itself again, is not). Whatever transaction id
the next response delivered to that client carries, that delivery invokes the
hook exactly once and removes it from the notification queue; no later
`read_callback` invokes anything for the client. -/
theorem read_callback_run_fires_once (hooks : Nat → World → Nat → Nat → World)
    (q : qmi_codec) (u : urb) (w0 : World) (result : Int)
    (pc : Nat) (c0 : client) (hook data : Nat)
    (hkeep : ∀ f w k d, (hooks f w k d).dev = w.dev ∧ (hooks f w k d).mem = w.mem ∧
      ∃ ev, (hooks f w k d).log = w.log ++ ev ∧ ∀ g j e, Event.call g j e ∉ ev)
    (hc : client_bycid w0.dev c0.cid = some c0)
    (hreads : c0.reads = []) (hnot : c0.notifies = [])
    (hnodup : (w0.dev.clients.map client.cid).Nodup)
    (hmem : ∀ b ∈ w0.mem, b = true) (hhook : hook ≠ 0)
    (hstatus : u.status = 0)
    (hparse : q.qmux_parse u.transfer_buffer (u.actual_length % 65536) = (result, pc))
    (hres : 0 ≤ result) (hsize : result + 3 ≤ ((u.actual_length % 65536 : Nat) : Int))
    (hdeliv : c0.cid = pc % 65536 ∨ (c0.cid ||| 0xff00) = pc % 65536) :
    (read_async_run hooks w0 c0.cid 0 hook data).1 = 0 ∧
    (∃ c, client_bycid (read_async_run hooks w0 c0.cid 0 hook data).2.dev c0.cid = some c ∧
      c.reads = [] ∧ c.notifies = [notifyreq.mk hook 0 data]) ∧
    ∃ ev c1,
      (read_callback_run hooks q u (read_async_run hooks w0 c0.cid 0 hook data).2).log
        = (read_async_run hooks w0 c0.cid 0 hook data).2.log ++ ev ∧
      ev.count (Event.call hook c0.cid data) = 1 ∧
      client_bycid
          (read_callback_run hooks q u (read_async_run hooks w0 c0.cid 0 hook data).2).dev c0.cid
        = some c1 ∧
      c1.notifies = [] ∧
      ∀ u2 : urb, ∃ ev2,
        (read_callback_run hooks q u2
            (read_callback_run hooks q u (read_async_run hooks w0 c0.cid 0 hook data).2)).log
          = (read_callback_run hooks q u (read_async_run hooks w0 c0.cid 0 hook data).2).log
              ++ ev2 ∧
        ∀ f d, Event.call f c0.cid d ∉ ev2 := by
  rw [read_async_run_registers hooks w0 c0.cid 0 hook data c0 hc hreads]
  obtain ⟨h1, h2, ev, c1, h3, h4, h5, h6, h7⟩ := read_callback_once_logged q u w0 result pc c0
    hook data hc hreads hnot hnodup hmem hhook hstatus hparse hres hsize hdeliv
  obtain ⟨W1, hW1⟩ : ∃ W1 : World, W1 = (read_async w0 c0.cid 0 hook data).2 := ⟨_, rfl⟩
  rw [← hW1] at h2 h3 h5 h7 ⊢
  obtain ⟨k1, k2, ev', ev0, k3, k4, k5⟩ :=
    read_callback_run_keeps hooks hkeep q u W1 W1 rfl rfl
  have hev : ev0 = ev := List.append_cancel_left (k4.symm.trans h3)
  subst hev
  refine ⟨h1, h2, ev', c1, k3, ?_, ?_, h6, ?_⟩
  · rw [k5, h4]
  · rw [k1, h5]
  · intro u2
    obtain ⟨ev2, g1, g2⟩ := h7 u2
    obtain ⟨-, -, ev2', ev3, j3, j4, j5⟩ :=
      read_callback_run_keeps hooks hkeep q u2 (read_callback_run hooks q u W1)
        (read_callback q u W1) k1 k2
    have hev2 : ev3 = ev2 := List.append_cancel_left (j4.symm.trans g1)
    subst hev2
    refine ⟨ev2', j3, ?_⟩
    intro f d hmem2
    have := List.count_pos_iff.mpr hmem2
    rw [j5, List.count_eq_zero.mpr (g2 f d)] at this
    exact absurd this (by decide)

/-- A use of the amended C5: client 3 registers `upsem`, whose body changes
nothing, with filter 0; a response for client 3 carrying transaction id 0x2a
invokes it once. -/
theorem read_callback_run_fires_once_witness :
    (read_async_run (fun _ w _ _ => w)
      ⟨⟨true, false, 1, [⟨0, [], [], [], none⟩, ⟨3, [], [], [], none⟩]⟩, [], []⟩
      3 0 upsem 9).1 = 0 :=
  (read_callback_run_fires_once (fun _ w _ _ => w) test_codec
    ⟨0, [1, 8, 0, 0x80, 3, 0, 4, 0x2a, 0], 9⟩
    ⟨⟨true, false, 1, [⟨0, [], [], [], none⟩, ⟨3, [], [], [], none⟩]⟩, [], []⟩ 6 3
    ⟨3, [], [], [], none⟩ upsem 9 (fun _ _ _ _ => ⟨rfl, rfl, [], by simp, by simp⟩)
    (by decide) rfl rfl (by decide) (by decide) (by decide) rfl
    (by decide) (by decide) (by decide) (by decide)).1

/-! ## C6: delivery then synchronous read -/

theorem read_sync_buffered (q : qmi_codec) (sem : Nat) (script : List Sleep) (w : World)
    (cid tid : Nat) (c c1 : client) (d : List Nat × Nat)
    (hconn : device_connected w.dev = true) (hc : client_bycid w.dev cid = some c)
    (hdel : client_delread c tid = (some d, c1)) :
    read_sync q sem script w cid tid = (Result.ok d, w.store cid c1) := by
  unfold read_sync
  simp only [hconn, Bool.not_true, Bool.false_eq_true, if_false, hc]
  cases script <;>
  · unfold read_sync_loop
    simp only [hc, hdel]

theorem read_callback_deliver_idle (c : client) (tid : Nat) (buf : List Nat) (size : Nat)
    (h : c.notifies = []) :
    (read_callback_deliver c tid buf size).1
      = { c with reads := c.reads ++ [readreq.mk (buf.take size) tid size] } := by
  unfold read_callback_deliver
  simp only
  rw [client_notify_none _ tid (by simp [h])]

/-- C6: a client with an empty response queue and no pending notification is
registered on a connected device; `read_callback` delivers a received buffer
that parses to its identifier. Then `read_sync` with filter 0 returns at once
(whatever the environment script, it takes no sleep), its size is the received
length, its data the received bytes, and the client is left as it was, with an
empty response queue. -/
theorem read_callback_then_read_sync (q : qmi_codec) (u : urb) (w : World) (result : Int)
    (cid : Nat) (c : client) (sem : Nat) (script : List Sleep)
    (hstatus : u.status = 0) (hlen : u.actual_length < 65536)
    (hparse : q.qmux_parse u.transfer_buffer u.actual_length = (result, cid))
    (hcid : cid < 65536)
    (hres : 0 ≤ result) (hsize : result + 3 ≤ (u.actual_length : Int))
    (hmem : ∀ b ∈ w.mem, b = true)
    (hconn : device_connected w.dev = true)
    (hc : client_bycid w.dev cid = some c) (hreads : c.reads = []) (hnot : c.notifies = []) :
    ∃ w', read_sync q sem script (read_callback q u w) cid 0
        = (Result.ok (u.transfer_buffer.take u.actual_length, u.actual_length), w') ∧
      client_bycid w'.dev cid = some c := by
  have hmod : u.actual_length % 65536 = u.actual_length := Nat.mod_eq_of_lt hlen
  have hcmod : cid % 65536 = cid := Nat.mod_eq_of_lt hcid
  have hccid : c.cid = cid := client_bycid_cid w.dev cid c hc
  subst hccid
  obtain ⟨pre, post, hsplit, _, hpre⟩ := (client_bycid_iff w.dev c.cid c).mp hc
  obtain ⟨evpre, evpost, _, hby, _, _, _⟩ :=
    read_callback_reaches q u w result c.cid c pre post hstatus (by rw [hmod]; exact hparse) hres
      (by rw [hmod]; exact hsize) hmem hsplit hpre (Or.inl hcmod.symm)
  rw [read_callback_deliver_idle c _ _ _ hnot, hreads, List.nil_append, hmod] at hby
  obtain ⟨hv, hd, _, _, _⟩ := read_callback_frame q u w
  have hconn1 : device_connected (read_callback q u w).dev = true := by
    unfold device_connected at hconn ⊢
    rw [hv, hd]; exact hconn
  have hdel := client_delread_of_split
    { c with reads := [readreq.mk (u.transfer_buffer.take u.actual_length)
        (read_tid (c.cid % 65536) u.transfer_buffer result.toNat) u.actual_length] } 0 []
    [] (readreq.mk (u.transfer_buffer.take u.actual_length)
        (read_tid (c.cid % 65536) u.transfer_buffer result.toNat) u.actual_length) rfl
    (by simp [read_matches]) (by simp)
  refine ⟨_, read_sync_buffered q sem script _ c.cid 0 _ _ _ hconn1 hby hdel, ?_⟩
  have hceq : ({ c with reads := [] } : client) = c := by
    cases c
    simp only [client.mk.injEq, true_and, and_true] at hreads ⊢
    exact hreads.symm
  simp only [List.nil_append]
  rw [hceq]
  exact client_bycid_store_same _ c.cid _ c hby rfl

/-- A use of C6: the control client (id 0) receives a response tagged with
transaction id 5; `read_sync` with filter 0 and an empty script returns it. -/
theorem read_callback_then_read_sync_witness :
    ∃ w', read_sync test_codec 100 []
        (read_callback test_codec ⟨0, [1, 8, 0, 0x80, 0, 0, 1, 5, 0x22], 9⟩
          ⟨⟨true, false, 5, [⟨0, [], [], [], none⟩]⟩, [], []⟩) 0 0
        = (Result.ok ([1, 8, 0, 0x80, 0, 0, 1, 5, 0x22], 9), w') ∧
      client_bycid w'.dev 0 = some ⟨0, [], [], [], none⟩ :=
  read_callback_then_read_sync test_codec ⟨0, [1, 8, 0, 0x80, 0, 0, 1, 5, 0x22], 9⟩
    ⟨⟨true, false, 5, [⟨0, [], [], [], none⟩]⟩, [], []⟩ 6 0 ⟨0, [], [], [], none⟩ 100 []
    (by decide) (by decide) rfl (by decide) (by decide) (by decide) (by decide) rfl rfl rfl rfl

/-! ## What the sleeping calls keep: identifiers and `valid` -/

theorem same_ids_refl (w : World) : w.same_ids w := ⟨rfl, rfl⟩

theorem same_ids_trans {w1 w2 w3 : World} (h12 : w1.same_ids w2) (h23 : w2.same_ids w3) :
    w1.same_ids w3 :=
  ⟨h23.1.trans h12.1, h23.2.trans h12.2⟩

theorem same_ids_emit (w : World) (ev : List Event) : w.same_ids (w.emit ev) := ⟨rfl, rfl⟩

theorem same_ids_mem (w : World) (mem : List Bool) : w.same_ids { w with mem := mem } :=
  ⟨rfl, rfl⟩

theorem same_ids_store (w : World) (cid : Nat) (c : client) (hc : c.cid = cid) :
    w.same_ids (w.store cid c) :=
  ⟨client_store_cids cid c w.dev.clients hc, rfl⟩

theorem deref_cid (w : World) (cid : Nat) (old : client) (h : old.cid = cid) :
    (w.deref cid old).cid = cid := by
  unfold World.deref
  cases hb : client_bycid w.dev cid with
  | none => simpa using h
  | some c => simpa using client_bycid_cid w.dev cid c hb

theorem same_ids_env (q : qmi_codec) (w : World) (ev : EnvEvent) :
    w.same_ids (EnvEvent.run q w ev) := by
  cases ev with
  | read_complete u =>
    obtain ⟨hv, _, _, hc, _⟩ := read_callback_frame q u w
    exact ⟨hc, hv⟩
  | set_dying => exact ⟨rfl, rfl⟩

theorem same_ids_sleep (q : qmi_codec) (s : Sleep) (w : World) : w.same_ids (s.run q w) := by
  unfold Sleep.run
  generalize s.events = evs
  induction evs generalizing w with
  | nil => exact same_ids_refl w
  | cons ev evs ih =>
    rw [List.foldl_cons]
    exact same_ids_trans (same_ids_env q w ev) (ih _)

theorem client_delurb_cid (c : client) : (client_delurb c).2.cid = c.cid := by
  unfold client_delurb
  cases c.urbs <;> rfl

theorem same_ids_write_sync (q : qmi_codec) (e : write_env) (w : World) (buf : List Nat)
    (size : Int) (cid : Nat) : w.same_ids (write_sync q e w buf size cid).2 := by
  unfold write_sync
  by_cases h1 : e.urb = 0
  · simp only [h1, if_true]
    exact same_ids_refl w
  simp only [h1, if_false]
  by_cases h2 : q.qmux_fill cid buf size < 0
  · simp only [h2, if_true]
    exact same_ids_emit w _
  simp only [h2, if_false]
  have h0 := same_ids_emit w [Event.usb_autopm_get_interface e.autopm]
  by_cases h3 : e.autopm < 0
  · simp only [h3, if_true]
    exact same_ids_trans h0 (same_ids_emit _ _)
  simp only [h3, if_false]
  cases hb : client_bycid (w.emit [Event.usb_autopm_get_interface e.autopm]).dev cid with
  | none =>
    simp only []
    exact same_ids_trans h0 (same_ids_emit _ _)
  | some c =>
    simp only []
    have hcid : c.cid = cid := client_bycid_cid _ cid c hb
    rcases hk : kmalloc (w.emit [Event.usb_autopm_get_interface e.autopm]).mem with ⟨ok, mem1⟩
    cases ok
    · simp only [client_addurb, Bool.false_eq_true, if_false, Bool.not_false, if_true]
      exact same_ids_trans h0 (same_ids_trans (same_ids_mem _ mem1)
        (same_ids_trans (same_ids_store _ cid c hcid) (same_ids_emit _ _)))
    · simp only [client_addurb, if_true, Bool.not_true, Bool.false_eq_true, if_false]
      have hc1 : ({ c with urbs := c.urbs ++ [e.urb] } : client).cid = cid := hcid
      have h1' := same_ids_trans h0 (same_ids_trans (same_ids_mem _ mem1)
        (same_ids_trans (same_ids_store _ cid { c with urbs := c.urbs ++ [e.urb] } hc1)
          (same_ids_emit _ [Event.usb_submit_urb e.urb e.submit])))
      by_cases h4 : e.submit < 0
      · simp only [h4, if_true]
        exact same_ids_trans h1' (same_ids_trans
          (same_ids_store _ cid _ ((client_delurb_cid _).trans hc1)) (same_ids_emit _ _))
      · simp only [h4, if_false]
        split_ifs
        all_goals
          exact same_ids_trans h1' (same_ids_trans (same_ids_sleep q e.sleep _)
            (same_ids_trans (same_ids_emit _ _)
              (same_ids_trans (same_ids_store _ cid _
                ((client_delurb_cid _).trans (deref_cid _ cid _ hc1))) (same_ids_emit _ _))))

theorem client_delread_cid (c : client) (tid : Nat) : (client_delread c tid).2.cid = c.cid := by
  unfold client_delread
  cases list_del_first (read_matches tid) c.reads <;> rfl

theorem client_addnotify_cid (ok : Bool) (c : client) (tid hook data : Nat) :
    (client_addnotify ok c tid hook data).2.cid = c.cid := by
  unfold client_addnotify
  cases ok <;> rfl

theorem same_ids_read_sync_loop (q : qmi_codec) (sem cid tid : Nat) (script : List Sleep)
    (w : World) : w.same_ids (read_sync_loop q sem cid tid script w).2 := by
  induction script generalizing w with
  | nil =>
    unfold read_sync_loop
    cases hb : client_bycid w.dev cid with
    | none => exact same_ids_refl w
    | some c =>
      have hcid : c.cid = cid := client_bycid_cid _ cid c hb
      simp only []
      rcases hdel : client_delread c tid with ⟨_ | ⟨data, size⟩, c1⟩
      · simp only []
        have hc1 : (client_addnotify (kmalloc w.mem).1 c tid upsem sem).2.cid = cid :=
          (client_addnotify_cid _ c tid upsem sem).trans hcid
        split_ifs
        all_goals
          exact same_ids_trans (same_ids_mem w _) (same_ids_store _ cid _ hc1)
      · simp only []
        have hc1 : c1.cid = cid := by
          have := client_delread_cid c tid
          rw [hdel] at this
          exact this.trans hcid
        exact same_ids_store w cid c1 hc1
  | cons s script ih =>
    unfold read_sync_loop
    cases hb : client_bycid w.dev cid with
    | none => exact same_ids_refl w
    | some c =>
      have hcid : c.cid = cid := client_bycid_cid _ cid c hb
      simp only []
      rcases hdel : client_delread c tid with ⟨_ | ⟨data, size⟩, c1⟩
      · simp only []
        have hc1 : (client_addnotify (kmalloc w.mem).1 c tid upsem sem).2.cid = cid :=
          (client_addnotify_cid _ c tid upsem sem).trans hcid
        have h1 : w.same_ids (({ w with mem := (kmalloc w.mem).2 } : World).store cid
            (client_addnotify (kmalloc w.mem).1 c tid upsem sem).2) :=
          same_ids_trans (same_ids_mem w _) (same_ids_store _ cid _ hc1)
        have h2 := same_ids_trans h1 (same_ids_sleep q s _)
        split_ifs
        · exact h1
        · exact h2
        · exact same_ids_trans h2 (ih _)
        · split
          · exact same_ids_trans h2 (same_ids_store _ cid _ (deref_cid _ cid _ hc1))
          · exact h2
        · exact h2
      · simp only []
        have hc1 : c1.cid = cid := by
          have := client_delread_cid c tid
          rw [hdel] at this
          exact this.trans hcid
        exact same_ids_store w cid c1 hc1

theorem same_ids_read_sync (q : qmi_codec) (sem : Nat) (script : List Sleep) (w : World)
    (cid tid : Nat) : w.same_ids (read_sync q sem script w cid tid).2 := by
  unfold read_sync
  split_ifs
  · exact same_ids_refl w
  · cases client_bycid w.dev cid with
    | none => exact same_ids_refl w
    | some c => exact same_ids_read_sync_loop q sem cid tid script w

theorem same_ids_qmitid_next (w : World) : w.same_ids (qmitid_next w).2 := by
  unfold qmitid_next
  simp only []
  split_ifs <;> exact ⟨rfl, rfl⟩

theorem same_ids_getcid (q : qmi_codec) (e : rpc_env) (w : World) (type : Nat) :
    w.same_ids (client_alloc_getcid q e w type).2 := by
  unfold client_alloc_getcid
  have h0 := same_ids_qmitid_next w
  simp only []
  cases q.qmictl_new_getcid (qmitid_next w).1 type with
  | none => exact h0
  | some wbuf =>
    simp only []
    have h1 := same_ids_trans h0 (same_ids_trans
      (same_ids_write_sync q e.wr (qmitid_next w).2 wbuf wbuf.length QMICTL)
      (same_ids_emit _ [Event.kfree wbuf]))
    split_ifs
    · exact h1
    · have h2 := same_ids_trans h1 (same_ids_read_sync q e.sem e.rd
        ((write_sync q e.wr (qmitid_next w).2 wbuf wbuf.length QMICTL).2.emit
          [Event.kfree wbuf]) QMICTL (qmitid_next w).1)
      rcases hr : read_sync q e.sem e.rd
        ((write_sync q e.wr (qmitid_next w).2 wbuf wbuf.length QMICTL).2.emit
          [Event.kfree wbuf]) QMICTL (qmitid_next w).1 with ⟨r, w3⟩
      rw [hr] at h2
      rcases r with ⟨rbuf, rbufsize⟩ | code | _
      · simp only []
        split_ifs
        all_goals exact same_ids_trans h2 (same_ids_emit _ _)
      · exact h2
      · exact h2

theorem same_ids_release (q : qmi_codec) (e : rpc_env) (w : World) (cid : Nat) :
    w.same_ids (client_free_release q e w cid).2 := by
  unfold client_free_release
  have h0 := same_ids_qmitid_next w
  simp only []
  cases q.qmictl_new_releasecid (qmitid_next w).1 cid with
  | none => exact h0
  | some wbuf =>
    simp only []
    have h1 := same_ids_trans h0 (same_ids_trans
      (same_ids_write_sync q e.wr (qmitid_next w).2 wbuf wbuf.length QMICTL)
      (same_ids_emit _ [Event.kfree wbuf]))
    split_ifs
    · exact h1
    · have h2 := same_ids_trans h1 (same_ids_read_sync q e.sem e.rd
        ((write_sync q e.wr (qmitid_next w).2 wbuf wbuf.length QMICTL).2.emit
          [Event.kfree wbuf]) QMICTL (qmitid_next w).1)
      rcases hr : read_sync q e.sem e.rd
        ((write_sync q e.wr (qmitid_next w).2 wbuf wbuf.length QMICTL).2.emit
          [Event.kfree wbuf]) QMICTL (qmitid_next w).1 with ⟨r, w3⟩
      rw [hr] at h2
      rcases r with ⟨rbuf, rbufsize⟩ | code | _
      · exact same_ids_trans h2 (same_ids_emit _ _)
      · exact h2
      · exact h2

/-! ## C8, C9: `client_alloc` -/

theorem client_alloc_insert_dup (w : World) (cid : Nat) (c : client)
    (h : client_bycid w.dev cid = some c) :
    client_alloc_insert w cid = (Result.err (-ETOOMANYREFS), w) := by
  simp [client_alloc_insert, h]

theorem client_alloc_insert_new (w : World) (cid : Nat) (h : client_bycid w.dev cid = none) :
    ((kmalloc w.mem).1 = true →
      client_alloc_insert w cid
        = (Result.ok ⟨cid, [], [], [], none⟩,
            { w with mem := (kmalloc w.mem).2,
                     dev := { w.dev with clients := w.dev.clients ++ [⟨cid, [], [], [], none⟩] } })) ∧
    ((kmalloc w.mem).1 = false →
      client_alloc_insert w cid = (Result.err (-ENOMEM), { w with mem := (kmalloc w.mem).2 })) := by
  constructor
  · intro hk
    simp [client_alloc_insert, h, hk]
  · intro hk
    simp [client_alloc_insert, h, hk]

/-- C8, as stated, fails: when the `kmalloc` of the client fails, `client_alloc`
returns `-ENOMEM` and appends nothing. -/
theorem client_alloc_control_claim_fails :
    ¬ (∀ (q : qmi_codec) (e : rpc_env) (w : World),
        device_connected w.dev = true → client_bycid w.dev 0 = none →
        (client_alloc q e w QMICTL).2.dev.clients
          = w.dev.clients ++ [⟨0, [], [], [], none⟩]) := by
  intro h
  have := h test_codec ⟨⟨500, 0, 0, ⟨[], 0⟩, 0⟩, 900, []⟩
    ⟨⟨true, false, 0, []⟩, [false], []⟩ (by decide) (by decide)
  revert this
  decide

/-- C8, amended: on a connected device whose registry has no client 0,
`client_alloc` with the control service type performs no write and no read and
leaves the transaction-id counter alone (log, flags and counter are unchanged);
when the allocation of the client succeeds it appends a new client with cid 0,
empty queues and no bound handle, all existing clients staying as they were;
when that allocation fails it returns `-ENOMEM` and the registry is unchanged. -/
theorem client_alloc_control (q : qmi_codec) (e : rpc_env) (w : World)
    (hconn : device_connected w.dev = true) (hnone : client_bycid w.dev 0 = none) :
    ((kmalloc w.mem).1 = true →
      client_alloc q e w QMICTL
        = (Result.ok ⟨0, [], [], [], none⟩,
            { w with mem := (kmalloc w.mem).2,
                     dev := { w.dev with clients := w.dev.clients ++ [⟨0, [], [], [], none⟩] } })) ∧
    ((kmalloc w.mem).1 = false →
      client_alloc q e w QMICTL = (Result.err (-ENOMEM), { w with mem := (kmalloc w.mem).2 })) := by
  have h : client_alloc q e w QMICTL = client_alloc_insert w 0 := by
    simp [client_alloc, hconn, QMICTL]
  rw [h]
  exact client_alloc_insert_new w 0 hnone

/-- A use of the amended C8: the first allocation on a fresh connected device. -/
theorem client_alloc_control_witness :
    client_alloc test_codec ⟨⟨500, 0, 0, ⟨[], 0⟩, 0⟩, 900, []⟩ ⟨⟨true, false, 1, []⟩, [], []⟩
        QMICTL
      = (Result.ok ⟨0, [], [], [], none⟩,
          ⟨⟨true, false, 1, [⟨0, [], [], [], none⟩]⟩, [], []⟩) :=
  (client_alloc_control test_codec ⟨⟨500, 0, 0, ⟨[], 0⟩, 0⟩, 900, []⟩
    ⟨⟨true, false, 1, []⟩, [], []⟩ (by decide) (by decide)).1 (by decide)

/-- C9: `client_alloc` fails atomically. (1) On a device that is not connected
at entry it returns `-ENXIO` and the world is untouched: no I/O, no change.
(2) For the control type, when client 0 is already registered, it returns
`-ETOOMANYREFS` and the world is untouched. (3) For another type, when the
round trip has produced an identifier that is already registered, it returns
`-ETOOMANYREFS`, nothing is changed after the round trip, and the registry
holds the same clients (same identifiers, same order) as at entry. -/
theorem client_alloc_fails_atomically (q : qmi_codec) (e : rpc_env) (w : World) (type : Nat) :
    (device_connected w.dev = false →
      client_alloc q e w type = (Result.err (- ENXIO), w)) ∧
    (device_connected w.dev = true → type = 0 → (∃ c, client_bycid w.dev 0 = some c) →
      client_alloc q e w type = (Result.err (-ETOOMANYREFS), w)) ∧
    (device_connected w.dev = true → type ≠ 0 →
      ∀ cid w1, client_alloc_getcid q e w type = (Result.ok cid, w1) →
        (∃ c, client_bycid w1.dev cid = some c) →
        client_alloc q e w type = (Result.err (-ETOOMANYREFS), w1) ∧
        w1.dev.clients.map client.cid = w.dev.clients.map client.cid) := by
  refine ⟨?_, ?_, ?_⟩
  · intro h
    simp [client_alloc, h]
  · rintro h rfl ⟨c, hc⟩
    simp [client_alloc, h, client_alloc_insert_dup w 0 c hc]
  · intro h ht cid w1 hget ⟨c, hc⟩
    constructor
    · simp [client_alloc, h, ht, hget, client_alloc_insert_dup w1 cid c hc]
    · have := (same_ids_getcid q e w type).1
      rw [hget] at this
      exact this

/-- A use of C9: clients 0 and 7 are registered; the device answers the next
allocation request with identifier 7 again, and the allocation fails with
`-ETOOMANYREFS`, the registry still holding 0 and 7. -/
theorem client_alloc_fails_atomically_witness :
    client_alloc test_codec
        ⟨⟨500, 0, 0, ⟨[], 0⟩, 0⟩, 901,
          [⟨[EnvEvent.read_complete ⟨0, [1, 10, 0, 0x80, 0, 0, 1, 3, 0x22, 7, 0], 11⟩], 0⟩]⟩
        ⟨⟨true, false, 2, [⟨0, [], [], [], none⟩, ⟨7, [], [], [], none⟩]⟩, [], []⟩ 1
      = (Result.err (-ETOOMANYREFS),
          ⟨⟨true, false, 3, [⟨0, [], [], [], none⟩, ⟨7, [], [], [], none⟩]⟩, [],
            [Event.usb_autopm_get_interface 0, Event.usb_submit_urb 500 0,
              Event.usb_autopm_put_interface, Event.usb_free_urb 500,
              Event.kfree [1, 0, 0, 0, 0, 0, 0, 3, 0x22, 1], Event.call 1 0 901,
              Event.resubmit_int_urb, Event.kfree [1, 10, 0, 0x80, 0, 0, 1, 3, 0x22, 7, 0]]⟩) ∧
      List.map client.cid [⟨0, [], [], [], none⟩, ⟨7, [], [], [], none⟩]
        = List.map client.cid [⟨0, [], [], [], none⟩, ⟨7, [], [], [], none⟩] :=
  (client_alloc_fails_atomically test_codec
    ⟨⟨500, 0, 0, ⟨[], 0⟩, 0⟩, 901,
      [⟨[EnvEvent.read_complete ⟨0, [1, 10, 0, 0x80, 0, 0, 1, 3, 0x22, 7, 0], 11⟩], 0⟩]⟩
    ⟨⟨true, false, 2, [⟨0, [], [], [], none⟩, ⟨7, [], [], [], none⟩]⟩, [], []⟩ 1).2.2
    (by decide) (by decide) 7 _ (by decide) ⟨⟨7, [], [], [], none⟩, by decide⟩

/-! ## C10: `client_free` -/

theorem client_eta_notifies (c : client) (h : c.notifies = []) :
    ({ c with notifies := [] } : client) = c := by
  cases c
  simp only [client.mk.injEq, true_and, and_true] at h ⊢
  simp [h]

theorem client_eta_urbs (c : client) (h : c.urbs = []) :
    ({ c with urbs := [] } : client) = c := by
  cases c
  simp only [client.mk.injEq, true_and, and_true] at h ⊢
  simp [h]

theorem client_eta_reads (c : client) (h : c.reads = []) :
    ({ c with reads := [] } : client) = c := by
  cases c
  simp only [client.mk.injEq, true_and, and_true] at h ⊢
  simp [h]

/-- The notification loop of `client_free` empties the queue, invoking every
non-`NULL` hook once, in queue order; the length of the queue bounds it. -/
theorem client_free_notifies_drain (n : Nat) (c : client) (h : c.notifies.length ≤ n) :
    client_free_notifies n c
      = ({ c with notifies := [] },
          (c.notifies.filter (fun x => x.func != 0)).map
            (fun x => Event.call x.func c.cid x.data)) := by
  induction n generalizing c with
  | zero =>
    have hnil : c.notifies = [] := List.length_eq_zero.mp (Nat.le_zero.mp h)
    simp [client_free_notifies, hnil, client_eta_notifies c hnil]
  | succ n ih =>
    cases hq : c.notifies with
    | nil =>
      have := client_notify_none c 0 (by simp [hq])
      simp [client_free_notifies, this, client_eta_notifies c hq]
    | cons a rest =>
      have hstep := client_notify_of_split c 0 [] rest a hq (by simp [notify_matches]) (by simp)
      have hlen : ({ c with notifies := rest } : client).notifies.length ≤ n := by
        rw [hq] at h
        simpa using h
      have hrec := ih { c with notifies := rest } hlen
      simp only [List.nil_append] at hstep
      simp only [client_free_notifies, hstep, hrec]
      by_cases hf : a.func = 0
      · simp [hf]
      · simp [hf]

/-- The URB loop of `client_free` kills and frees every outstanding write. -/
theorem client_free_urbs_drain (n : Nat) (c : client) (h : c.urbs.length ≤ n) :
    client_free_urbs n c
      = ({ c with urbs := [] },
          c.urbs.flatMap (fun u => [Event.usb_kill_urb u, Event.usb_free_urb u])) := by
  induction n generalizing c with
  | zero =>
    have hnil : c.urbs = [] := List.length_eq_zero.mp (Nat.le_zero.mp h)
    simp [client_free_urbs, hnil, client_eta_urbs c hnil]
  | succ n ih =>
    cases hq : c.urbs with
    | nil =>
      simp [client_free_urbs, client_delurb, hq, client_eta_urbs c hq]
    | cons a rest =>
      have hlen : ({ c with urbs := rest } : client).urbs.length ≤ n := by
        rw [hq] at h
        simpa using h
      have hrec := ih { c with urbs := rest } hlen
      simp [client_free_urbs, client_delurb, hq, hrec]

/-- The read loop of `client_free` frees every buffered message. -/
theorem client_free_reads_drain (n : Nat) (c : client) (h : c.reads.length ≤ n) :
    client_free_reads n c
      = ({ c with reads := [] }, c.reads.map (fun r => Event.kfree r.data)) := by
  induction n generalizing c with
  | zero =>
    have hnil : c.reads = [] := List.length_eq_zero.mp (Nat.le_zero.mp h)
    simp [client_free_reads, hnil, client_eta_reads c hnil]
  | succ n ih =>
    cases hq : c.reads with
    | nil =>
      have := client_delread_none c 0 (by
        rw [client_delread_none_iff]; simp [hq])
      simp [client_free_reads, this, client_eta_reads c hq]
    | cons a rest =>
      have hstep := client_delread_of_split c 0 [] rest a hq (by simp [read_matches]) (by simp)
      have hlen : ({ c with reads := rest } : client).reads.length ≤ n := by
        rw [hq] at h
        simpa using h
      have hrec := ih { c with reads := rest } hlen
      simp only [List.nil_append] at hstep
      simp [client_free_reads, hstep, hrec]

theorem client_free_unlink_split (w : World) (cid : Nat) (c : client) (pre post : List client)
    (hsplit : w.dev.clients = pre ++ c :: post) (hcid : c.cid = cid)
    (hpre : ∀ x ∈ pre, x.cid ≠ cid) :
    client_free_unlink w cid
      = ({ w with
            dev := { w.dev with clients := pre ++ post },
            log := w.log ++
              ((c.notifies.filter (fun x => x.func != 0)).map
                  (fun x => Event.call x.func cid x.data)
                ++ (match c.handle with
                    | some h => [Event.wake_up h]
                    | none => [])
                ++ c.urbs.flatMap (fun u => [Event.usb_kill_urb u, Event.usb_free_urb u])
                ++ c.reads.map (fun r => Event.kfree r.data)) },
          some { c with notifies := [], urbs := [], reads := [] }) := by
  have hb : client_bycid w.dev cid = some c :=
    (client_bycid_iff w.dev cid c).mpr ⟨pre, post, hsplit, hcid, hpre⟩
  have herase : w.dev.clients.eraseP (fun x => x.cid == cid) = pre ++ post := by
    rw [hsplit, List.eraseP_append_right _ (by
      intro b hb'
      simpa using hpre b hb')]
    simp [List.eraseP_cons, hcid]
  unfold client_free_unlink
  simp only [hb, herase]
  have h1 := client_free_notifies_drain c.notifies.length c (le_refl _)
  have h2 := client_free_urbs_drain c.urbs.length { c with notifies := [] } (le_refl _)
  have h3 := client_free_reads_drain c.reads.length { c with notifies := [], urbs := [] }
    (le_refl _)
  simp only [h1, h2, h3]
  simp [World.emit, hcid]

theorem client_free_unlink_sublist (w : World) (cid : Nat) :
    (client_free_unlink w cid).1.dev.clients.Sublist w.dev.clients ∧
    (client_free_unlink w cid).1.dev.valid = w.dev.valid ∧
    (client_free_unlink w cid).1.dev.dying = w.dev.dying := by
  unfold client_free_unlink
  cases client_bycid w.dev cid with
  | none => exact ⟨List.Sublist.refl _, rfl, rfl⟩
  | some c => exact ⟨List.eraseP_sublist _, rfl, rfl⟩

/-- C10: `w1` is the world in which `client_free` unlinks the client: the world
at entry when the release request is skipped (control client, or device dying),
otherwise the world after the release round trip. On a valid device whose
registry (without duplicate identifiers) holds a client `c` with the
identifier, `client_free` returns, the registry is the old one without `c` (all
other clients unchanged and in order), it no longer contains the identifier,
and the effects are, in this order: every pending non-`NULL` hook of `c` invoked
once in queue order, the bound handle woken, every outstanding write URB killed
and freed, every buffered message freed. -/
theorem client_free_spec (q : qmi_codec) (e : rpc_env) (w w1 : World) (cid : Nat) (c : client)
    (pre post : List client)
    (hvalid : w.dev.valid = true)
    (hnodup : (w.dev.clients.map client.cid).Nodup)
    (hw1 : ((cid = QMICTL ∨ w.dev.dying = true) ∧ w1 = w) ∨
      (cid ≠ QMICTL ∧ w.dev.dying = false ∧ client_free_release q e w cid = (true, w1)))
    (hsplit : w1.dev.clients = pre ++ c :: post) (hcid : c.cid = cid) :
    client_free q e w cid
      = (Result.ok (),
          { w1 with
            dev := { w1.dev with clients := pre ++ post },
            log := w1.log ++
              ((c.notifies.filter (fun x => x.func != 0)).map
                  (fun x => Event.call x.func cid x.data)
                ++ (match c.handle with
                    | some h => [Event.wake_up h]
                    | none => [])
                ++ c.urbs.flatMap (fun u => [Event.usb_kill_urb u, Event.usb_free_urb u])
                ++ c.reads.map (fun r => Event.kfree r.data)) }) ∧
    cid ∉ (pre ++ post).map client.cid ∧
    w1.dev.clients.map client.cid = w.dev.clients.map client.cid := by
  have hsame : w.same_ids w1 := by
    rcases hw1 with ⟨_, rfl⟩ | ⟨_, _, hrel⟩
    · exact same_ids_refl _
    · have := same_ids_release q e w cid
      rw [hrel] at this
      exact this
  have hnd1 : ((pre ++ c :: post).map client.cid).Nodup := by
    rw [← hsplit, hsame.1]; exact hnodup
  rw [List.map_append, List.map_cons, hcid] at hnd1
  have hnotpost : cid ∉ post.map client.cid :=
    (List.nodup_cons.mp (List.nodup_append.mp hnd1).2.1).1
  have hnotpre : cid ∉ pre.map client.cid := fun h =>
    (List.nodup_append.mp hnd1).2.2 h (by simp)
  have hpre : ∀ x ∈ pre, x.cid ≠ cid := fun x hx hxc =>
    hnotpre (List.mem_map.mpr ⟨x, hx, hxc⟩)
  have hunlink := client_free_unlink_split w1 cid c pre post hsplit hcid hpre
  refine ⟨?_, ?_, hsame.1⟩
  · rcases hw1 with ⟨hskip, rfl⟩ | ⟨hne, hdy, hrel⟩
    · have hcond : (decide (cid ≠ QMICTL) && !w1.dev.dying) = false := by
        rcases hskip with h | h
        · simp [h]
        · simp [h]
      simp only [client_free, hvalid, Bool.not_true, Bool.false_eq_true, if_false, hcond,
        hunlink]
    · have hcond : (decide (cid ≠ QMICTL) && !w.dev.dying) = true := by
        simp [hne, hdy]
      have hv1 : w1.dev.valid = true := hsame.2.trans hvalid
      simp only [client_free, hvalid, Bool.not_true, Bool.false_eq_true, if_false, hcond,
        if_true, hrel, hv1, hunlink]
  · rw [List.map_append, List.mem_append]
    rintro (h | h)
    · exact hnotpre h
    · exact hnotpost h

/-- A use of C10: on a dying device, client 7 holds two pending hooks, a bound
handle, one outstanding write and one unread message. -/
theorem client_free_spec_witness :
    client_free test_codec ⟨⟨500, 0, 0, ⟨[], 0⟩, 0⟩, 900, []⟩
        ⟨⟨true, true, 4, [⟨0, [], [], [], none⟩,
            ⟨7, [⟨[1, 2], 3, 2⟩], [⟨11, 5, 21⟩, ⟨12, 0, 22⟩], [600], some 40⟩,
            ⟨8, [⟨[9], 1, 1⟩], [], [], none⟩]⟩, [], []⟩ 7
      = (Result.ok (),
          ⟨⟨true, true, 4, [⟨0, [], [], [], none⟩, ⟨8, [⟨[9], 1, 1⟩], [], [], none⟩]⟩, [],
            [Event.call 11 7 21, Event.call 12 7 22, Event.wake_up 40, Event.usb_kill_urb 600,
              Event.usb_free_urb 600, Event.kfree [1, 2]]⟩) :=
  (client_free_spec test_codec ⟨⟨500, 0, 0, ⟨[], 0⟩, 0⟩, 900, []⟩
    ⟨⟨true, true, 4, [⟨0, [], [], [], none⟩,
        ⟨7, [⟨[1, 2], 3, 2⟩], [⟨11, 5, 21⟩, ⟨12, 0, 22⟩], [600], some 40⟩,
        ⟨8, [⟨[9], 1, 1⟩], [], [], none⟩]⟩, [], []⟩ _ 7
    ⟨7, [⟨[1, 2], 3, 2⟩], [⟨11, 5, 21⟩, ⟨12, 0, 22⟩], [600], some 40⟩
    [⟨0, [], [], [], none⟩] [⟨8, [⟨[9], 1, 1⟩], [], [], none⟩]
    rfl (by decide) (Or.inl ⟨Or.inr rfl, rfl⟩) rfl rfl).1

/-! ## The loop of `qc_deregister` -/

theorem client_free_dying (q : qmi_codec) (e : rpc_env) (w : World) (cid : Nat)
    (hv : w.dev.valid = true) (hd : w.dev.dying = true) :
    client_free q e w cid = (Result.ok (), (client_free_unlink w cid).1) := by
  simp [client_free, hv, hd]

/-- Every pass of the loop of `qc_deregister` removes the head of the registry,
so as many passes as the registry has clients leave it empty. -/
theorem qc_deregister_loop_empties (q : qmi_codec) (e : rpc_env) (n : Nat) (w : World)
    (hv : w.dev.valid = true) (hd : w.dev.dying = true) (hn : w.dev.clients.length ≤ n) :
    (qc_deregister_loop q e n w).dev.clients = [] ∧
    (qc_deregister_loop q e n w).dev.valid = true ∧
    (qc_deregister_loop q e n w).dev.dying = true := by
  induction n generalizing w with
  | zero =>
    exact ⟨List.length_eq_zero.mp (Nat.le_zero.mp hn), hv, hd⟩
  | succ n ih =>
    unfold qc_deregister_loop
    cases hcl : w.dev.clients with
    | nil => exact ⟨hcl, hv, hd⟩
    | cons c rest =>
      simp only []
      rw [client_free_dying q e w c.cid hv hd]
      have hsplit : w.dev.clients = [] ++ c :: rest := by rw [hcl]; rfl
      have hun := client_free_unlink_split w c.cid c [] rest hsplit rfl (by simp)
      have hfr := client_free_unlink_sublist w c.cid
      apply ih
      · exact hfr.2.1.trans hv
      · exact hfr.2.2.trans hd
      · rw [hun]
        rw [hcl] at hn
        simpa using hn

theorem qc_deregister_empties (q : qmi_codec) (e : rpc_env) (w : World)
    (hv : w.dev.valid = true) :
    (qc_deregister q e w).dev.clients = [] ∧ (qc_deregister q e w).dev.valid = false ∧
    (qc_deregister q e w).dev.dying = true := by
  have hcond : (!w.dev.valid) = false := by simp [hv]
  unfold qc_deregister
  rw [hcond]
  simp only [Bool.false_eq_true, if_false]
  obtain ⟨h1, _, h3⟩ := qc_deregister_loop_empties q e
    (({ w with dev := { w.dev with dying := true } } : World).emit
      [Event.qc_stopread]).dev.clients.length
    (({ w with dev := { w.dev with dying := true } } : World).emit [Event.qc_stopread])
    hv rfl (le_refl _)
  exact ⟨h1, trivial, h3⟩

/-! ## C7: identifiers are unique -/

theorem nodup_of_same_ids {w w' : World} (h : w.same_ids w')
    (hn : (w.dev.clients.map client.cid).Nodup) : (w'.dev.clients.map client.cid).Nodup := by
  rw [h.1]; exact hn

theorem nodup_client_alloc_insert (w : World) (cid : Nat)
    (hn : (w.dev.clients.map client.cid).Nodup) :
    ((client_alloc_insert w cid).2.dev.clients.map client.cid).Nodup := by
  cases hb : client_bycid w.dev cid with
  | some c => rw [client_alloc_insert_dup w cid c hb]; exact hn
  | none =>
    have hnot := (client_bycid_none_iff w.dev cid).mp hb
    cases hk : (kmalloc w.mem).1 with
    | false => rw [(client_alloc_insert_new w cid hb).2 hk]; exact hn
    | true =>
      rw [(client_alloc_insert_new w cid hb).1 hk]
      simp only [List.map_append, List.map_cons, List.map_nil]
      rw [List.nodup_append]
      refine ⟨hn, List.nodup_singleton _, ?_⟩
      intro a ha ha'
      rw [List.mem_singleton] at ha'
      exact hnot (ha' ▸ ha)

theorem nodup_client_alloc (q : qmi_codec) (e : rpc_env) (w : World) (type : Nat)
    (hn : (w.dev.clients.map client.cid).Nodup) :
    ((client_alloc q e w type).2.dev.clients.map client.cid).Nodup := by
  unfold client_alloc
  split_ifs
  · exact hn
  · have h1 := nodup_of_same_ids (same_ids_getcid q e w type) hn
    rcases hg : client_alloc_getcid q e w type with ⟨r, w1⟩
    rw [hg] at h1
    rcases r with cid | code | _
    · exact nodup_client_alloc_insert w1 cid h1
    · exact h1
    · exact h1
  · exact nodup_client_alloc_insert w 0 hn

theorem nodup_client_free_unlink (w : World) (cid : Nat)
    (hn : (w.dev.clients.map client.cid).Nodup) :
    ((client_free_unlink w cid).1.dev.clients.map client.cid).Nodup :=
  List.Nodup.sublist ((client_free_unlink_sublist w cid).1.map client.cid) hn

theorem nodup_client_free (q : qmi_codec) (e : rpc_env) (w : World) (cid : Nat)
    (hn : (w.dev.clients.map client.cid).Nodup) :
    ((client_free q e w cid).2.dev.clients.map client.cid).Nodup := by
  unfold client_free
  split_ifs
  · exact hn
  · have h1 := nodup_of_same_ids (same_ids_release q e w cid) hn
    rcases hr : client_free_release q e w cid with ⟨ok, w1⟩
    rw [hr] at h1
    cases ok
    · exact h1
    · simp only []
      split_ifs
      · exact h1
      · exact nodup_client_free_unlink w1 cid h1
  · exact nodup_client_free_unlink w cid hn

theorem nodup_qc_deregister_loop (q : qmi_codec) (e : rpc_env) (n : Nat) (w : World)
    (hn : (w.dev.clients.map client.cid).Nodup) :
    ((qc_deregister_loop q e n w).dev.clients.map client.cid).Nodup := by
  induction n generalizing w with
  | zero => exact hn
  | succ n ih =>
    unfold qc_deregister_loop
    cases hcl : w.dev.clients with
    | nil => simp only []; rw [hcl]; exact List.nodup_nil
    | cons c rest =>
      simp only []
      exact ih _ (nodup_client_free q e w c.cid hn)

theorem nodup_qc_deregister (q : qmi_codec) (e : rpc_env) (w : World)
    (hn : (w.dev.clients.map client.cid).Nodup) :
    ((qc_deregister q e w).dev.clients.map client.cid).Nodup := by
  unfold qc_deregister
  split_ifs
  · exact hn
  · exact nodup_qc_deregister_loop q e _ _ hn

theorem nodup_op (q : qmi_codec) (w : World) (op : Op)
    (hn : (w.dev.clients.map client.cid).Nodup) :
    ((Op.run q w op).dev.clients.map client.cid).Nodup := by
  cases op with
  | alloc e type => exact nodup_client_alloc q e w type hn
  | free e cid => exact nodup_client_free q e w cid hn
  | deregister e => exact nodup_qc_deregister q e w hn

theorem nodup_run_ops (q : qmi_codec) (ops : List Op) (w : World)
    (hn : (w.dev.clients.map client.cid).Nodup) :
    ((run_ops q w ops).dev.clients.map client.cid).Nodup := by
  unfold run_ops
  induction ops generalizing w with
  | nil => exact hn
  | cons op ops ih =>
    rw [List.foldl_cons]
    exact ih _ (nodup_op q w op hn)

/-- C7: starting from an empty registry, after every sequence of `client_alloc`,
`client_free` and `qc_deregister` calls, whatever the codec, the transport and
the device answer (so whatever identifiers the allocation responses carry,
and whichever allocations fail), no two clients of `dev->qmi.clients` have
the same cid. -/
theorem registry_cids_nodup (q : qmi_codec) (ops : List Op) (w0 : World)
    (hempty : w0.dev.clients = []) :
    ((run_ops q w0 ops).dev.clients.map client.cid).Nodup :=
  nodup_run_ops q ops w0 (by rw [hempty]; exact List.nodup_nil)

/-- A use of C7: the control client is allocated, the device hands out
identifier 7 twice (the second allocation is refused), then 7 is released. -/
theorem registry_cids_nodup_witness :
    ((run_ops test_codec ⟨⟨true, false, 1, []⟩, [], []⟩
      [Op.alloc ⟨⟨500, 0, 0, ⟨[], 0⟩, 0⟩, 900, []⟩ 0,
        Op.alloc ⟨⟨500, 0, 0, ⟨[], 0⟩, 0⟩, 900,
          [⟨[EnvEvent.read_complete ⟨0, [1, 10, 0, 0x80, 0, 0, 1, 2, 0x22, 7, 0], 11⟩], 0⟩]⟩ 1,
        Op.alloc ⟨⟨500, 0, 0, ⟨[], 0⟩, 0⟩, 901,
          [⟨[EnvEvent.read_complete ⟨0, [1, 10, 0, 0x80, 0, 0, 1, 3, 0x22, 7, 0], 11⟩], 0⟩]⟩ 1,
        Op.free ⟨⟨500, 0, 0, ⟨[], 0⟩, 0⟩, 902,
          [⟨[EnvEvent.read_complete ⟨0, [1, 8, 0, 0x80, 0, 0, 1, 4, 0x23], 9⟩], 0⟩]⟩ 7]
      ).dev.clients.map client.cid).Nodup :=
  registry_cids_nodup test_codec _ ⟨⟨true, false, 1, []⟩, [], []⟩ rfl

/-! ## What the environment does to a client and to the log -/

theorem evolves_refl (c : client) : c.evolves c :=
  ⟨rfl, rfl, rfl, List.Sublist.refl _, List.prefix_rfl⟩

theorem evolves_trans {a b c : client} (h1 : a.evolves b) (h2 : b.evolves c) : a.evolves c :=
  ⟨h2.1.trans h1.1, h2.2.1.trans h1.2.1, h2.2.2.1.trans h1.2.2.1,
    h2.2.2.2.1.trans h1.2.2.2.1, h1.2.2.2.2.trans h2.2.2.2.2⟩

theorem evolves_list_refl (l : List client) : List.Forall₂ client.evolves l l :=
  List.forall₂_same.mpr (fun x _ => evolves_refl x)

theorem evolves_list_trans {l1 l2 l3 : List client} (h12 : List.Forall₂ client.evolves l1 l2)
    (h23 : List.Forall₂ client.evolves l2 l3) : List.Forall₂ client.evolves l1 l3 := by
  induction h12 generalizing l3 with
  | nil => cases h23; exact List.Forall₂.nil
  | cons hab _ ih =>
    cases h23 with
    | cons hbc htl => exact List.Forall₂.cons (evolves_trans hab hbc) (ih htl)

theorem client_notify_evolves (c : client) (tid : Nat) : c.evolves (client_notify c tid).2.1 := by
  unfold client_notify
  cases h : list_del_first (notify_matches tid) c.notifies with
  | none => exact evolves_refl c
  | some r =>
    obtain ⟨n, rest⟩ := r
    obtain ⟨pre, post, h1, h2, _, _⟩ := (list_del_first_some _ _ _ _).mp h
    refine ⟨rfl, rfl, rfl, ?_, List.prefix_rfl⟩
    simp only
    rw [h1, h2]
    exact List.Sublist.append_left (List.sublist_cons_self n post) pre

theorem read_callback_deliver_evolves (c : client) (tid : Nat) (data : List Nat) (size : Nat) :
    c.evolves (read_callback_deliver c tid data size).1 := by
  unfold read_callback_deliver
  simp only
  have h1 : c.evolves { c with reads := c.reads ++ [readreq.mk (data.take size) tid size] } :=
    ⟨rfl, rfl, rfl, List.Sublist.refl _, List.prefix_append _ _⟩
  exact evolves_trans h1 (client_notify_evolves _ tid)

theorem read_callback_deliver_events (c : client) (tid : Nat) (data : List Nat) (size : Nat)
    (x : Event) (hx : x ∈ (read_callback_deliver c tid data size).2) :
    x.is_delivery = true := by
  unfold read_callback_deliver at hx
  simp only [List.mem_append] at hx
  rcases hx with hx | hx
  · cases hh : c.handle with
    | none => rw [hh] at hx; simp at hx
    | some h =>
      rw [hh] at hx
      simp only [List.mem_singleton] at hx
      rw [hx]; rfl
  · obtain ⟨n, _, he⟩ := client_notify_calls _ tid _ hx
    rw [he]; rfl

theorem read_callback_loop_evolves (cid tid : Nat) (data : List Nat) (size : Nat)
    (clients : List client) (mem : List Bool) :
    List.Forall₂ client.evolves clients (read_callback_loop cid tid data size clients mem).1 ∧
    ∀ x ∈ (read_callback_loop cid tid data size clients mem).2.2.1, x.is_delivery = true := by
  induction clients generalizing mem with
  | nil => simp [read_callback_loop]
  | cons c rest ih =>
    rw [read_callback_loop_cons]
    split_ifs
    · exact ⟨evolves_list_refl _, by simp⟩
    · refine ⟨evolves_list_refl _, ?_⟩
      intro x hx
      simp only [List.mem_singleton] at hx
      rw [hx]; rfl
    · exact ⟨List.Forall₂.cons (read_callback_deliver_evolves c tid data size)
        (evolves_list_refl _), read_callback_deliver_events c tid data size⟩
    · refine ⟨List.Forall₂.cons (read_callback_deliver_evolves c tid data size) (ih _).1, ?_⟩
      intro x hx
      simp only [List.mem_append] at hx
      rcases hx with hx | hx
      · exact read_callback_deliver_events c tid data size x hx
      · exact (ih _).2 x hx
    · exact ⟨List.Forall₂.cons (evolves_refl c) (ih _).1, (ih _).2⟩

/-- `read_callback`, whatever the URB: every client evolves, and the effects
are deliveries. -/
theorem read_callback_evolves (q : qmi_codec) (u : urb) (w : World) :
    List.Forall₂ client.evolves w.dev.clients (read_callback q u w).dev.clients ∧
    ∃ ev, (read_callback q u w).log = w.log ++ ev ∧ ∀ x ∈ ev, x.is_delivery = true := by
  have hresub : ∀ x ∈ [Event.resubmit_int_urb], x.is_delivery = true := by
    intro x hx
    simp only [List.mem_singleton] at hx
    rw [hx]; rfl
  by_cases hstatus : u.status = 0
  · rcases hparse : q.qmux_parse u.transfer_buffer (u.actual_length % 65536) with ⟨result, pc⟩
    by_cases hres : result < 0
    · have : read_callback q u w = w.emit [Event.resubmit_int_urb] := by
        unfold read_callback
        simp only [hstatus, if_true, hparse, hres]
      rw [this]
      exact ⟨evolves_list_refl _, _, rfl, hresub⟩
    · by_cases hsize : ((u.actual_length % 65536 : Nat) : Int) < result + 3
      · have : read_callback q u w = w.emit [Event.resubmit_int_urb] := by
          unfold read_callback
          simp only [hstatus, if_true, hparse, hres, if_false, hsize]
        rw [this]
        exact ⟨evolves_list_refl _, _, rfl, hresub⟩
      · rw [read_callback_parsed q u w result pc hstatus hparse (by omega) (by omega)]
        have hL := read_callback_loop_evolves (pc % 65536)
          (read_tid (pc % 65536) u.transfer_buffer result.toNat) u.transfer_buffer
          (u.actual_length % 65536) w.dev.clients w.mem
        unfold read_callback_dispatch
        simp only
        generalize read_callback_loop (pc % 65536)
          (read_tid (pc % 65536) u.transfer_buffer result.toNat) u.transfer_buffer
          (u.actual_length % 65536) w.dev.clients w.mem = L at hL ⊢
        obtain ⟨h1, h2⟩ := hL
        split_ifs
        · exact ⟨h1, _, rfl, h2⟩
        · refine ⟨h1, L.2.2.1 ++ [Event.resubmit_int_urb], by simp [World.emit], ?_⟩
          intro x hx
          simp only [List.mem_append] at hx
          rcases hx with hx | hx
          · exact h2 x hx
          · exact hresub x hx
  · unfold read_callback
    simp only [hstatus, if_false]
    split_ifs
    · exact ⟨evolves_list_refl _, [], by simp, by simp⟩
    · exact ⟨evolves_list_refl _, _, rfl, hresub⟩

theorem env_run_evolves (q : qmi_codec) (w : World) (ev : EnvEvent) :
    List.Forall₂ client.evolves w.dev.clients (EnvEvent.run q w ev).dev.clients ∧
    ∃ l, (EnvEvent.run q w ev).log = w.log ++ l ∧ ∀ x ∈ l, x.is_delivery = true := by
  cases ev with
  | read_complete u => exact read_callback_evolves q u w
  | set_dying => exact ⟨evolves_list_refl _, [], by simp [EnvEvent.run], by simp⟩

/-- One sleep: every client evolves, the log grows by deliveries only. -/
theorem sleep_run_evolves (q : qmi_codec) (s : Sleep) (w : World) :
    List.Forall₂ client.evolves w.dev.clients (s.run q w).dev.clients ∧
    ∃ l, (s.run q w).log = w.log ++ l ∧ ∀ x ∈ l, x.is_delivery = true := by
  unfold Sleep.run
  generalize s.events = evs
  induction evs generalizing w with
  | nil => exact ⟨evolves_list_refl _, [], by simp, by simp⟩
  | cons ev evs ih =>
    rw [List.foldl_cons]
    obtain ⟨h1, l1, h2, h3⟩ := env_run_evolves q w ev
    obtain ⟨h4, l2, h5, h6⟩ := ih (EnvEvent.run q w ev)
    refine ⟨evolves_list_trans h1 h4, l1 ++ l2, by rw [h5, h2, List.append_assoc], ?_⟩
    intro x hx
    simp only [List.mem_append] at hx
    rcases hx with hx | hx
    · exact h3 x hx
    · exact h6 x hx

theorem client_bycid_evolves {dev dev' : qcusbnet}
    (h : List.Forall₂ client.evolves dev.clients dev'.clients) (cid : Nat) (c : client)
    (hc : client_bycid dev cid = some c) :
    ∃ c', client_bycid dev' cid = some c' ∧ c.evolves c' := by
  unfold client_bycid at hc ⊢
  generalize dev.clients = l at h hc
  generalize dev'.clients = l' at h
  induction h with
  | nil => simp at hc
  | @cons a b l l' hab _ ih =>
    by_cases ha : a.cid = cid
    · have h1 : (a.cid == cid) = true := by simp [ha]
      have h2 : (b.cid == cid) = true := by simp [hab.1, ha]
      simp only [List.find?_cons, h1, Option.some.injEq] at hc
      simp only [List.find?_cons, h2]
      exact ⟨b, rfl, hc ▸ hab⟩
    · have h1 : (a.cid == cid) = false := by simp [ha]
      have h2 : (b.cid == cid) = false := by simp [hab.1, ha]
      simp only [List.find?_cons, h1] at hc
      simp only [List.find?_cons, h2]
      exact ih hc

/-! ## The paths of `write_sync` -/

/-- `write_sync` once its URB is queued and submitted: `W2` is the world at
the submission, `W3` the world when the caller runs again and has dropped the
power-management reference, `c'` its client then. -/
theorem write_sync_submitted (q : qmi_codec) (e : write_env) (w : World) (buf : List Nat)
    (size : Int) (cid : Nat) (c c' : client) (W2 W3 : World)
    (hurb : e.urb ≠ 0) (hfill : 0 ≤ q.qmux_fill cid buf size) (hpm : 0 ≤ e.autopm)
    (hc : client_bycid w.dev cid = some c) (hk : (kmalloc w.mem).1 = true)
    (hsub : 0 ≤ e.submit)
    (hW2 : W2 = ((({ w.emit [Event.usb_autopm_get_interface e.autopm] with
              mem := (kmalloc w.mem).2 } : World).store cid
              { c with urbs := c.urbs ++ [e.urb] }).emit [Event.usb_submit_urb e.urb e.submit]))
    (hW3 : W3 = (e.sleep.run q W2).emit [Event.usb_autopm_put_interface])
    (hc' : c' = W3.deref cid { c with urbs := c.urbs ++ [e.urb] }) :
    write_sync q e w buf size cid =
      if (client_delurb c').1 ≠ some e.urb then
        (-EINVAL, (W3.store cid (client_delurb c').2).emit [Event.usb_free_urb e.urb])
      else if e.sleep.signal = 0 then
        if e.status = 0 then
          (size, (W3.store cid (client_delurb c').2).emit [Event.usb_free_urb e.urb])
        else (e.status, (W3.store cid (client_delurb c').2).emit [Event.usb_free_urb e.urb])
      else
        (e.sleep.signal, (W3.store cid (client_delurb c').2).emit
          [Event.usb_kill_urb e.urb, Event.usb_free_urb e.urb]) := by
  subst hW2 hW3 hc'
  have hc0 : client_bycid (w.emit [Event.usb_autopm_get_interface e.autopm]).dev cid = some c := hc
  have hk0 : kmalloc (w.emit [Event.usb_autopm_get_interface e.autopm]).mem
      = (true, (kmalloc w.mem).2) := by
    show kmalloc w.mem = (true, (kmalloc w.mem).2)
    rw [← hk]
  unfold write_sync
  simp only [hurb, if_false, not_lt.mpr hfill, not_lt.mpr hpm, hc0, hk0, client_addurb, if_true,
    Bool.not_true, Bool.false_eq_true, not_lt.mpr hsub]

/-- The effects of `write_sync` on every path: `evs` is what `read_callback`
logs while the caller sleeps, `tail` the release of the URB after the wait. -/
theorem write_sync_log (q : qmi_codec) (e : write_env) (w : World) (buf : List Nat)
    (size : Int) (cid : Nat) :
    ∃ evs tail, (∀ x ∈ evs, x.is_delivery = true) ∧
      (tail = [Event.usb_free_urb e.urb] ∨
        tail = [Event.usb_kill_urb e.urb, Event.usb_free_urb e.urb]) ∧
      (write_sync q e w buf size cid).2.log = w.log ++
        (if e.urb = 0 then []
         else if q.qmux_fill cid buf size < 0 then [Event.usb_free_urb e.urb]
         else if e.autopm < 0 then
           [Event.usb_autopm_get_interface e.autopm, Event.usb_free_urb e.urb]
         else if client_bycid w.dev cid = none ∨ (kmalloc w.mem).1 = false then
           [Event.usb_autopm_get_interface e.autopm, Event.usb_free_urb e.urb,
             Event.usb_autopm_put_interface]
         else if e.submit < 0 then
           [Event.usb_autopm_get_interface e.autopm, Event.usb_submit_urb e.urb e.submit,
             Event.usb_free_urb e.urb, Event.usb_autopm_put_interface]
         else
           [Event.usb_autopm_get_interface e.autopm, Event.usb_submit_urb e.urb e.submit]
             ++ evs ++ [Event.usb_autopm_put_interface] ++ tail) := by
  by_cases h1 : e.urb = 0
  · refine ⟨[], _, by simp, Or.inl rfl, ?_⟩
    simp [write_sync, h1]
  by_cases h2 : q.qmux_fill cid buf size < 0
  · refine ⟨[], _, by simp, Or.inl rfl, ?_⟩
    simp [write_sync, h1, h2, World.emit]
  by_cases h3 : e.autopm < 0
  · refine ⟨[], _, by simp, Or.inl rfl, ?_⟩
    simp [write_sync, h1, h2, h3, World.emit]
  cases hc : client_bycid w.dev cid with
  | none =>
    refine ⟨[], _, by simp, Or.inl rfl, ?_⟩
    have hc0 : client_bycid (w.emit [Event.usb_autopm_get_interface e.autopm]).dev cid = none := hc
    simp [write_sync, h1, h2, h3, hc, hc0, World.emit]
  | some c =>
    have hc0 : client_bycid (w.emit [Event.usb_autopm_get_interface e.autopm]).dev cid
        = some c := hc
    cases hk : (kmalloc w.mem).1 with
    | false =>
      refine ⟨[], _, by simp, Or.inl rfl, ?_⟩
      have hk0 : kmalloc (w.emit [Event.usb_autopm_get_interface e.autopm]).mem
          = (false, (kmalloc w.mem).2) := by
        show kmalloc w.mem = (false, (kmalloc w.mem).2)
        rw [← hk]
      simp [write_sync, h1, h2, h3, hc, hc0, hk, hk0, client_addurb, World.emit, World.store]
    | true =>
      have hk0 : kmalloc (w.emit [Event.usb_autopm_get_interface e.autopm]).mem
          = (true, (kmalloc w.mem).2) := by
        show kmalloc w.mem = (true, (kmalloc w.mem).2)
        rw [← hk]
      by_cases h4 : e.submit < 0
      · refine ⟨[], _, by simp, Or.inl rfl, ?_⟩
        simp [write_sync, h1, h2, h3, hc, hc0, hk, hk0, client_addurb, h4, World.emit, World.store]
      · obtain ⟨W2, hW2⟩ : ∃ W2 : World, W2 =
            ((({ w.emit [Event.usb_autopm_get_interface e.autopm] with
              mem := (kmalloc w.mem).2 } : World).store cid
              { c with urbs := c.urbs ++ [e.urb] }).emit
                [Event.usb_submit_urb e.urb e.submit]) := ⟨_, rfl⟩
        have hW2log : W2.log = w.log ++ [Event.usb_autopm_get_interface e.autopm,
            Event.usb_submit_urb e.urb e.submit] := by
          rw [hW2]
          simp [World.emit, World.store]
        obtain ⟨_, evs, hlog, hdel⟩ := sleep_run_evolves q e.sleep W2
        have hsub := write_sync_submitted q e w buf size cid c _ W2 _ h1 (not_lt.mp h2)
          (not_lt.mp h3) hc hk (not_lt.mp h4) hW2 rfl rfl
        rw [hsub]
        simp only [h1, h2, h3, h4, hc, hk, if_false, reduceCtorEq, false_or, Bool.true_eq_false]
        split_ifs
        · exact ⟨evs, _, hdel, Or.inl rfl, by simp [World.emit, World.store, hlog, hW2log]⟩
        · exact ⟨evs, _, hdel, Or.inl rfl, by simp [World.emit, World.store, hlog, hW2log]⟩
        · exact ⟨evs, _, hdel, Or.inl rfl, by simp [World.emit, World.store, hlog, hW2log]⟩
        · exact ⟨evs, _, hdel, Or.inr rfl, by simp [World.emit, World.store, hlog, hW2log]⟩

theorem is_delivery_ne_put (x : Event) (h : x.is_delivery = true) :
    x ≠ Event.usb_autopm_put_interface := by
  intro hx
  subst hx
  simp [Event.is_delivery] at h

theorem is_delivery_ne_get (x : Event) (r : Int) (h : x.is_delivery = true) :
    x ≠ Event.usb_autopm_get_interface r := by
  intro hx
  subst hx
  simp [Event.is_delivery] at h

theorem is_delivery_ne_submit (x : Event) (u : Nat) (r : Int) (h : x.is_delivery = true) :
    x ≠ Event.usb_submit_urb u r := by
  intro hx
  subst hx
  simp [Event.is_delivery] at h

theorem count_put_delivery (evs : List Event) (h : ∀ x ∈ evs, x.is_delivery = true) :
    evs.count Event.usb_autopm_put_interface = 0 :=
  List.count_eq_zero_of_not_mem (fun hm => is_delivery_ne_put _ (h _ hm) rfl)

theorem count_get_delivery (evs : List Event) (r : Int)
    (h : ∀ x ∈ evs, x.is_delivery = true) :
    evs.count (Event.usb_autopm_get_interface r) = 0 :=
  List.count_eq_zero_of_not_mem (fun hm => is_delivery_ne_get _ r (h _ hm) rfl)

/-- C18: on every path of `write_sync` the effects of the call contain
`usb_autopm_put_interface` exactly once when `usb_autopm_get_interface` was
reached and succeeded (the URB was allocated, the frame was filled and the
resume returned a non-negative value), and not at all otherwise; the resume
itself is attempted at most once, exactly when the first two steps succeed. -/
theorem write_sync_autopm_balanced (q : qmi_codec) (e : write_env) (w : World)
    (buf : List Nat) (size : Int) (cid : Nat) :
    ∃ l, (write_sync q e w buf size cid).2.log = w.log ++ l ∧
      l.count Event.usb_autopm_put_interface =
        (if e.urb ≠ 0 ∧ 0 ≤ q.qmux_fill cid buf size ∧ 0 ≤ e.autopm then 1 else 0) ∧
      ∀ r, l.count (Event.usb_autopm_get_interface r) =
        (if e.urb ≠ 0 ∧ 0 ≤ q.qmux_fill cid buf size ∧ r = e.autopm then 1 else 0) := by
  obtain ⟨evs, tail, hdel, htail, hlog⟩ := write_sync_log q e w buf size cid
  refine ⟨_, hlog, ?_, ?_⟩
  · have hevs := count_put_delivery evs hdel
    by_cases h1 : e.urb = 0
    · simp [h1]
    by_cases h2 : q.qmux_fill cid buf size < 0
    · simp [h1, h2, not_le.mpr h2]
    by_cases h3 : e.autopm < 0
    · simp [h1, h2, h3, not_le.mpr h3]
    by_cases h4 : client_bycid w.dev cid = none ∨ (kmalloc w.mem).1 = false
    · simp only [h1, h2, h3, h4, if_true, if_false]
      simp [h1, not_lt.mp h2, not_lt.mp h3]
    by_cases h5 : e.submit < 0
    · simp only [h1, h2, h3, h4, h5, if_true, if_false]
      simp [h1, not_lt.mp h2, not_lt.mp h3]
    simp only [h1, h2, h3, h4, h5, if_false]
    rcases htail with ht | ht <;> subst ht <;>
      simp [List.count_append, hevs, h1, not_lt.mp h2, not_lt.mp h3]
  · intro r
    have hevs := count_get_delivery evs r hdel
    by_cases h1 : e.urb = 0
    · simp [h1]
    by_cases h2 : q.qmux_fill cid buf size < 0
    · simp [h1, h2, not_le.mpr h2]
    by_cases hr : r = e.autopm
    · subst hr
      by_cases h3 : e.autopm < 0
      · simp only [h1, h2, h3, if_true, if_false]
        simp [h1, not_lt.mp h2]
      by_cases h4 : client_bycid w.dev cid = none ∨ (kmalloc w.mem).1 = false
      · simp only [h1, h2, h3, h4, if_true, if_false]
        simp [h1, not_lt.mp h2]
      by_cases h5 : e.submit < 0
      · simp only [h1, h2, h3, h4, h5, if_true, if_false]
        simp [h1, not_lt.mp h2]
      simp only [h1, h2, h3, h4, h5, if_false]
      rcases htail with ht | ht <;> subst ht <;>
        simp [List.count_append, hevs, h1, not_lt.mp h2]
    · have hr' : ¬ e.autopm = r := fun h => hr h.symm
      by_cases h3 : e.autopm < 0
      · simp [h1, h2, h3, hr, hr']
      by_cases h4 : client_bycid w.dev cid = none ∨ (kmalloc w.mem).1 = false
      · simp only [h1, h2, h3, h4, if_true, if_false]
        simp [h1, hr, hr']
      by_cases h5 : e.submit < 0
      · simp only [h1, h2, h3, h4, h5, if_true, if_false]
        simp [h1, hr, hr']
      simp only [h1, h2, h3, h4, h5, if_false]
      rcases htail with ht | ht <;> subst ht <;>
        simp [List.count_append, hevs, h1, hr, hr']

/-- When the URB could be allocated, framed, the interface resumed, the client
found and the URB queued, `usb_submit_urb` is called on it. -/
theorem write_sync_submits (q : qmi_codec) (e : write_env) (w : World) (buf : List Nat)
    (size : Int) (cid : Nat) (c : client)
    (hurb : e.urb ≠ 0) (hfill : 0 ≤ q.qmux_fill cid buf size) (hpm : 0 ≤ e.autopm)
    (hc : client_bycid w.dev cid = some c) (hk : (kmalloc w.mem).1 = true) :
    ∃ l, (write_sync q e w buf size cid).2.log = w.log ++ l ∧
      Event.usb_submit_urb e.urb e.submit ∈ l := by
  obtain ⟨evs, tail, _, _, hlog⟩ := write_sync_log q e w buf size cid
  refine ⟨_, hlog, ?_⟩
  simp only [hurb, not_lt.mpr hfill, not_lt.mpr hpm, hc, hk, if_false, reduceCtorEq,
    Bool.true_eq_false, or_self]
  split_ifs <;> simp

/-- The client of a sleeping writer when it wakes: its URB queue is as the
writer left it. -/
theorem write_sync_client_after_wait (q : qmi_codec) (s : Sleep) (w : World) (cid : Nat)
    (c1 : client) (hc : client_bycid w.dev cid = some c1) :
    (((s.run q w).emit [Event.usb_autopm_put_interface]).deref cid c1).urbs = c1.urbs := by
  obtain ⟨hev, _⟩ := sleep_run_evolves q s w
  obtain ⟨c', hc', hevol⟩ := client_bycid_evolves hev cid c1 hc
  have hd : client_bycid ((s.run q w).emit [Event.usb_autopm_put_interface]).dev cid
      = some c' := hc'
  unfold World.deref
  rw [hd]
  exact hevol.2.1

/-- C19: for a client with no other write outstanding, once `write_sync` has
queued and submitted its URB (allocation, framing, resume, lookup, queueing
and submission all succeeded): an uninterrupted wait with URB status 0
returns exactly `size`; an uninterrupted wait with another status returns
that status; an interrupted wait returns the value of `down_interruptible`
whatever the URB status is, and `usb_kill_urb` is called on the URB in that
case and only in that case. -/
theorem write_sync_result (q : qmi_codec) (e : write_env) (w : World) (buf : List Nat)
    (size : Int) (cid : Nat) (c : client)
    (hurb : e.urb ≠ 0) (hfill : 0 ≤ q.qmux_fill cid buf size) (hpm : 0 ≤ e.autopm)
    (hc : client_bycid w.dev cid = some c) (hidle : c.urbs = [])
    (hk : (kmalloc w.mem).1 = true) (hsub : 0 ≤ e.submit) :
    (write_sync q e w buf size cid).1 =
        (if e.sleep.signal = 0 then (if e.status = 0 then size else e.status)
         else e.sleep.signal) ∧
      ∃ l, (write_sync q e w buf size cid).2.log = w.log ++ l ∧
        Event.usb_submit_urb e.urb e.submit ∈ l ∧
        (Event.usb_kill_urb e.urb ∈ l ↔ e.sleep.signal ≠ 0) := by
  obtain ⟨W2, hW2⟩ : ∃ W2 : World, W2 =
      ((({ w.emit [Event.usb_autopm_get_interface e.autopm] with
        mem := (kmalloc w.mem).2 } : World).store cid
        { c with urbs := c.urbs ++ [e.urb] }).emit
          [Event.usb_submit_urb e.urb e.submit]) := ⟨_, rfl⟩
  have hcid : c.cid = cid := client_bycid_cid _ cid c hc
  have hc2 : client_bycid W2.dev cid = some { c with urbs := c.urbs ++ [e.urb] } := by
    rw [hW2]
    exact client_bycid_store_same
      ({ w.emit [Event.usb_autopm_get_interface e.autopm] with mem := (kmalloc w.mem).2 })
      cid c _ hc hcid
  have hW2log : W2.log = w.log ++ [Event.usb_autopm_get_interface e.autopm,
      Event.usb_submit_urb e.urb e.submit] := by
    rw [hW2]
    simp [World.emit, World.store]
  have hurbs := write_sync_client_after_wait q e.sleep W2 cid _ hc2
  obtain ⟨_, evs, hlog, hdel⟩ := sleep_run_evolves q e.sleep W2
  have hkill : Event.usb_kill_urb e.urb ∉ evs := by
    intro hm
    have := hdel _ hm
    simp [Event.is_delivery] at this
  have hpop : (client_delurb (((e.sleep.run q W2).emit [Event.usb_autopm_put_interface]).deref
      cid { c with urbs := c.urbs ++ [e.urb] })).1 = some e.urb := by
    unfold client_delurb
    rw [hurbs]
    simp [hidle]
  have hsubm := write_sync_submitted q e w buf size cid c _ W2 _ hurb hfill hpm hc hk hsub
    hW2 rfl rfl
  rw [hsubm]
  simp only [hpop, ne_eq, not_true_eq_false, if_false]
  by_cases hs : e.sleep.signal = 0
  · by_cases hst : e.status = 0
    · simp only [hs, hst, if_true]
      exact ⟨trivial, [Event.usb_autopm_get_interface e.autopm,
          Event.usb_submit_urb e.urb e.submit] ++ evs ++ [Event.usb_autopm_put_interface,
          Event.usb_free_urb e.urb],
        by simp [World.emit, World.store, hlog, hW2log], by simp, by simpa using hkill⟩
    · simp only [hs, hst, if_true, if_false]
      exact ⟨trivial, [Event.usb_autopm_get_interface e.autopm,
          Event.usb_submit_urb e.urb e.submit] ++ evs ++ [Event.usb_autopm_put_interface,
          Event.usb_free_urb e.urb],
        by simp [World.emit, World.store, hlog, hW2log], by simp, by simpa using hkill⟩
  · simp only [hs, if_false]
    exact ⟨trivial, [Event.usb_autopm_get_interface e.autopm,
        Event.usb_submit_urb e.urb e.submit] ++ evs ++ [Event.usb_autopm_put_interface,
        Event.usb_kill_urb e.urb, Event.usb_free_urb e.urb],
      by simp [World.emit, World.store, hlog, hW2log], by simp, by simp [hs]⟩

/-- A use of C19: client 7 writes a seven-byte frame; the wait is not
interrupted and the URB status is 0, so `write_sync` returns 7. -/
theorem write_sync_result_witness :
    (write_sync test_codec ⟨500, 0, 0, ⟨[], 0⟩, 0⟩
        ⟨⟨true, false, 1, [⟨7, [], [], [], none⟩]⟩, [], []⟩ [0, 0, 0, 0, 0, 0, 9] 7 7).1 = 7 :=
  (write_sync_result test_codec ⟨500, 0, 0, ⟨[], 0⟩, 0⟩
    ⟨⟨true, false, 1, [⟨7, [], [], [], none⟩]⟩, [], []⟩ [0, 0, 0, 0, 0, 0, 9] 7 7
    ⟨7, [], [], [], none⟩ (by decide) (by decide) (by decide) (by decide) (by decide)
    (by decide) (by decide)).1

/-! ## C15: connectivity and `write_sync` -/

/-- C15, as stated, fails: on a device with `dying` set and client 7
registered, `write_sync` does not return `-ENXIO`; it submits the URB and
returns the frame size. -/
theorem write_sync_claim_fails :
    ¬ (∀ (q : qmi_codec) (e : write_env) (w : World) (buf : List Nat) (size : Int)
        (cid : Nat) (c : client),
        device_connected w.dev = false → cid ≠ 0 → client_bycid w.dev cid = some c →
        (write_sync q e w buf size cid).1 = - ENXIO ∧
          ∀ u r, Event.usb_submit_urb u r ∉ (write_sync q e w buf size cid).2.log) := by
  intro h
  have := (h test_codec ⟨500, 0, 0, ⟨[], 0⟩, 0⟩
    ⟨⟨true, true, 1, [⟨7, [], [], [], none⟩]⟩, [], []⟩ [0, 0, 0, 0, 0, 0, 9] 7 7
    ⟨7, [], [], [], none⟩ (by decide) (by decide) (by decide)).1
  revert this
  decide

/-- C15, amended: the connectivity test is made by the callers of
`write_sync`, not by `write_sync`. (1) `devqmi_write` on a device that is not
connected (`dying` set or `valid` false) returns `-ENXIO` and leaves the
world as it is: nothing is allocated and no URB is submitted. (2) `write_sync`
itself, for a registered client, submits its URB whenever the URB is
allocated, framed, the interface resumed and the URB queued, whatever the
flags `valid` and `dying` are. -/
theorem write_sync_connectivity (q : qmi_codec) (e : write_env) (w : World) (buf : List Nat)
    (size : Int) (cid : Nat) :
    (∀ (qmux_size uncopied : Nat), device_connected w.dev = false →
      devqmi_write q qmux_size e uncopied w cid buf = (- ENXIO, w)) ∧
    (∀ c, e.urb ≠ 0 → 0 ≤ q.qmux_fill cid buf size → 0 ≤ e.autopm →
      client_bycid w.dev cid = some c → (kmalloc w.mem).1 = true →
      ∃ l, (write_sync q e w buf size cid).2.log = w.log ++ l ∧
        Event.usb_submit_urb e.urb e.submit ∈ l) := by
  constructor
  · intro qmux_size uncopied h
    simp [devqmi_write, h]
  · intro c hurb hfill hpm hc hk
    exact write_sync_submits q e w buf size cid c hurb hfill hpm hc hk

/-- A use of the amended C15 on a dying device with client 7 registered: the
character-device write is refused with `-ENXIO`, and a direct `write_sync`
submits the URB. -/
theorem write_sync_connectivity_witness :
    devqmi_write test_codec 6 ⟨500, 0, 0, ⟨[], 0⟩, 0⟩ 0
        ⟨⟨true, true, 1, [⟨7, [], [], [], none⟩]⟩, [], []⟩ 7 [0, 0, 0, 0, 0, 0, 9]
      = (- ENXIO, ⟨⟨true, true, 1, [⟨7, [], [], [], none⟩]⟩, [], []⟩) ∧
    ∃ l, (write_sync test_codec ⟨500, 0, 0, ⟨[], 0⟩, 0⟩
        ⟨⟨true, true, 1, [⟨7, [], [], [], none⟩]⟩, [], []⟩ [0, 0, 0, 0, 0, 0, 9] 7 7).2.log
        = [] ++ l ∧ Event.usb_submit_urb 500 0 ∈ l :=
  ⟨(write_sync_connectivity test_codec ⟨500, 0, 0, ⟨[], 0⟩, 0⟩
      ⟨⟨true, true, 1, [⟨7, [], [], [], none⟩]⟩, [], []⟩ [0, 0, 0, 0, 0, 0, 9] 7 7).1 6 0
      (by decide),
    (write_sync_connectivity test_codec ⟨500, 0, 0, ⟨[], 0⟩, 0⟩
      ⟨⟨true, true, 1, [⟨7, [], [], [], none⟩]⟩, [], []⟩ [0, 0, 0, 0, 0, 0, 9] 7 7).2
      ⟨7, [], [], [], none⟩ (by decide) (by decide) (by decide) (by decide) (by decide)⟩

/-! ## The effects of unlinking a client -/

theorem client_free_unlink_head (w : World) (c : client) (rest : List client)
    (hcl : w.dev.clients = c :: rest) :
    (client_free_unlink w c.cid).1
      = { w with dev := { w.dev with clients := rest },
                 log := w.log ++ client_free_events c } := by
  have hsplit : w.dev.clients = [] ++ c :: rest := by rw [hcl]; rfl
  rw [client_free_unlink_split w c.cid c [] rest hsplit rfl (by simp)]
  simp [client_free_events]

theorem client_free_unlink_effects (w : World) (cid : Nat) :
    (client_free_unlink w cid).1.log = w.log ++
        (match client_bycid w.dev cid with
         | some c => client_free_events c
         | none => []) ∧
      (client_free_unlink w cid).1.dev.clients
        = w.dev.clients.eraseP (fun x => x.cid == cid) ∧
      (client_free_unlink w cid).1.dev.qmitid = w.dev.qmitid ∧
      (client_free_unlink w cid).1.mem = w.mem := by
  cases hb : client_bycid w.dev cid with
  | none =>
    have hnone : ∀ x ∈ w.dev.clients, ¬ (x.cid == cid) = true := by
      intro x hx hxc
      have := (client_bycid_none_iff w.dev cid).mp hb
      exact this (List.mem_map.mpr ⟨x, hx, by simpa using hxc⟩)
    simp [client_free_unlink, hb, List.eraseP_of_forall_not hnone]
  | some c =>
    obtain ⟨pre, post, h1, h2, h3⟩ := (client_bycid_iff w.dev cid c).mp hb
    have herase : w.dev.clients.eraseP (fun x => x.cid == cid) = pre ++ post := by
      rw [h1, List.eraseP_append_right _ (by
        intro b hb'
        simpa using h3 b hb')]
      simp [List.eraseP_cons, h2]
    rw [client_free_unlink_split w cid c pre post h1 h2 h3, herase]
    simp [client_free_events, h2]

theorem client_free_events_quiet (c : client) (x : Event) (hx : x ∈ client_free_events c) :
    (∀ u r, x ≠ Event.usb_submit_urb u r) ∧ (∀ r, x ≠ Event.usb_autopm_get_interface r) := by
  unfold client_free_events at hx
  simp only [List.mem_append, List.mem_map, List.mem_flatMap, List.mem_filter] at hx
  rcases hx with ((⟨n, _, rfl⟩ | hx) | ⟨u, _, hx⟩) | ⟨r, _, rfl⟩
  · exact ⟨fun _ _ => by simp, fun _ => by simp⟩
  · cases hh : c.handle with
    | none => simp [hh] at hx
    | some h =>
      simp only [hh, List.mem_singleton] at hx
      subst hx
      exact ⟨fun _ _ => by simp, fun _ => by simp⟩
  · simp only [List.mem_cons, List.mem_singleton, List.not_mem_nil, or_false] at hx
    rcases hx with rfl | rfl
    · exact ⟨fun _ _ => by simp, fun _ => by simp⟩
    · exact ⟨fun _ _ => by simp, fun _ => by simp⟩
  · exact ⟨fun _ _ => by simp, fun _ => by simp⟩

/-- The loop of `qc_deregister` on a valid, dying device: every pass frees the
head of the registry without a release request. -/
theorem qc_deregister_loop_spec (q : qmi_codec) (e : rpc_env) (n : Nat) (w : World)
    (hv : w.dev.valid = true) (hd : w.dev.dying = true) (hn : w.dev.clients.length ≤ n) :
    qc_deregister_loop q e n w
      = { w with dev := { w.dev with clients := [] },
                 log := w.log ++ w.dev.clients.flatMap client_free_events } := by
  induction n generalizing w with
  | zero =>
    have hnil : w.dev.clients = [] := List.length_eq_zero.mp (Nat.le_zero.mp hn)
    obtain ⟨⟨v, d, t, cl⟩, m, l⟩ := w
    simp only at hnil
    subst hnil
    simp [qc_deregister_loop]
  | succ n ih =>
    unfold qc_deregister_loop
    cases hcl : w.dev.clients with
    | nil =>
      obtain ⟨⟨v, d, t, cl⟩, m, l⟩ := w
      simp only at hcl
      subst hcl
      simp
    | cons c rest =>
      simp only []
      rw [client_free_dying q e w c.cid hv hd, client_free_unlink_head w c rest hcl]
      rw [ih]
      · simp [List.flatMap_cons]
      · exact hv
      · exact hd
      · rw [hcl] at hn
        simpa using hn

/-! ## C13: `qc_deregister` -/

/-- C13: on a valid device, whatever its clients, `qc_deregister` returns with
`dying` true, `valid` false and an empty registry; the transaction counter and
the allocator are untouched. Its effects are `qc_stopread` followed, client by
client in registry order, by the effects of freeing the client: every pending
notification with a hook is invoked, the bound handle is woken, every
outstanding write URB is killed and freed, every buffered message is freed.
No `usb_submit_urb` and no `usb_autopm_get_interface` is among the effects of
the call: no write is submitted. -/
theorem qc_deregister_spec (q : qmi_codec) (e : rpc_env) (w : World)
    (hv : w.dev.valid = true) :
    qc_deregister q e w
        = { dev := { valid := false, dying := true, qmitid := w.dev.qmitid, clients := [] },
            mem := w.mem,
            log := w.log ++ Event.qc_stopread :: w.dev.clients.flatMap client_free_events } ∧
      (∀ c ∈ w.dev.clients, ∀ n ∈ c.notifies, n.func ≠ 0 →
        Event.call n.func c.cid n.data ∈ (qc_deregister q e w).log.drop w.log.length) ∧
      (∀ c ∈ w.dev.clients, ∀ u ∈ c.urbs,
        Event.usb_kill_urb u ∈ (qc_deregister q e w).log.drop w.log.length) ∧
      (∀ x ∈ (qc_deregister q e w).log.drop w.log.length,
        (∀ u r, x ≠ Event.usb_submit_urb u r) ∧
          ∀ r, x ≠ Event.usb_autopm_get_interface r) := by
  have hcond : (!w.dev.valid) = false := by simp [hv]
  have heq : qc_deregister q e w
      = { dev := { valid := false, dying := true, qmitid := w.dev.qmitid, clients := [] },
          mem := w.mem,
          log := w.log ++ Event.qc_stopread :: w.dev.clients.flatMap client_free_events } := by
    unfold qc_deregister
    rw [hcond]
    simp only [Bool.false_eq_true, if_false]
    have hloop := qc_deregister_loop_spec q e
      (({ w with dev := { w.dev with dying := true } } : World).emit
        [Event.qc_stopread]).dev.clients.length
      (({ w with dev := { w.dev with dying := true } } : World).emit [Event.qc_stopread])
      hv rfl (le_refl _)
    rw [hloop]
    simp [World.emit]
  have hdrop : (qc_deregister q e w).log.drop w.log.length
      = Event.qc_stopread :: w.dev.clients.flatMap client_free_events := by
    rw [heq]
    simp
  refine ⟨heq, ?_, ?_, ?_⟩
  · intro c hc n hn hf
    rw [hdrop]
    refine List.mem_cons_of_mem _ (List.mem_flatMap.mpr ⟨c, hc, ?_⟩)
    unfold client_free_events
    simp only [List.mem_append, List.mem_map, List.mem_filter]
    exact Or.inl (Or.inl (Or.inl ⟨n, ⟨hn, by simpa using hf⟩, rfl⟩))
  · intro c hc u hu
    rw [hdrop]
    refine List.mem_cons_of_mem _ (List.mem_flatMap.mpr ⟨c, hc, ?_⟩)
    unfold client_free_events
    simp only [List.mem_append, List.mem_flatMap]
    exact Or.inl (Or.inr ⟨u, hu, by simp⟩)
  · intro x hx
    rw [hdrop] at hx
    rcases List.mem_cons.mp hx with rfl | hx
    · exact ⟨fun _ _ => by simp, fun _ => by simp⟩
    · obtain ⟨c, _, hxc⟩ := List.mem_flatMap.mp hx
      exact client_free_events_quiet c x hxc

/-- A use of C13: a valid device with the control client and client 7, which
holds two pending hooks, a bound handle, one outstanding write and one unread
message. -/
theorem qc_deregister_spec_witness :
    qc_deregister test_codec ⟨⟨500, 0, 0, ⟨[], 0⟩, 0⟩, 900, []⟩
        ⟨⟨true, false, 4, [⟨0, [], [⟨1, 0, 30⟩], [], none⟩,
            ⟨7, [⟨[1, 2], 3, 2⟩], [⟨11, 5, 21⟩, ⟨12, 0, 22⟩], [600], some 40⟩]⟩, [], []⟩
      = ⟨⟨false, true, 4, []⟩, [],
          [Event.qc_stopread, Event.call 1 0 30, Event.call 11 7 21, Event.call 12 7 22,
            Event.wake_up 40, Event.usb_kill_urb 600, Event.usb_free_urb 600,
            Event.kfree [1, 2]]⟩ :=
  (qc_deregister_spec test_codec ⟨⟨500, 0, 0, ⟨[], 0⟩, 0⟩, 900, []⟩
    ⟨⟨true, false, 4, [⟨0, [], [⟨1, 0, 30⟩], [], none⟩,
        ⟨7, [⟨[1, 2], 3, 2⟩], [⟨11, 5, 21⟩, ⟨12, 0, 22⟩], [600], some 40⟩]⟩, [], []⟩ rfl).1

/-! ## C14: the return value of `qc_register` -/

/-- Once the control client is allocated, every exit of `qc_register` returns
0: the labels `fail_name`, `fail_cdev`, `fail_qmi` and `fail_start` all end in
`return 0`, whatever `result` holds. -/
theorem qc_register_zero_after_alloc (q : qmi_codec) (e : register_env) (w w1 : World)
    (c : client)
    (h : client_alloc q e.ctl { w with dev := { w.dev with valid := true, dying := false } }
      QMICTL = (Result.ok c, w1)) :
    (qc_register q e w).1 = 0 := by
  unfold qc_register
  simp only [h]
  split_ifs <;> try rfl
  cases e.qmiidx with
  | none => rfl
  | some i =>
    simp only []
    split_ifs <;> rfl

/-- C14: `qc_register` run on a fresh device. When `qc_startread` fails with
`-ENOMEM`, when the device never answers the ready probe, when
`setup_wds_callback` fails with `-EINVAL`, when `cdev_add` fails with
`-ENOMEM`, and when the interface name holds no index, `qc_register` returns
0 and leaves the device marked invalid; only the failure to allocate the
control client is returned to the caller (`-ENOMEM`). -/
theorem qc_register_returns_zero_on_failure :
    qc_register test_codec
        ⟨⟨⟨500, 0, 0, ⟨[], 0⟩, 0⟩, 900, []⟩, fun w => (-ENOMEM, w), fun w => (true, w),
          fun w => (0, w), fun w => (0, w), 0, 0, some 0⟩
        ⟨⟨false, false, 0, []⟩, [], []⟩
      = (0, ⟨⟨false, false, 1, [⟨0, [], [], [], none⟩]⟩, [], []⟩) ∧
    qc_register test_codec
        ⟨⟨⟨500, 0, 0, ⟨[], 0⟩, 0⟩, 900, []⟩, fun w => (0, w), fun w => (false, w),
          fun w => (0, w), fun w => (0, w), 0, 0, some 0⟩
        ⟨⟨false, false, 0, []⟩, [], []⟩
      = (0, ⟨⟨false, false, 1, [⟨0, [], [], [], none⟩]⟩, [], [Event.qc_stopread]⟩) ∧
    qc_register test_codec
        ⟨⟨⟨500, 0, 0, ⟨[], 0⟩, 0⟩, 900, []⟩, fun w => (0, w), fun w => (true, w),
          fun w => (-EINVAL, w), fun w => (0, w), 0, 0, some 0⟩
        ⟨⟨false, false, 0, []⟩, [], []⟩
      = (0, ⟨⟨false, false, 1, [⟨0, [], [], [], none⟩]⟩, [], [Event.qc_stopread]⟩) ∧
    qc_register test_codec
        ⟨⟨⟨500, 0, 0, ⟨[], 0⟩, 0⟩, 900, []⟩, fun w => (0, w), fun w => (true, w),
          fun w => (0, w), fun w => (0, w), 0, -ENOMEM, some 0⟩
        ⟨⟨false, false, 0, []⟩, [], []⟩
      = (0, ⟨⟨false, false, 1, [⟨0, [], [], [], none⟩]⟩, [],
          [Event.unregister_chrdev_region, Event.qc_stopread]⟩) ∧
    qc_register test_codec
        ⟨⟨⟨500, 0, 0, ⟨[], 0⟩, 0⟩, 900, []⟩, fun w => (0, w), fun w => (true, w),
          fun w => (0, w), fun w => (0, w), 0, 0, none⟩
        ⟨⟨false, false, 0, []⟩, [], []⟩
      = (0, ⟨⟨false, false, 1, [⟨0, [], [], [], none⟩]⟩, [],
          [Event.cdev_del, Event.unregister_chrdev_region, Event.qc_stopread]⟩) ∧
    qc_register test_codec
        ⟨⟨⟨500, 0, 0, ⟨[], 0⟩, 0⟩, 900, []⟩, fun w => (0, w), fun w => (true, w),
          fun w => (0, w), fun w => (0, w), 0, 0, some 0⟩
        ⟨⟨false, false, 0, []⟩, [false], []⟩
      = (-ENOMEM, ⟨⟨false, false, 0, []⟩, [], []⟩) := by
  refine ⟨?_, ?_, ?_, ?_, ?_, ?_⟩ <;> rfl

/-! ## One pass of the loop of `read_sync` -/

theorem list_del_first_eraseP {α : Type} (p : α → Bool) (l : List α) (x : α) (rest : List α)
    (h : list_del_first p l = some (x, rest)) : rest = l.eraseP p := by
  obtain ⟨pre, post, h1, h2, h3, h4⟩ := (list_del_first_some p l x rest).mp h
  rw [h1, h2, List.eraseP_append_right _ (by
    intro b hb
    simpa using h4 b hb)]
  simp [List.eraseP_cons, h3]

theorem eraseP_eq_filter {α : Type} (p : α → Bool) (l : List α) (h : l.countP p ≤ 1) :
    l.eraseP p = l.filter (fun x => !p x) := by
  induction l with
  | nil => rfl
  | cons a l ih =>
    by_cases ha : p a = true
    · have h0 : l.countP p = 0 := by
        rw [List.countP_cons_of_pos _ _ ha] at h
        omega
      have hall : ∀ x ∈ l, (!p x) = true := by
        intro x hx
        have := (List.countP_eq_zero.mp h0) x hx
        simpa using this
      simp [List.eraseP_cons, ha, List.filter_eq_self.mpr hall]
    · have h1 : l.countP p ≤ 1 := by
        rw [List.countP_cons_of_neg _ _ ha] at h
        exact h
      simp [List.eraseP_cons, ha, ih h1]

theorem store_deref (w : World) (cid : Nat) (old : client) :
    w.store cid (w.deref cid old) = w := by
  have hcl : client_store cid (w.deref cid old) w.dev.clients = w.dev.clients := by
    unfold World.deref
    cases hb : client_bycid w.dev cid with
    | none =>
      apply client_store_none
      intro x hx hxc
      exact (client_bycid_none_iff w.dev cid).mp hb (List.mem_map.mpr ⟨x, hx, hxc⟩)
    | some c => exact client_store_self w.dev cid c hb
  unfold World.store
  rw [hcl]

theorem store_store (w : World) (cid : Nat) (c a b : client)
    (hc : client_bycid w.dev cid = some c) (ha : a.cid = cid) :
    (w.store cid a).store cid b = w.store cid b := by
  obtain ⟨pre, post, h1, h2, h3⟩ := (client_bycid_iff w.dev cid c).mp hc
  unfold World.store
  simp only [h1, client_store_split cid c a pre post h2 h3,
    client_store_split cid a b pre post ha h3, client_store_split cid c b pre post h2 h3]

/-- One pass of the loop of `read_sync` that finds nothing to dequeue and
registers its notification: `W1` is the world when the caller goes to sleep,
`W2` the world when `down_interruptible` returns. -/
theorem read_sync_loop_step (q : qmi_codec) (sem cid tid : Nat) (s : Sleep)
    (script : List Sleep) (w W1 W2 : World) (c : client)
    (hc : client_bycid w.dev cid = some c) (hdel : (client_delread c tid).1 = none)
    (hk : (kmalloc w.mem).1 = true)
    (hW1 : W1 = ({ w with mem := (kmalloc w.mem).2 } : World).store cid
      { c with notifies := c.notifies ++ [notifyreq.mk upsem tid sem] })
    (hW2 : W2 = s.run q W1) :
    read_sync_loop q sem cid tid (s :: script) w =
      if sem_released sem (W2.log.drop W1.log.length) then
        if !device_connected W2.dev then (Result.err (- ENXIO), W2)
        else read_sync_loop q sem cid tid script W2
      else if s.signal ≠ 0 then
        (Result.err (-EINTR), W2.store cid
          { W2.deref cid { c with notifies := c.notifies ++ [notifyreq.mk upsem tid sem] } with
            notifies := (W2.deref cid
              { c with notifies := c.notifies ++ [notifyreq.mk upsem tid sem] }).notifies.eraseP
                (fun n => n.data == sem) })
      else (Result.blocked, W2) := by
  subst hW1 hW2
  have hk0 : kmalloc w.mem = (true, (kmalloc w.mem).2) := by rw [← hk]
  rw [read_sync_loop]
  simp only [hc, client_delread_none c tid hdel]
  rw [hk0]
  simp only [client_addnotify, if_true, Bool.not_true, Bool.false_eq_true, if_false]
  split_ifs with h1 h2 h3
  · rfl
  · rfl
  · generalize hW : Sleep.run q s _ = W
    generalize hC : W.deref cid _ = C
    cases hl : list_del_first (fun n => n.data == sem) C.notifies with
    | none =>
      have hno : ∀ x ∈ C.notifies, ¬ (x.data == sem) = true := by
        intro x hx
        have := (list_del_first_none _ _).mp hl x hx
        simp [this]
      simp only [List.eraseP_of_forall_not hno]
      have heta : ({ C with notifies := C.notifies } : client) = C := by cases C; rfl
      rw [heta, ← hC, store_deref]
    | some r =>
      obtain ⟨x, rest⟩ := r
      simp only [list_del_first_eraseP _ _ x rest hl]
  · rfl

theorem sleep_run_log (q : qmi_codec) (s : Sleep) (w : World) : w.log <+: (s.run q w).log := by
  obtain ⟨_, l, hl, _⟩ := sleep_run_evolves q s w
  exact ⟨l, hl.symm⟩

theorem read_sync_loop_log (q : qmi_codec) (sem cid tid : Nat) (script : List Sleep)
    (w : World) : w.log <+: (read_sync_loop q sem cid tid script w).2.log := by
  induction script generalizing w with
  | nil =>
    unfold read_sync_loop
    cases hb : client_bycid w.dev cid with
    | none => exact List.prefix_refl _
    | some c =>
      simp only []
      rcases hdel : client_delread c tid with ⟨_ | ⟨data, size⟩, c1⟩
      · simp only []
        split_ifs
        all_goals exact List.prefix_refl _
      · exact List.prefix_refl _
  | cons s script ih =>
    unfold read_sync_loop
    cases hb : client_bycid w.dev cid with
    | none => exact List.prefix_refl _
    | some c =>
      simp only []
      rcases hdel : client_delread c tid with ⟨_ | ⟨data, size⟩, c1⟩
      · simp only []
        have h2 : w.log <+: (s.run q (({ w with mem := (kmalloc w.mem).2 } : World).store cid
            (client_addnotify (kmalloc w.mem).1 c tid upsem sem).2)).log :=
          sleep_run_log q s (({ w with mem := (kmalloc w.mem).2 } : World).store cid
            (client_addnotify (kmalloc w.mem).1 c tid upsem sem).2)
        split_ifs
        · exact List.prefix_refl _
        · exact h2
        · exact h2.trans (ih _)
        · split
          · exact h2
          · exact h2
        · exact h2
      · exact List.prefix_refl _

theorem read_sync_log (q : qmi_codec) (sem : Nat) (script : List Sleep) (w : World)
    (cid tid : Nat) : w.log <+: (read_sync q sem script w cid tid).2.log := by
  unfold read_sync
  split_ifs
  · exact List.prefix_refl _
  · cases client_bycid w.dev cid with
    | none => exact List.prefix_refl _
    | some c => exact read_sync_loop_log q sem cid tid script w

/-- The loop of `read_sync` hands out a message only on a connected device:
entered on a connected device, it re-tests connectivity after every wake
before it dequeues. -/
theorem read_sync_loop_ok_connected (q : qmi_codec) (sem cid tid : Nat)
    (script : List Sleep) (w : World) (hconn : device_connected w.dev = true)
    (d : List Nat × Nat) (w' : World)
    (h : read_sync_loop q sem cid tid script w = (Result.ok d, w')) :
    device_connected w'.dev = true := by
  induction script generalizing w with
  | nil =>
    unfold read_sync_loop at h
    cases hb : client_bycid w.dev cid with
    | none => simp [hb] at h
    | some c =>
      simp only [hb] at h
      rcases hdel : client_delread c tid with ⟨_ | ⟨data, size⟩, c1⟩
      · simp only [hdel] at h
        split_ifs at h <;> simp at h
      · simp only [hdel, Prod.mk.injEq, Result.ok.injEq] at h
        rw [← h.2]
        exact hconn
  | cons s script ih =>
    unfold read_sync_loop at h
    cases hb : client_bycid w.dev cid with
    | none => simp [hb] at h
    | some c =>
      simp only [hb] at h
      rcases hdel : client_delread c tid with ⟨_ | ⟨data, size⟩, c1⟩
      · simp only [hdel] at h
        split_ifs at h with h1 h2 h3 h4
        · simp at h
        · simp at h
        · exact ih _ (by simpa using h3) h
        · split at h <;> simp at h
        · simp at h
      · simp only [hdel, Prod.mk.injEq, Result.ok.injEq] at h
        rw [← h.2]
        exact hconn

/-! ## C16: `read_sync` and a disconnected device -/

/-- C16: (1) on a device that is not connected at entry (`valid` false or
`dying` true) `read_sync` returns `-ENXIO` and the world is untouched: nothing
is dequeued, no notification is registered, the caller does not sleep. (2) In
any pass of its loop that went to sleep and was woken by its notification, if
the device is then not connected, it returns `-ENXIO` and the world is the one
found at the wake: no dequeue is tried again. (3) Whenever `read_sync` returns
a message, the device is connected at that moment. -/
theorem read_sync_not_connected (q : qmi_codec) (sem : Nat) (script : List Sleep)
    (w : World) (cid tid : Nat) :
    (device_connected w.dev = false →
      read_sync q sem script w cid tid = (Result.err (- ENXIO), w)) ∧
    (∀ (s : Sleep) (c : client) (W1 : World),
      client_bycid w.dev cid = some c → (client_delread c tid).1 = none →
      (kmalloc w.mem).1 = true →
      W1 = ({ w with mem := (kmalloc w.mem).2 } : World).store cid
        { c with notifies := c.notifies ++ [notifyreq.mk upsem tid sem] } →
      sem_released sem ((s.run q W1).log.drop W1.log.length) = true →
      device_connected (s.run q W1).dev = false →
      read_sync_loop q sem cid tid (s :: script) w = (Result.err (- ENXIO), s.run q W1) ∧
        (device_connected w.dev = true →
          read_sync q sem (s :: script) w cid tid = (Result.err (- ENXIO), s.run q W1))) ∧
    (∀ d w', read_sync q sem script w cid tid = (Result.ok d, w') →
      device_connected w'.dev = true) := by
  refine ⟨?_, ?_, ?_⟩
  · intro h
    simp [read_sync, h]
  · intro s c W1 hc hdel hk hW1 hrel hdis
    have hstep := read_sync_loop_step q sem cid tid s script w W1 _ c hc hdel hk hW1 rfl
    simp only [hrel, if_true, hdis, Bool.not_false] at hstep
    refine ⟨hstep, ?_⟩
    intro hconn
    simp only [read_sync, hconn, Bool.not_true, Bool.false_eq_true, if_false, hc]
    exact hstep
  · intro d w' h
    unfold read_sync at h
    by_cases hconn : device_connected w.dev = true
    · simp only [hconn, Bool.not_true, Bool.false_eq_true, if_false] at h
      cases hb : client_bycid w.dev cid with
      | none => simp [hb] at h
      | some c =>
        simp only [hb] at h
        exact read_sync_loop_ok_connected q sem cid tid script w hconn d w' h
    · simp [hconn] at h

/-- A use of C16: client 7 reads on a dying device and gets `-ENXIO` at once;
on a connected device it sleeps, a message for it arrives and fires its
notification, then the device is marked dying: it gets `-ENXIO` and the
message stays in its response queue. -/
theorem read_sync_not_connected_witness :
    read_sync test_codec 900 [] ⟨⟨true, true, 1, [⟨7, [], [], [], none⟩]⟩, [], []⟩ 7 0
      = (Result.err (- ENXIO), ⟨⟨true, true, 1, [⟨7, [], [], [], none⟩]⟩, [], []⟩) ∧
    read_sync_loop test_codec 900 7 0
        [⟨[EnvEvent.read_complete ⟨0, [1, 0, 0, 0, 7, 0, 0, 5, 0], 9⟩, EnvEvent.set_dying], 0⟩]
        ⟨⟨true, false, 1, [⟨7, [], [], [], none⟩]⟩, [], []⟩
      = (Result.err (- ENXIO),
          ⟨⟨true, true, 1, [⟨7, [⟨[1, 0, 0, 0, 7, 0, 0, 5, 0], 5, 9⟩], [], [], none⟩]⟩, [],
            [Event.call upsem 7 900, Event.resubmit_int_urb]⟩) :=
  ⟨(read_sync_not_connected test_codec 900 []
      ⟨⟨true, true, 1, [⟨7, [], [], [], none⟩]⟩, [], []⟩ 7 0).1 (by decide),
    ((read_sync_not_connected test_codec 900 []
      ⟨⟨true, false, 1, [⟨7, [], [], [], none⟩]⟩, [], []⟩ 7 0).2.1
      ⟨[EnvEvent.read_complete ⟨0, [1, 0, 0, 0, 7, 0, 0, 5, 0], 9⟩, EnvEvent.set_dying], 0⟩
      ⟨7, [], [], [], none⟩ _ (by decide) (by decide) (by decide) rfl (by decide)
      (by decide)).1⟩

/-! ## C17: an interrupted `read_sync` -/

/-- C17: a pass of the loop of `read_sync` (the first one, on a connected
device, is `read_sync` itself) finds nothing to dequeue, registers its
notification (bound to its own semaphore `sem`, which no pending entry of the
client uses) and sleeps; the sleep ends on a signal, the notification not
having fired. `W1` is the world when it goes to sleep and `c2` the client when
it wakes. Then `read_sync` returns `-EINTR`, and the only change it makes after
the wake is to the notification queue of the client, which becomes the queue
found at the wake without the entry bound to `sem`: all other entries stay, in
order, and the response queue, the URB queue and the handle are those found at
the wake. Nothing bound to `sem` is left; the entries left were all pending
before the pass and the messages buffered then are still there. When nothing
happened during the sleep, the world is the one before the pass (one
allocation consumed). `-EINTR` is negative and differs from `-ENXIO`. -/
theorem read_sync_interrupted (q : qmi_codec) (sem : Nat) (s : Sleep) (script : List Sleep)
    (w W1 : World) (cid tid : Nat) (c : client)
    (hc : client_bycid w.dev cid = some c)
    (hdel : (client_delread c tid).1 = none) (hk : (kmalloc w.mem).1 = true)
    (hfresh : ∀ n ∈ c.notifies, n.data ≠ sem)
    (hW1 : W1 = ({ w with mem := (kmalloc w.mem).2 } : World).store cid
      { c with notifies := c.notifies ++ [notifyreq.mk upsem tid sem] })
    (hrel : sem_released sem ((s.run q W1).log.drop W1.log.length) = false)
    (hsig : s.signal ≠ 0) :
    ∃ c2, client_bycid (s.run q W1).dev cid = some c2 ∧
      (device_connected w.dev = true → read_sync q sem (s :: script) w cid tid
        = read_sync_loop q sem cid tid (s :: script) w) ∧
      read_sync_loop q sem cid tid (s :: script) w
        = (Result.err (-EINTR), (s.run q W1).store cid
            { c2 with notifies := c2.notifies.filter (fun n => n.data != sem) }) ∧
      client_bycid (read_sync_loop q sem cid tid (s :: script) w).2.dev cid
        = some { c2 with notifies := c2.notifies.filter (fun n => n.data != sem) } ∧
      (∀ n ∈ c2.notifies.filter (fun n => n.data != sem), n.data ≠ sem) ∧
      (c2.notifies.filter (fun n => n.data != sem)).Sublist c.notifies ∧
      c.reads <+: c2.reads ∧
      (s.events = [] → read_sync_loop q sem cid tid (s :: script) w
        = (Result.err (-EINTR), { w with mem := (kmalloc w.mem).2 })) ∧
      (-EINTR : Int) < 0 ∧ (-EINTR : Int) ≠ - ENXIO := by
  have hcid : c.cid = cid := client_bycid_cid _ cid c hc
  have hc1 : client_bycid W1.dev cid
      = some { c with notifies := c.notifies ++ [notifyreq.mk upsem tid sem] } := by
    rw [hW1]
    exact client_bycid_store_same ({ w with mem := (kmalloc w.mem).2 }) cid c _ hc hcid
  obtain ⟨c2, hc2, hev⟩ := client_bycid_evolves (sleep_run_evolves q s W1).1 cid _ hc1
  have hderef : (s.run q W1).deref cid
      { c with notifies := c.notifies ++ [notifyreq.mk upsem tid sem] } = c2 := by
    unfold World.deref
    rw [hc2]
    rfl
  have hfun : (fun n : notifyreq => !(n.data == sem)) = (fun n => n.data != sem) := rfl
  have hcount0 : c.notifies.countP (fun n => n.data == sem) = 0 :=
    List.countP_eq_zero.mpr (fun n hn => by simpa using hfresh n hn)
  have hcount : c2.notifies.countP (fun n => n.data == sem) ≤ 1 := by
    have h1 := List.Sublist.countP_le (fun n : notifyreq => n.data == sem) hev.2.2.2.1
    have h2 : (c.notifies ++ [notifyreq.mk upsem tid sem]).countP (fun n => n.data == sem)
        = 1 := by
      rw [List.countP_append, hcount0]
      simp
    exact h1.trans (le_of_eq h2)
  have herase := eraseP_eq_filter (fun n : notifyreq => n.data == sem) c2.notifies hcount
  rw [hfun] at herase
  have hfilter1 : (c.notifies ++ [notifyreq.mk upsem tid sem]).filter (fun n => n.data != sem)
      = c.notifies := by
    rw [List.filter_append, List.filter_eq_self.mpr (fun n hn => by simpa using hfresh n hn)]
    simp
  have hstep := read_sync_loop_step q sem cid tid s script w W1 _ c hc hdel hk hW1 rfl
  simp only [hrel, Bool.false_eq_true, if_false, hsig, ne_eq, not_false_eq_true, if_true,
    hderef, herase] at hstep
  have hread : read_sync_loop q sem cid tid (s :: script) w
      = (Result.err (-EINTR), (s.run q W1).store cid
          { c2 with notifies := c2.notifies.filter (fun n => n.data != sem) }) := hstep
  refine ⟨c2, hc2, ?_, hread, ?_, ?_, ?_, hev.2.2.2.2, ?_, by decide, by decide⟩
  · intro hconn
    simp only [read_sync, hconn, Bool.not_true, Bool.false_eq_true, if_false, hc]
  · rw [hread]
    exact client_bycid_store_same _ cid c2 _ hc2 ((hev.1).trans hcid)
  · intro n hn
    have := (List.mem_filter.mp hn).2
    simpa using this
  · have := List.Sublist.filter (fun n : notifyreq => n.data != sem) hev.2.2.2.1
    rw [hfilter1] at this
    exact this
  · intro hnil
    have hrun : s.run q W1 = W1 := by
      unfold Sleep.run
      rw [hnil]
      rfl
    rw [hrun] at hc2
    have hc2' : c2 = { c with notifies := c.notifies ++ [notifyreq.mk upsem tid sem] } :=
      (Option.some.inj (hc2.symm.trans hc1))
    rw [hread, hrun, hc2']
    simp only [hfilter1]
    have heta : ({ c with notifies := c.notifies } : client) = c := by cases c; rfl
    rw [heta, hW1, store_store ({ w with mem := (kmalloc w.mem).2 } : World) cid c
      { c with notifies := c.notifies ++ [notifyreq.mk upsem tid sem] } c hc hcid]
    have hself := store_deref ({ w with mem := (kmalloc w.mem).2 } : World) cid c
    have hc' : client_bycid ({ w with mem := (kmalloc w.mem).2 } : World).dev cid = some c := hc
    unfold World.deref at hself
    rw [hc'] at hself
    exact congrArg (Prod.mk (Result.err (-EINTR))) hself

/-- A use of C17: client 7 holds one pending notification (hook 11) and reads
with filter 5; its sleep is interrupted by a signal while nothing arrives. It
gets `-EINTR`, and the client is as before the call. -/
theorem read_sync_interrupted_witness :
    read_sync test_codec 900 [⟨[], -EINTR⟩]
        ⟨⟨true, false, 1, [⟨7, [], [⟨11, 0, 21⟩], [], none⟩]⟩, [], []⟩ 7 5
      = (Result.err (-EINTR), ⟨⟨true, false, 1, [⟨7, [], [⟨11, 0, 21⟩], [], none⟩]⟩, [], []⟩) :=
  let ⟨_, _, h0, _, _, _, _, _, h, _⟩ := read_sync_interrupted test_codec 900 ⟨[], -EINTR⟩ []
    ⟨⟨true, false, 1, [⟨7, [], [⟨11, 0, 21⟩], [], none⟩]⟩, [], []⟩
    ⟨⟨true, false, 1, [⟨7, [], [⟨11, 0, 21⟩, ⟨upsem, 5, 900⟩], [], none⟩]⟩, [], []⟩ 7 5
    ⟨7, [], [⟨11, 0, 21⟩], [], none⟩ (by decide) (by decide) (by decide)
    (by decide) (by decide) (by decide) (by decide)
  (h0 (by decide)).trans (h rfl)

/-! ## C20: `devqmi_read` -/

/-- C20, as stated, fails: a three-byte payload fits the caller's ten-byte
buffer, but `copy_to_user` reports a byte it could not copy; `devqmi_read`
returns `-EFAULT`, not the payload length. -/
theorem devqmi_read_claim_fails :
    ¬ (∀ (q : qmi_codec) (qmux_size sem : Nat) (script : List Sleep) (uncopied : Nat)
        (w w1 : World) (hcid size n : Nat) (data : List Nat),
        device_connected w.dev = true → hcid ≠ 0xFFFF →
        read_sync q sem script w hcid 0 = (Result.ok (data, n), w1) →
        qmux_size ≤ n → 0 < n → n - qmux_size ≤ size →
        (devqmi_read q qmux_size sem script uncopied w hcid size).1
            = Result.ok (((n - qmux_size : Nat) : Int)) ∧
          (devqmi_read q qmux_size sem script uncopied w hcid size).2.1
            = (data.drop qmux_size).take (n - qmux_size)) := by
  intro h
  have := (h test_codec 6 900 [] 1
    ⟨⟨true, false, 1, [⟨7, [⟨[1, 0, 0, 0, 7, 0, 0, 5, 0], 5, 9⟩], [], [], none⟩]⟩, [], []⟩
    ⟨⟨true, false, 1, [⟨7, [], [], [], none⟩]⟩, [], []⟩ 7 10 9 [1, 0, 0, 0, 7, 0, 0, 5, 0]
    (by decide) (by decide) (by decide) (by decide) (by decide) (by decide)).1
  revert this
  decide

/-- C20, amended: `devqmi_read` on a connected device with a bound client, when
`read_sync` has dequeued a message of `n` bytes with `qmux_size ≤ n`. (1) If
`n - qmux_size` exceeds the caller's size it returns `-EOVERFLOW`, copies
nothing and frees the message. (2) Otherwise, when `copy_to_user` copies
everything, it returns `n - qmux_size`, the caller receives exactly the
`n - qmux_size` bytes that follow the QMUX header, and the message is freed.
(3) Otherwise, when `copy_to_user` leaves bytes uncopied, it returns
`-EFAULT`. -/
theorem devqmi_read_spec (q : qmi_codec) (qmux_size sem : Nat) (script : List Sleep)
    (uncopied : Nat) (w w1 : World) (hcid size n : Nat) (data : List Nat)
    (hconn : device_connected w.dev = true) (hbound : hcid ≠ 0xFFFF)
    (hread : read_sync q sem script w hcid 0 = (Result.ok (data, n), w1))
    (hn : qmux_size ≤ n) (hpos : 0 < n) (hint : n < 2 ^ 31) :
    (size < n - qmux_size →
      devqmi_read q qmux_size sem script uncopied w hcid size
        = (Result.err (-EOVERFLOW), [], w1.emit [Event.kfree data])) ∧
    (n - qmux_size ≤ size → uncopied = 0 →
      devqmi_read q qmux_size sem script uncopied w hcid size
        = (Result.ok (((n - qmux_size : Nat) : Int)),
            (data.drop qmux_size).take (n - qmux_size), w1.emit [Event.kfree data])) ∧
    (n - qmux_size ≤ size → uncopied ≠ 0 →
      (devqmi_read q qmux_size sem script uncopied w hcid size).1
        = Result.err (-EFAULT)) := by
  have hsub : (n : Int) - (qmux_size : Int) = ((n - qmux_size : Nat) : Int) := by omega
  have hmod : (((n - qmux_size : Nat) : Int) % 2 ^ 32).toNat = n - qmux_size := by
    have h1 : ((n - qmux_size : Nat) : Int) % 2 ^ 32 = ((n - qmux_size : Nat) : Int) := by
      apply Int.emod_eq_of_lt
      · omega
      · have : n - qmux_size < 2 ^ 32 := by omega
        exact_mod_cast this
    rw [h1]
    simp
  have hn0 : n ≠ 0 := by omega
  refine ⟨?_, ?_, ?_⟩
  · intro hov
    simp only [devqmi_read, hconn, Bool.not_true, Bool.false_eq_true, if_false, hbound, hread,
      hn0, hsub, hmod]
    simp [hov]
  · intro hfit hcopy
    have hnot : ¬ (n - qmux_size > size) := by omega
    simp only [devqmi_read, hconn, Bool.not_true, Bool.false_eq_true, if_false, hbound, hread,
      hn0, hsub, hmod, hnot, hcopy, ne_eq, not_true_eq_false]
    simp
  · intro hfit hcopy
    have hnot : ¬ (n - qmux_size > size) := by omega
    simp only [devqmi_read, hconn, Bool.not_true, Bool.false_eq_true, if_false, hbound, hread,
      hn0, hsub, hmod, hnot, hcopy, ne_eq, not_false_eq_true, if_true]

/-- A use of the amended C20: a nine-byte message with a six-byte header is
read into a ten-byte buffer; the caller receives its last three bytes. -/
theorem devqmi_read_spec_witness :
    devqmi_read test_codec 6 900 [] 0
        ⟨⟨true, false, 1, [⟨7, [⟨[1, 0, 0, 0, 7, 0, 0, 5, 0], 5, 9⟩], [], [], none⟩]⟩, [], []⟩
        7 10
      = (Result.ok 3, [0, 5, 0],
          ⟨⟨true, false, 1, [⟨7, [], [], [], none⟩]⟩, [],
            [Event.kfree [1, 0, 0, 0, 7, 0, 0, 5, 0]]⟩) :=
  (devqmi_read_spec test_codec 6 900 [] 0
    ⟨⟨true, false, 1, [⟨7, [⟨[1, 0, 0, 0, 7, 0, 0, 5, 0], 5, 9⟩], [], [], none⟩]⟩, [], []⟩
    ⟨⟨true, false, 1, [⟨7, [], [], [], none⟩]⟩, [], []⟩ 7 10 9 [1, 0, 0, 0, 7, 0, 0, 5, 0]
    (by decide) (by decide) (by decide) (by decide) (by decide) (by decide)).2.1
    (by decide) rfl

/-! ## The release round trip of `client_free` -/

theorem qmitid_next_frame (w : World) :
    (qmitid_next w).2.log = w.log ∧ (qmitid_next w).2.mem = w.mem ∧
      (qmitid_next w).2.dev.clients = w.dev.clients := by
  unfold qmitid_next
  simp only []
  split_ifs <;> exact ⟨rfl, rfl, rfl⟩

theorem client_free_unlink_quiet (w : World) (cid : Nat) (x : Event)
    (hx : x ∈ (client_free_unlink w cid).1.log.drop w.log.length) :
    (∀ u r, x ≠ Event.usb_submit_urb u r) ∧ (∀ r, x ≠ Event.usb_autopm_get_interface r) := by
  rw [(client_free_unlink_effects w cid).1] at hx
  simp only [List.drop_left] at hx
  cases hb : client_bycid w.dev cid with
  | none => simp [hb] at hx
  | some c =>
    simp only [hb] at hx
    exact client_free_events_quiet c x hx

theorem client_free_unlink_log (w : World) (cid : Nat) :
    w.log <+: (client_free_unlink w cid).1.log :=
  ⟨_, (client_free_unlink_effects w cid).1.symm⟩

/-- When the release message is built, the round trip of `client_free` starts
with a `write_sync` of it on the control client. -/
theorem client_free_release_writes (q : qmi_codec) (e : rpc_env) (w : World) (cid : Nat)
    (wbuf : List Nat) (hb : q.qmictl_new_releasecid (qmitid_next w).1 cid = some wbuf) :
    (write_sync q e.wr (qmitid_next w).2 wbuf wbuf.length QMICTL).2.log
      <+: (client_free_release q e w cid).2.log := by
  unfold client_free_release
  simp only [hb]
  have h1 : (write_sync q e.wr (qmitid_next w).2 wbuf wbuf.length QMICTL).2.log
      <+: ((write_sync q e.wr (qmitid_next w).2 wbuf wbuf.length QMICTL).2.emit
        [Event.kfree wbuf]).log := List.prefix_append _ _
  split_ifs
  · exact h1
  · have h2 := h1.trans (read_sync_log q e.sem e.rd
      ((write_sync q e.wr (qmitid_next w).2 wbuf wbuf.length QMICTL).2.emit
        [Event.kfree wbuf]) QMICTL (qmitid_next w).1)
    rcases hr : read_sync q e.sem e.rd
      ((write_sync q e.wr (qmitid_next w).2 wbuf wbuf.length QMICTL).2.emit
        [Event.kfree wbuf]) QMICTL (qmitid_next w).1 with ⟨r, w3⟩
    rw [hr] at h2
    rcases r with ⟨rbuf, rbufsize⟩ | code | _
    · exact h2.trans (List.prefix_append _ _)
    · exact h2
    · exact h2

theorem client_free_release_skipped (q : qmi_codec) (e : rpc_env) (w : World) (cid : Nat)
    (hb : q.qmictl_new_releasecid (qmitid_next w).1 cid = none) :
    client_free_release q e w cid = (true, (qmitid_next w).2) := by
  unfold client_free_release
  simp only [hb]

/-- On a valid device that is not dying and for an identifier other than 0,
`client_free` runs the round trip and then, unless the caller is still asleep
in it, unlinks the client. -/
theorem client_free_connected (q : qmi_codec) (e : rpc_env) (w : World) (cid : Nat)
    (hv : w.dev.valid = true) (hd : w.dev.dying = false) (hne : cid ≠ QMICTL) :
    client_free q e w cid =
      if (client_free_release q e w cid).1 = true then
        (Result.ok (), (client_free_unlink (client_free_release q e w cid).2 cid).1)
      else (Result.blocked, (client_free_release q e w cid).2) := by
  have hcond : (decide (cid ≠ QMICTL) && !w.dev.dying) = true := by simp [hne, hd]
  have hv1 : (client_free_release q e w cid).2.dev.valid = true :=
    (same_ids_release q e w cid).2.trans hv
  rcases hr : client_free_release q e w cid with ⟨b, w1⟩
  rw [hr] at hv1
  have hv2 : w1.dev.valid = true := hv1
  cases b
  · simp only [client_free, hv, Bool.not_true, Bool.false_eq_true, if_false, hcond, if_true, hr]
  · simp only [client_free, hv, Bool.not_true, Bool.false_eq_true, if_false, hcond, if_true, hr,
      hv2]

theorem client_free_skips_release (q : qmi_codec) (e : rpc_env) (w : World) (cid : Nat)
    (hv : w.dev.valid = true) (hskip : cid = QMICTL ∨ w.dev.dying = true) :
    client_free q e w cid = (Result.ok (), (client_free_unlink w cid).1) := by
  have hcond : (decide (cid ≠ QMICTL) && !w.dev.dying) = false := by
    rcases hskip with h | h
    · simp [h]
    · simp [h]
  simp only [client_free, hv, Bool.not_true, Bool.false_eq_true, if_false, hcond]

/-! ## C11: when `client_free` sends a release request -/

/-- C11, as stated, fails: on a valid device that is not dying, for identifier 7
and with a transport on which every write goes through, `client_free` submits
nothing when `qmictl_new_releasecid` returns `NULL`. -/
theorem client_free_release_claim_fails :
    ¬ (∀ (q : qmi_codec) (e : rpc_env) (w : World) (cid : Nat) (c0 : client),
        w.dev.valid = true → w.dev.dying = false → cid ≠ QMICTL →
        e.wr.urb ≠ 0 → (∀ buf size, 0 ≤ q.qmux_fill QMICTL buf size) → 0 ≤ e.wr.autopm →
        client_bycid w.dev QMICTL = some c0 → (kmalloc w.mem).1 = true →
        ∃ u r, Event.usb_submit_urb u r ∈ (client_free q e w cid).2.log) := by
  intro h
  obtain ⟨u, r, hm⟩ := h
    { test_codec with qmux_fill := fun _ _ _ => 0, qmictl_new_releasecid := fun _ _ => none }
    ⟨⟨500, 0, 0, ⟨[], 0⟩, 0⟩, 900, []⟩
    ⟨⟨true, false, 1, [⟨0, [], [], [], none⟩, ⟨7, [], [], [], none⟩]⟩, [], []⟩ 7
    ⟨0, [], [], [], none⟩ rfl rfl (by decide) (by decide) (fun _ _ => le_refl 0) (by decide)
    (by decide) (by decide)
  have hlog : (client_free
      { test_codec with qmux_fill := fun _ _ _ => 0, qmictl_new_releasecid := fun _ _ => none }
      ⟨⟨500, 0, 0, ⟨[], 0⟩, 0⟩, 900, []⟩
      ⟨⟨true, false, 1, [⟨0, [], [], [], none⟩, ⟨7, [], [], [], none⟩]⟩, [], []⟩ 7).2.log
      = [] := by decide
  rw [hlog] at hm
  exact List.not_mem_nil _ hm

/-- C11, amended. (1) On a device that is not valid `client_free` does nothing.
(2) On a valid device, when the device is dying or the identifier is 0, it
goes straight to unlinking the client: no `usb_submit_urb` and no
`usb_autopm_get_interface` is among its effects. (3) On a valid device that is
not dying and for an identifier other than 0, when the release message cannot
be built it submits nothing either, and still unlinks the client. (4) In that
state, when the message `wbuf` is built, the effects of `client_free` begin
with those of `write_sync` of `wbuf` on the control client, and on a
transport where the URB is allocated, framed, the interface resumed and the
URB queued on the control client, `usb_submit_urb` is called. (5) In that
state, once the round trip has returned, whatever its outcome, `client_free`
returns normally and the client with the identifier is unlinked from the
registry the round trip left. -/
theorem client_free_release_request (q : qmi_codec) (e : rpc_env) (w : World) (cid : Nat) :
    (w.dev.valid = false → client_free q e w cid = (Result.ok (), w)) ∧
    (w.dev.valid = true → (cid = QMICTL ∨ w.dev.dying = true) →
      client_free q e w cid = (Result.ok (), (client_free_unlink w cid).1) ∧
      ∀ x ∈ (client_free q e w cid).2.log.drop w.log.length,
        (∀ u r, x ≠ Event.usb_submit_urb u r) ∧
          ∀ r, x ≠ Event.usb_autopm_get_interface r) ∧
    (w.dev.valid = true → w.dev.dying = false → cid ≠ QMICTL →
      q.qmictl_new_releasecid (qmitid_next w).1 cid = none →
      client_free q e w cid = (Result.ok (), (client_free_unlink (qmitid_next w).2 cid).1) ∧
      ∀ x ∈ (client_free q e w cid).2.log.drop w.log.length,
        (∀ u r, x ≠ Event.usb_submit_urb u r) ∧
          ∀ r, x ≠ Event.usb_autopm_get_interface r) ∧
    (w.dev.valid = true → w.dev.dying = false → cid ≠ QMICTL →
      ∀ wbuf, q.qmictl_new_releasecid (qmitid_next w).1 cid = some wbuf →
        (write_sync q e.wr (qmitid_next w).2 wbuf wbuf.length QMICTL).2.log
          <+: (client_free q e w cid).2.log ∧
        ∀ c0, e.wr.urb ≠ 0 → 0 ≤ q.qmux_fill QMICTL wbuf wbuf.length → 0 ≤ e.wr.autopm →
          client_bycid w.dev QMICTL = some c0 → (kmalloc w.mem).1 = true →
          ∃ l, (client_free q e w cid).2.log = w.log ++ l ∧
            Event.usb_submit_urb e.wr.urb e.wr.submit ∈ l) ∧
    (w.dev.valid = true → w.dev.dying = false → cid ≠ QMICTL →
      ∀ w1, client_free_release q e w cid = (true, w1) →
        client_free q e w cid = (Result.ok (), (client_free_unlink w1 cid).1) ∧
        (client_free q e w cid).2.dev.clients
          = w1.dev.clients.eraseP (fun x => x.cid == cid)) := by
  refine ⟨?_, ?_, ?_, ?_, ?_⟩
  · intro hv
    simp [client_free, hv]
  · intro hv hskip
    have heq := client_free_skips_release q e w cid hv hskip
    refine ⟨heq, ?_⟩
    rw [heq]
    exact fun x hx => client_free_unlink_quiet w cid x hx
  · intro hv hd hne hb
    have hrel := client_free_release_skipped q e w cid hb
    have heq := client_free_connected q e w cid hv hd hne
    rw [hrel] at heq
    simp only [if_true] at heq
    refine ⟨heq, ?_⟩
    rw [heq]
    intro x hx
    have hlog := (qmitid_next_frame w).1
    rw [← hlog] at hx
    exact client_free_unlink_quiet (qmitid_next w).2 cid x hx
  · intro hv hd hne wbuf hb
    have hpre : (write_sync q e.wr (qmitid_next w).2 wbuf wbuf.length QMICTL).2.log
        <+: (client_free q e w cid).2.log := by
      have h1 := client_free_release_writes q e w cid wbuf hb
      rw [client_free_connected q e w cid hv hd hne]
      split_ifs
      · exact h1.trans (client_free_unlink_log _ cid)
      · exact h1
    refine ⟨hpre, ?_⟩
    intro c0 hurb hfill hpm hc hk
    obtain ⟨hl, hm, hcl⟩ := qmitid_next_frame w
    have hc' : client_bycid (qmitid_next w).2.dev QMICTL = some c0 := by
      rw [client_bycid_congr _ _ hcl]
      exact hc
    obtain ⟨l, hlog, hmem⟩ := write_sync_submits q e.wr (qmitid_next w).2 wbuf wbuf.length
      QMICTL c0 hurb hfill hpm hc' (by rw [hm]; exact hk)
    obtain ⟨t, ht⟩ := hpre
    refine ⟨l ++ t, ?_, List.mem_append_left _ hmem⟩
    rw [← ht, hlog, hl, List.append_assoc]
  · intro hv hd hne w1 hrel
    have heq := client_free_connected q e w cid hv hd hne
    rw [hrel] at heq
    simp only [if_true] at heq
    refine ⟨heq, ?_⟩
    rw [heq]
    exact (client_free_unlink_effects w1 cid).2.1

/-- A use of the amended C11: clients 0 and 7 are registered. On a dying device
`client_free` of 7 only unlinks it; on a connected device it submits the
release request. -/
theorem client_free_release_request_witness :
    client_free test_codec ⟨⟨500, 0, 0, ⟨[], 0⟩, 0⟩, 900, []⟩
        ⟨⟨true, true, 1, [⟨0, [], [], [], none⟩, ⟨7, [], [], [], none⟩]⟩, [], []⟩ 7
      = (Result.ok (), (client_free_unlink
          ⟨⟨true, true, 1, [⟨0, [], [], [], none⟩, ⟨7, [], [], [], none⟩]⟩, [], []⟩ 7).1) ∧
    ∃ l, (client_free test_codec ⟨⟨500, 0, 0, ⟨[], 0⟩, 0⟩, 900, []⟩
        ⟨⟨true, false, 1, [⟨0, [], [], [], none⟩, ⟨7, [], [], [], none⟩]⟩, [], []⟩ 7).2.log
        = [] ++ l ∧ Event.usb_submit_urb 500 0 ∈ l :=
  ⟨((client_free_release_request test_codec ⟨⟨500, 0, 0, ⟨[], 0⟩, 0⟩, 900, []⟩
      ⟨⟨true, true, 1, [⟨0, [], [], [], none⟩, ⟨7, [], [], [], none⟩]⟩, [], []⟩ 7).2.1 rfl
      (Or.inr rfl)).1,
    ((client_free_release_request test_codec ⟨⟨500, 0, 0, ⟨[], 0⟩, 0⟩, 900, []⟩
      ⟨⟨true, false, 1, [⟨0, [], [], [], none⟩, ⟨7, [], [], [], none⟩]⟩, [], []⟩ 7).2.2.2.1
      rfl rfl (by decide) [1, 0, 0, 0, 0, 0, 0, 2, 0x23, 7, 0] rfl).2
      ⟨0, [], [], [], none⟩ (by decide) (by decide) (by decide) (by decide) (by decide)⟩

/-! ## C12: `client_free` of an identifier that is not registered -/

/-- C12, as stated, fails: on a connected device whose registry holds only the
control client, `client_free` of identifier 7 runs the release round trip
before it looks the client up: the transaction counter advances and a URB is
submitted. -/
theorem client_free_absent_claim_fails :
    ¬ (∀ (q : qmi_codec) (e : rpc_env) (w : World) (cid : Nat),
        client_bycid w.dev cid = none → client_free q e w cid = (Result.ok (), w)) := by
  intro h
  have := h test_codec
    ⟨⟨500, 0, 0, ⟨[], 0⟩, 0⟩, 900, [⟨[EnvEvent.read_complete ⟨0, [1, 0, 0, 0, 0, 0, 0, 2, 0], 9⟩], 0⟩]⟩
    ⟨⟨true, false, 1, [⟨0, [], [], [], none⟩]⟩, [], []⟩ 7 (by decide)
  revert this
  decide

/-- C12, amended: for an identifier that no client of the registry has.
(1) On a device that is not valid, `client_free` returns normally and changes
nothing. (2) On a valid device that is dying, or for the identifier 0, it
returns normally and changes nothing: no state change, no effect. (3) On a
valid device that is not dying and for another identifier, it first runs the
release round trip; once that has returned with the world `w1`, `client_free`
returns normally with exactly `w1`: nothing is unlinked or drained, and the
registry holds the same identifiers as at entry. -/
theorem client_free_absent (q : qmi_codec) (e : rpc_env) (w : World) (cid : Nat)
    (habs : client_bycid w.dev cid = none) :
    (w.dev.valid = false → client_free q e w cid = (Result.ok (), w)) ∧
    (w.dev.valid = true → (cid = QMICTL ∨ w.dev.dying = true) →
      client_free q e w cid = (Result.ok (), w)) ∧
    (w.dev.valid = true → w.dev.dying = false → cid ≠ QMICTL →
      ∀ w1, client_free_release q e w cid = (true, w1) →
        client_free q e w cid = (Result.ok (), w1) ∧
        w1.dev.clients.map client.cid = w.dev.clients.map client.cid) := by
  have hunlink : ∀ W : World, client_bycid W.dev cid = none →
      (client_free_unlink W cid).1 = W := by
    intro W hW
    simp [client_free_unlink, hW]
  refine ⟨?_, ?_, ?_⟩
  · intro hv
    simp [client_free, hv]
  · intro hv hskip
    rw [client_free_skips_release q e w cid hv hskip, hunlink w habs]
  · intro hv hd hne w1 hrel
    have hsame := same_ids_release q e w cid
    rw [hrel] at hsame
    have habs1 : client_bycid w1.dev cid = none := by
      rw [client_bycid_none_iff] at habs ⊢
      rw [hsame.1]
      exact habs
    have heq := client_free_connected q e w cid hv hd hne
    rw [hrel] at heq
    simp only [if_true] at heq
    rw [heq, hunlink w1 habs1]
    exact ⟨rfl, hsame.1⟩

/-- A use of the amended C12: identifier 7 is not registered; on a dying
device `client_free` of 7 changes nothing. -/
theorem client_free_absent_witness :
    client_free test_codec ⟨⟨500, 0, 0, ⟨[], 0⟩, 0⟩, 900, []⟩
        ⟨⟨true, true, 1, [⟨0, [], [], [], none⟩]⟩, [], []⟩ 7
      = (Result.ok (), ⟨⟨true, true, 1, [⟨0, [], [], [], none⟩]⟩, [], []⟩) :=
  (client_free_absent test_codec ⟨⟨500, 0, 0, ⟨[], 0⟩, 0⟩, 900, []⟩
    ⟨⟨true, true, 1, [⟨0, [], [], [], none⟩]⟩, [], []⟩ 7 (by decide)).2.1 rfl (Or.inr rfl)

/-! ## C28: the transaction id of a control request -/

/-- C28: whatever the 32-bit counter `qmi.qmitid` holds, the transaction id
derived by the idiom shared by `client_alloc`, `client_free` and `qmi_ready`
(`qmitid_next`) fits in 8 bits and is never 0; it is the low byte of the
counter after the derivation, and the counter has advanced by 1 or by 2
(modulo `2 ^ 32`). -/
theorem qmitid_next_nonzero (w : World) :
    (qmitid_next w).1 ≠ 0 ∧ (qmitid_next w).1 < 256 ∧
      (qmitid_next w).1 = (qmitid_next w).2.dev.qmitid % 256 ∧
      ((qmitid_next w).2.dev.qmitid = (w.dev.qmitid + 1) % 2 ^ 32 ∨
        (qmitid_next w).2.dev.qmitid = (w.dev.qmitid + 2) % 2 ^ 32) := by
  unfold qmitid_next
  simp only []
  split_ifs with h
  · refine ⟨?_, ?_, rfl, Or.inr ?_⟩
    · simp only
      omega
    · simp only
      omega
    · simp only
      omega
  · refine ⟨?_, ?_, rfl, Or.inl rfl⟩
    · simp only
      omega
    · simp only
      omega

/-! ## C30: where `read_callback` reads the transaction id -/

/-- C30: for a control read that completed with status 0 and whose QMUX header
parsed with a non-negative length `result`. (1) When the received size is
below `result + 3`, `read_callback` only resubmits the interrupt URB: the
registry, its queues and the allocator are untouched. (2) Otherwise the
offsets `result + 1` and `result + 2` are below the received size; the
transaction id depends on the byte at `result + 1` only for the control
client, on the bytes at `result + 1` and `result + 2` for another client, so
it is the same when it is read from the first `size` bytes alone; and the
message is dispatched with that id. -/
theorem read_callback_tid_bounds (q : qmi_codec) (u : urb) (w : World) (result : Int)
    (pc : Nat) (hstatus : u.status = 0)
    (hparse : q.qmux_parse u.transfer_buffer (u.actual_length % 65536) = (result, pc))
    (hres : 0 ≤ result) :
    (((u.actual_length % 65536 : Nat) : Int) < result + 3 →
      read_callback q u w = w.emit [Event.resubmit_int_urb]) ∧
    (result + 3 ≤ ((u.actual_length % 65536 : Nat) : Int) →
      result.toNat + 2 < u.actual_length % 65536 ∧
      (∀ data' : List Nat,
        data'.getD (result.toNat + 1) 0 = u.transfer_buffer.getD (result.toNat + 1) 0 →
        read_tid QMICTL data' result.toNat = read_tid QMICTL u.transfer_buffer result.toNat) ∧
      (∀ (cid : Nat) (data' : List Nat),
        data'.getD (result.toNat + 1) 0 = u.transfer_buffer.getD (result.toNat + 1) 0 →
        data'.getD (result.toNat + 2) 0 = u.transfer_buffer.getD (result.toNat + 2) 0 →
        read_tid cid data' result.toNat = read_tid cid u.transfer_buffer result.toNat) ∧
      read_callback q u w =
        read_callback_dispatch w (pc % 65536)
          (read_tid (pc % 65536) (u.transfer_buffer.take (u.actual_length % 65536))
            result.toNat)
          u.transfer_buffer (u.actual_length % 65536)) := by
  constructor
  · intro hsmall
    unfold read_callback
    simp only [hstatus, if_true, hparse, not_lt.mpr hres, if_false, hsmall]
  · intro hsize
    have hlt : result.toNat + 2 < u.actual_length % 65536 := by omega
    have hgen : ∀ (cid : Nat) (data' : List Nat),
        data'.getD (result.toNat + 1) 0 = u.transfer_buffer.getD (result.toNat + 1) 0 →
        data'.getD (result.toNat + 2) 0 = u.transfer_buffer.getD (result.toNat + 2) 0 →
        read_tid cid data' result.toNat = read_tid cid u.transfer_buffer result.toNat := by
      intro cid data' h1 h2
      unfold read_tid
      rw [h1, h2]
    refine ⟨hlt, ?_, hgen, ?_⟩
    · intro data' h1
      unfold read_tid
      rw [if_pos rfl, if_pos rfl, h1]
    · rw [read_callback_parsed q u w result pc hstatus hparse hres hsize]
      congr 1
      symm
      apply hgen
      · simp only [List.getD_eq_getElem?_getD]
        rw [List.getElem?_take_of_lt (by omega)]
      · simp only [List.getD_eq_getElem?_getD]
        rw [List.getElem?_take_of_lt (by omega)]

/-- A use of C30: a nine-byte message for client 7 with a six-byte header; the
id is read from bytes 7 and 8. -/
theorem read_callback_tid_bounds_witness :
    (6 : Int).toNat + 2 < 9 % 65536 ∧
    read_callback test_codec ⟨0, [1, 0, 0, 0, 7, 0, 0, 5, 0], 9⟩
        ⟨⟨true, false, 1, [⟨7, [], [], [], none⟩]⟩, [], []⟩
      = read_callback_dispatch ⟨⟨true, false, 1, [⟨7, [], [], [], none⟩]⟩, [], []⟩ (7 % 65536)
          (read_tid (7 % 65536) (List.take (9 % 65536) [1, 0, 0, 0, 7, 0, 0, 5, 0])
            (6 : Int).toNat)
          [1, 0, 0, 0, 7, 0, 0, 5, 0] (9 % 65536) :=
  let h := (read_callback_tid_bounds test_codec ⟨0, [1, 0, 0, 0, 7, 0, 0, 5, 0], 9⟩
    ⟨⟨true, false, 1, [⟨7, [], [], [], none⟩]⟩, [], []⟩ 6 7 rfl rfl (by decide)).2 (by decide)
  ⟨h.1, h.2.2.2⟩

/-! ## The client loop of `read_callback`, whatever the allocator does -/

theorem read_callback_loop_no_match (cid tid : Nat) (data : List Nat) (size : Nat)
    (clients : List client) (mem : List Bool)
    (h : ∀ x ∈ clients, ¬ (x.cid == cid || (x.cid ||| 0xff00) == cid) = true) :
    read_callback_loop cid tid data size clients mem = (clients, mem, [], loop_exit.done) := by
  induction clients with
  | nil => rfl
  | cons a rest ih =>
    rw [read_callback_loop_skip cid tid data size a rest mem (h a (by simp)),
      ih (fun x hx => h x (by simp [hx]))]

theorem read_callback_loop_first_match (cid tid : Nat) (data : List Nat) (size : Nat)
    (pre rest : List client) (mem : List Bool)
    (h : ∀ x ∈ pre, ¬ (x.cid == cid || (x.cid ||| 0xff00) == cid) = true) :
    read_callback_loop cid tid data size (pre ++ rest) mem =
      (pre ++ (read_callback_loop cid tid data size rest mem).1,
        (read_callback_loop cid tid data size rest mem).2.1,
        (read_callback_loop cid tid data size rest mem).2.2.1,
        (read_callback_loop cid tid data size rest mem).2.2.2) := by
  induction pre with
  | nil => rfl
  | cons a pre ih =>
    rw [List.cons_append, read_callback_loop_skip cid tid data size a _ mem (h a (by simp)),
      ih (fun x hx => h x (by simp [hx]))]
    rfl

/-- A message not addressed to a broadcast identifier matches exactly the
clients that have its identifier. -/
theorem unicast_match_iff (x cid : Nat) (hc : cid < 65536) (hb : cid >>> 8 ≠ 0xff) :
    (x == cid || (x ||| 0xff00) == cid) = true ↔ x = cid := by
  constructor
  · intro h
    simp only [Bool.or_eq_true, beq_iff_eq] at h
    rcases h with h | h
    · exact h
    · exact absurd (or_ff00_shift x cid h hc) hb
  · intro h
    simp [h]

/-- The client loop of `read_callback` for a message that is not a broadcast:
only the first client with the identifier is looked at. -/
theorem read_callback_loop_unicast (cid tid : Nat) (data : List Nat) (size : Nat)
    (pre post : List client) (c : client) (mem : List Bool)
    (hc : cid < 65536) (hb : cid >>> 8 ≠ 0xff) (hcid : c.cid = cid)
    (hpre : ∀ x ∈ pre, x.cid ≠ cid) :
    read_callback_loop cid tid data size (pre ++ c :: post) mem =
      if (kmalloc mem).1 = false then
        (pre ++ c :: post, (kmalloc mem).2, [], loop_exit.copy_failed)
      else if (kmalloc (kmalloc mem).2).1 = false then
        (pre ++ c :: post, (kmalloc (kmalloc mem).2).2, [Event.kfree (data.take size)],
          loop_exit.addread_failed)
      else
        (pre ++ (read_callback_deliver c tid data size).1 :: post, (kmalloc (kmalloc mem).2).2,
          (read_callback_deliver c tid data size).2, loop_exit.done) := by
  have hm : (c.cid == cid || (c.cid ||| 0xff00) == cid) = true :=
    (unicast_match_iff c.cid cid hc hb).mpr hcid
  rw [read_callback_loop_first_match cid tid data size pre (c :: post) mem
    (fun x hx h => hpre x hx ((unicast_match_iff x.cid cid hc hb).mp h)),
    read_callback_loop_cons, if_pos hm]
  split_ifs <;> rfl

/-! ## C24: when `read_callback` resubmits the interrupt URB -/

/-- C24: `read_callback` on a control read that completed with status 0 and
carries a well-formed message for the registered client 7. When the `kmalloc`
of the copy fails, nothing is logged: the interrupt URB is not resubmitted.
When the copy is allocated and the `kmalloc` of the queue entry fails, the
copy is freed and the interrupt URB is resubmitted. -/
theorem read_callback_copy_failure_no_resubmit :
    read_callback test_codec ⟨0, [1, 0, 0, 0, 7, 0, 0, 5, 0], 9⟩
        ⟨⟨true, false, 1, [⟨7, [], [], [], none⟩]⟩, [false], []⟩
      = ⟨⟨true, false, 1, [⟨7, [], [], [], none⟩]⟩, [], []⟩ ∧
    read_callback test_codec ⟨0, [1, 0, 0, 0, 7, 0, 0, 5, 0], 9⟩
        ⟨⟨true, false, 1, [⟨7, [], [], [], none⟩]⟩, [true, false], []⟩
      = ⟨⟨true, false, 1, [⟨7, [], [], [], none⟩]⟩, [],
          [Event.kfree [1, 0, 0, 0, 7, 0, 0, 5, 0], Event.resubmit_int_urb]⟩ := by
  constructor <;> rfl

/-! ## C29: which URB `write_sync` takes back -/

/-- `write_sync` on a client that already has a write outstanding (`u0` at the
head of its URB queue), once its own URB is queued and submitted: after the
wait it pops `u0`, not its own URB, returns `-EINVAL` and frees its own URB,
which stays in the queue. -/
theorem write_sync_pops_head (q : qmi_codec) (e : write_env) (w : World) (buf : List Nat)
    (size : Int) (cid : Nat) (c : client) (u0 : Nat) (rest : List Nat)
    (hurb : e.urb ≠ 0) (hfill : 0 ≤ q.qmux_fill cid buf size) (hpm : 0 ≤ e.autopm)
    (hc : client_bycid w.dev cid = some c) (hbusy : c.urbs = u0 :: rest) (hne : u0 ≠ e.urb)
    (hk : (kmalloc w.mem).1 = true) (hsub : 0 ≤ e.submit) :
    (write_sync q e w buf size cid).1 = -EINVAL ∧
      ∃ c', client_bycid (write_sync q e w buf size cid).2.dev cid = some c' ∧
        c'.urbs = rest ++ [e.urb] := by
  obtain ⟨W2, hW2⟩ : ∃ W2 : World, W2 =
      ((({ w.emit [Event.usb_autopm_get_interface e.autopm] with
        mem := (kmalloc w.mem).2 } : World).store cid
        { c with urbs := c.urbs ++ [e.urb] }).emit
          [Event.usb_submit_urb e.urb e.submit]) := ⟨_, rfl⟩
  have hcid : c.cid = cid := client_bycid_cid _ cid c hc
  have hc2 : client_bycid W2.dev cid = some { c with urbs := c.urbs ++ [e.urb] } := by
    rw [hW2]
    exact client_bycid_store_same
      ({ w.emit [Event.usb_autopm_get_interface e.autopm] with mem := (kmalloc w.mem).2 })
      cid c _ hc hcid
  have hurbs := write_sync_client_after_wait q e.sleep W2 cid _ hc2
  obtain ⟨hev, _⟩ := sleep_run_evolves q e.sleep W2
  obtain ⟨c3, hc3, hevol⟩ := client_bycid_evolves hev cid _ hc2
  have hc3' : client_bycid ((e.sleep.run q W2).emit [Event.usb_autopm_put_interface]).dev cid
      = some c3 := hc3
  have hderef : ((e.sleep.run q W2).emit [Event.usb_autopm_put_interface]).deref cid
      { c with urbs := c.urbs ++ [e.urb] } = c3 := by
    unfold World.deref
    rw [hc3']
    rfl
  have hc3urbs : c3.urbs = u0 :: (rest ++ [e.urb]) := by
    rw [← hderef, hurbs]
    simp [hbusy]
  have hpop : client_delurb c3 = (some u0, { c3 with urbs := rest ++ [e.urb] }) := by
    unfold client_delurb
    rw [hc3urbs]
  have hsubm := write_sync_submitted q e w buf size cid c _ W2 _ hurb hfill hpm hc hk hsub
    hW2 rfl rfl
  rw [hderef, hpop] at hsubm
  have hne' : (some u0 : Option Nat) ≠ some e.urb := fun h => hne (Option.some.inj h)
  simp only [ne_eq, hne', not_false_eq_true, if_true] at hsubm
  rw [hsubm]
  refine ⟨rfl, { c3 with urbs := rest ++ [e.urb] }, ?_, rfl⟩
  exact client_bycid_store_same _ cid c3 _ hc3' (hevol.1.trans hcid)

/-- C29: `write_sync` with URB 500 on client 7, whose URB queue holds the
outstanding write 600. After a completed wait and after an interrupted wait it
returns `-EINVAL`, having popped 600 and freed 500; after a failed submission
it returns the error of the submission, having popped 600 and freed 500. In
the three cases the queue on return is `[500]`, not `[600]`. -/
theorem write_sync_takes_back_other_urb :
    write_sync test_codec ⟨500, 0, 0, ⟨[], 0⟩, 0⟩
        ⟨⟨true, false, 1, [⟨7, [], [], [600], none⟩]⟩, [], []⟩ [0, 0, 0, 0, 0, 0, 9] 7 7
      = (-EINVAL, ⟨⟨true, false, 1, [⟨7, [], [], [500], none⟩]⟩, [],
          [Event.usb_autopm_get_interface 0, Event.usb_submit_urb 500 0,
            Event.usb_autopm_put_interface, Event.usb_free_urb 500]⟩) ∧
    write_sync test_codec ⟨500, 0, 0, ⟨[], -EINTR⟩, 0⟩
        ⟨⟨true, false, 1, [⟨7, [], [], [600], none⟩]⟩, [], []⟩ [0, 0, 0, 0, 0, 0, 9] 7 7
      = (-EINVAL, ⟨⟨true, false, 1, [⟨7, [], [], [500], none⟩]⟩, [],
          [Event.usb_autopm_get_interface 0, Event.usb_submit_urb 500 0,
            Event.usb_autopm_put_interface, Event.usb_free_urb 500]⟩) ∧
    write_sync test_codec ⟨500, 0, -ENOMEM, ⟨[], 0⟩, 0⟩
        ⟨⟨true, false, 1, [⟨7, [], [], [600], none⟩]⟩, [], []⟩ [0, 0, 0, 0, 0, 0, 9] 7 7
      = (-ENOMEM, ⟨⟨true, false, 1, [⟨7, [], [], [500], none⟩]⟩, [],
          [Event.usb_autopm_get_interface 0, Event.usb_submit_urb 500 (-ENOMEM),
            Event.usb_free_urb 500, Event.usb_autopm_put_interface]⟩) := by
  refine ⟨?_, ?_, ?_⟩ <;> rfl

/-! ## C26: demultiplexing by client identifier -/

/-- C26, as stated, fails: a well-formed message for the registered client 7
arrives while `kmalloc` fails; nothing is appended to the response queue of
client 7. -/
theorem read_callback_demux_claim_fails :
    ¬ (∀ (q : qmi_codec) (u : urb) (w : World) (result : Int) (pc : Nat) (c : client),
        u.status = 0 →
        q.qmux_parse u.transfer_buffer (u.actual_length % 65536) = (result, pc) →
        0 ≤ result → result + 3 ≤ ((u.actual_length % 65536 : Nat) : Int) →
        (pc % 65536) >>> 8 ≠ 0xff →
        client_bycid w.dev (pc % 65536) = some c →
        (client_bycid (read_callback q u w).dev (pc % 65536)).map client.reads
          = some (c.reads ++ [readreq.mk (u.transfer_buffer.take (u.actual_length % 65536))
              (read_tid (pc % 65536) u.transfer_buffer result.toNat)
              (u.actual_length % 65536)])) := by
  intro h
  have := h test_codec ⟨0, [1, 0, 0, 0, 7, 0, 0, 5, 0], 9⟩
    ⟨⟨true, false, 1, [⟨7, [], [], [], none⟩]⟩, [false], []⟩ 6 7 ⟨7, [], [], [], none⟩
    rfl rfl (by decide) (by decide) (by decide) (by decide)
  revert this
  decide

/-- C26, amended: a control read completed with status 0, its QMUX header
parsed, it is long enough to hold a transaction id, and its client id `cid`
has not `0xff` as its high byte. (1) If no client has the identifier `cid`,
`read_callback` changes no queue: it only resubmits the interrupt URB.
(2) Otherwise let `c` be the first client with the identifier. When the copy
and the queue entry are allocated, one copy of the message is appended to the
response queue of `c`, a notification is fired on `c` only (every hook call is
made for `c.cid`), and every other client is unchanged. When one of the two
allocations fails, no client is changed at all. -/
theorem read_callback_demux (q : qmi_codec) (u : urb) (w : World) (result : Int) (pc : Nat)
    (hstatus : u.status = 0)
    (hparse : q.qmux_parse u.transfer_buffer (u.actual_length % 65536) = (result, pc))
    (hres : 0 ≤ result) (hsize : result + 3 ≤ ((u.actual_length % 65536 : Nat) : Int))
    (hb : (pc % 65536) >>> 8 ≠ 0xff) :
    (client_bycid w.dev (pc % 65536) = none →
      read_callback q u w = w.emit [Event.resubmit_int_urb]) ∧
    (∀ (pre post : List client) (c : client),
      w.dev.clients = pre ++ c :: post → c.cid = pc % 65536 →
      (∀ x ∈ pre, x.cid ≠ pc % 65536) →
      ((kmalloc w.mem).1 = true → (kmalloc (kmalloc w.mem).2).1 = true →
        (read_callback q u w).dev.clients
          = pre ++ (read_callback_deliver c
              (read_tid (pc % 65536) u.transfer_buffer result.toNat)
              u.transfer_buffer (u.actual_length % 65536)).1 :: post ∧
        (read_callback q u w).log
          = w.log ++ (read_callback_deliver c
              (read_tid (pc % 65536) u.transfer_buffer result.toNat)
              u.transfer_buffer (u.actual_length % 65536)).2 ++ [Event.resubmit_int_urb] ∧
        (read_callback_deliver c (read_tid (pc % 65536) u.transfer_buffer result.toNat)
            u.transfer_buffer (u.actual_length % 65536)).1.reads
          = c.reads ++ [readreq.mk (u.transfer_buffer.take (u.actual_length % 65536))
              (read_tid (pc % 65536) u.transfer_buffer result.toNat)
              (u.actual_length % 65536)] ∧
        (∀ f k d, Event.call f k d ∈ (read_callback_deliver c
            (read_tid (pc % 65536) u.transfer_buffer result.toNat)
            u.transfer_buffer (u.actual_length % 65536)).2 →
          k = c.cid ∧ ∃ n ∈ c.notifies, n.func = f ∧ n.data = d)) ∧
      (((kmalloc w.mem).1 = false ∨ (kmalloc (kmalloc w.mem).2).1 = false) →
        (read_callback q u w).dev = w.dev)) := by
  have hc16 : pc % 65536 < 65536 := Nat.mod_lt _ (by norm_num)
  have hparsed := read_callback_parsed q u w result pc hstatus hparse hres hsize
  refine ⟨?_, ?_⟩
  · intro hnone
    have hno : ∀ x ∈ w.dev.clients,
        ¬ (x.cid == pc % 65536 || (x.cid ||| 0xff00) == pc % 65536) = true := by
      intro x hx hm
      have hxc := (unicast_match_iff x.cid _ hc16 hb).mp hm
      exact (client_bycid_none_iff w.dev _).mp hnone (List.mem_map.mpr ⟨x, hx, hxc⟩)
    rw [hparsed]
    unfold read_callback_dispatch
    rw [read_callback_loop_no_match _ _ _ _ _ _ hno]
    obtain ⟨⟨v, d, t, cl⟩, m, l⟩ := w
    simp [World.emit]
  · intro pre post c hsplit hcid hpre
    have hloop := read_callback_loop_unicast (pc % 65536)
      (read_tid (pc % 65536) u.transfer_buffer result.toNat) u.transfer_buffer
      (u.actual_length % 65536) pre post c w.mem hc16 hb hcid hpre
    rw [← hsplit] at hloop
    refine ⟨?_, ?_⟩
    · intro hk1 hk2
      rw [hk1, hk2] at hloop
      simp only [Bool.true_eq_false, if_false] at hloop
      rw [hparsed]
      unfold read_callback_dispatch
      rw [hloop]
      refine ⟨rfl, ?_, (read_callback_deliver_frame c _ _ _).2.1, ?_⟩
      · simp [World.emit]
      · intro f k d h
        exact read_callback_deliver_calls c _ _ _ f k d h
    · intro hfail
      rw [hparsed]
      unfold read_callback_dispatch
      rw [hloop]
      rcases hfail with h1 | h2
      · simp only [h1, if_true]
      · by_cases h1 : (kmalloc w.mem).1 = false
        · simp only [h1, if_true]
        · simp only [h1, if_false, h2, if_true]
          obtain ⟨⟨v, d, t, cl⟩, m, l⟩ := w
          simp only at hsplit
          simp [hsplit, World.emit]

/-- A use of the amended C26: clients 3, 7 and 8 are registered, client 7 with
a pending notification; a message for client 7 arrives. -/
theorem read_callback_demux_witness :
    (read_callback test_codec ⟨0, [1, 0, 0, 0, 7, 0, 0, 5, 0], 9⟩
        ⟨⟨true, false, 1, [⟨3, [], [⟨11, 0, 21⟩], [], none⟩, ⟨7, [], [⟨12, 5, 22⟩], [], none⟩,
          ⟨8, [], [⟨13, 0, 23⟩], [], none⟩]⟩, [], []⟩).dev.clients
      = [⟨3, [], [⟨11, 0, 21⟩], [], none⟩] ++
          (read_callback_deliver ⟨7, [], [⟨12, 5, 22⟩], [], none⟩
            (read_tid (7 % 65536) [1, 0, 0, 0, 7, 0, 0, 5, 0] (6 : Int).toNat)
            [1, 0, 0, 0, 7, 0, 0, 5, 0] (9 % 65536)).1
          :: [⟨8, [], [⟨13, 0, 23⟩], [], none⟩] :=
  (((read_callback_demux test_codec ⟨0, [1, 0, 0, 0, 7, 0, 0, 5, 0], 9⟩
    ⟨⟨true, false, 1, [⟨3, [], [⟨11, 0, 21⟩], [], none⟩, ⟨7, [], [⟨12, 5, 22⟩], [], none⟩,
      ⟨8, [], [⟨13, 0, 23⟩], [], none⟩]⟩, [], []⟩ 6 7 rfl rfl (by decide) (by decide)
    (by decide)).2 [⟨3, [], [⟨11, 0, 21⟩], [], none⟩] [⟨8, [], [⟨13, 0, 23⟩], [], none⟩]
    ⟨7, [], [⟨12, 5, 22⟩], [], none⟩ rfl rfl (by decide)).1 (by decide) (by decide)).1

/-! ## C22: the device list -/

theorem qcusbnet_list_split (key : Nat) (l : List qcusbnet_node)
    (h : key ∈ l.map qcusbnet_node.addr) :
    ∃ pre e post, l = pre ++ e :: post ∧ e.addr = key ∧ ∀ x ∈ pre, x.addr ≠ key := by
  induction l with
  | nil => simp at h
  | cons a l ih =>
    by_cases ha : a.addr = key
    · exact ⟨[], a, l, rfl, ha, by simp⟩
    · have h' : key ∈ l.map qcusbnet_node.addr := by
        simp only [List.map_cons, List.mem_cons] at h
        rcases h with h | h
        · exact absurd h.symm ha
        · exact h
      obtain ⟨pre, e, post, h1, h2, h3⟩ := ih h'
      refine ⟨a :: pre, e, post, by simp [h1], h2, ?_⟩
      intro x hx
      rcases List.mem_cons.mp hx with rfl | hx
      · exact ha
      · exact h3 x hx

theorem qcusbnet_get_of_split (key : Nat) (pre post : List qcusbnet_node) (e : qcusbnet_node)
    (he : e.addr = key) (hpre : ∀ x ∈ pre, x.addr ≠ key) :
    qcusbnet_get key (pre ++ e :: post)
      = (some key, pre ++ { e with refcount := e.refcount + 1 } :: post) := by
  induction pre with
  | nil => simp [qcusbnet_get, he, kref_get]
  | cons a pre ih =>
    have ha : a.addr ≠ key := hpre a (by simp)
    rw [List.cons_append, qcusbnet_get]
    simp only [ha, if_false]
    rw [ih (fun x hx => hpre x (by simp [hx]))]
    rfl

theorem qcusbnet_get_none (key : Nat) (l : List qcusbnet_node)
    (h : key ∉ l.map qcusbnet_node.addr) : qcusbnet_get key l = (none, l) := by
  induction l with
  | nil => rfl
  | cons a l ih =>
    simp only [List.map_cons, List.mem_cons, not_or] at h
    have ha : a.addr ≠ key := fun h' => h.1 h'.symm
    simp only [qcusbnet_get, ha, if_false]
    rw [ih h.2]

theorem qcusbnet_put_of_split (key : Nat) (pre post : List qcusbnet_node) (e : qcusbnet_node)
    (he : e.addr = key) (hpre : ∀ x ∈ pre, x.addr ≠ key) :
    qcusbnet_put key (pre ++ e :: post)
      = if e.refcount - 1 = 0 then pre ++ post
        else pre ++ { e with refcount := e.refcount - 1 } :: post := by
  induction pre with
  | nil =>
    by_cases h0 : e.refcount - 1 = 0
    · simp [qcusbnet_put, he, kref_put, h0]
    · simp [qcusbnet_put, he, kref_put, h0]
  | cons a pre ih =>
    have ha : a.addr ≠ key := hpre a (by simp)
    rw [List.cons_append, qcusbnet_put]
    simp only [ha, if_false]
    rw [ih (fun x hx => hpre x (by simp [hx]))]
    split_ifs <;> rfl

theorem qcusbnet_put_none (key : Nat) (l : List qcusbnet_node)
    (h : key ∉ l.map qcusbnet_node.addr) : qcusbnet_put key l = l := by
  induction l with
  | nil => rfl
  | cons a l ih =>
    simp only [List.map_cons, List.mem_cons, not_or] at h
    have ha : a.addr ≠ key := fun h' => h.1 h'.symm
    simp only [qcusbnet_put, ha, if_false]
    rw [ih h.2]

/-- No call on the device list adds a device to it. -/
theorem list_call_addrs (l : List qcusbnet_node) (c : list_call) :
    ((c.run l).map qcusbnet_node.addr).Sublist (l.map qcusbnet_node.addr) := by
  cases c with
  | get key =>
    show ((qcusbnet_get key l).2.map qcusbnet_node.addr).Sublist _
    by_cases h : key ∈ l.map qcusbnet_node.addr
    · obtain ⟨pre, e, post, h1, h2, h3⟩ := qcusbnet_list_split key l h
      rw [h1, qcusbnet_get_of_split key pre post e h2 h3]
      simp
    · rw [qcusbnet_get_none key l h]
  | put dev =>
    show ((qcusbnet_put dev l).map qcusbnet_node.addr).Sublist _
    by_cases h : dev ∈ l.map qcusbnet_node.addr
    · obtain ⟨pre, e, post, h1, h2, h3⟩ := qcusbnet_list_split dev l h
      rw [h1, qcusbnet_put_of_split dev pre post e h2 h3]
      split_ifs
      · simp
      · simp
    · rw [qcusbnet_put_none dev l h]

theorem list_calls_addrs (l : List qcusbnet_node) (calls : List list_call) :
    ((calls.foldl list_call.run l).map qcusbnet_node.addr).Sublist
      (l.map qcusbnet_node.addr) := by
  induction calls generalizing l with
  | nil => exact List.Sublist.refl _
  | cons c calls ih =>
    rw [List.foldl_cons]
    exact (ih _).trans (list_call_addrs l c)

/-- C22: `e` is the first device of the list at the address `key`. Then
`qcusbnet_get(key)` returns `key` and adds exactly one to the counter of `e`,
changing nothing else; a `qcusbnet_put` that brings the counter to zero
removes `e` from the list in the same step, and one that leaves it non-zero
only decrements the counter: the list holds the same devices. Every address
in the list has such a first device; for an address that is not in the list
`qcusbnet_get` returns `NULL` and changes nothing. When the addresses of the
list are distinct and the counter of `e` is 1, after `qcusbnet_put(key)`
every later `qcusbnet_get(key)` returns `NULL`, whatever calls are made on
the list in between. -/
theorem qcusbnet_list_visibility (key : Nat) (l : List qcusbnet_node) :
    (∀ pre e post, l = pre ++ e :: post → e.addr = key → (∀ x ∈ pre, x.addr ≠ key) →
      qcusbnet_get key l
        = (some key, pre ++ { e with refcount := e.refcount + 1 } :: post) ∧
      (e.refcount - 1 = 0 → qcusbnet_put key l = pre ++ post) ∧
      (e.refcount - 1 ≠ 0 →
        qcusbnet_put key l = pre ++ { e with refcount := e.refcount - 1 } :: post ∧
        (qcusbnet_put key l).map qcusbnet_node.addr = l.map qcusbnet_node.addr)) ∧
    (key ∈ l.map qcusbnet_node.addr →
      ∃ pre e post, l = pre ++ e :: post ∧ e.addr = key ∧ ∀ x ∈ pre, x.addr ≠ key) ∧
    (key ∉ l.map qcusbnet_node.addr → qcusbnet_get key l = (none, l)) ∧
    ((l.map qcusbnet_node.addr).Nodup →
      ∀ pre e post, l = pre ++ e :: post → e.addr = key → e.refcount = 1 →
        key ∉ (qcusbnet_put key l).map qcusbnet_node.addr ∧
        ∀ calls : List list_call,
          qcusbnet_get key (calls.foldl list_call.run (qcusbnet_put key l))
            = (none, calls.foldl list_call.run (qcusbnet_put key l))) := by
  refine ⟨?_, qcusbnet_list_split key l, qcusbnet_get_none key l, ?_⟩
  · intro pre e post hl he hpre
    subst hl
    refine ⟨qcusbnet_get_of_split key pre post e he hpre, ?_, ?_⟩
    · intro h0
      rw [qcusbnet_put_of_split key pre post e he hpre, if_pos h0]
    · intro h0
      rw [qcusbnet_put_of_split key pre post e he hpre, if_neg h0]
      exact ⟨rfl, by simp⟩
  · intro hnd pre e post hl he h1
    subst hl
    rw [List.map_append, List.map_cons, he] at hnd
    have hnotpost : key ∉ post.map qcusbnet_node.addr :=
      (List.nodup_cons.mp (List.nodup_append.mp hnd).2.1).1
    have hnotpre : key ∉ pre.map qcusbnet_node.addr := fun h =>
      (List.nodup_append.mp hnd).2.2 h (by simp)
    have hpre : ∀ x ∈ pre, x.addr ≠ key := fun x hx hxc =>
      hnotpre (List.mem_map.mpr ⟨x, hx, hxc⟩)
    have hput : qcusbnet_put key (pre ++ e :: post) = pre ++ post := by
      rw [qcusbnet_put_of_split key pre post e he hpre, if_pos (by rw [h1]; rfl)]
    have hgone : key ∉ (pre ++ post).map qcusbnet_node.addr := by
      rw [List.map_append, List.mem_append]
      rintro (h | h)
      · exact hnotpre h
      · exact hnotpost h
    rw [hput]
    refine ⟨hgone, ?_⟩
    intro calls
    apply qcusbnet_get_none
    intro h
    exact hgone ((list_calls_addrs (pre ++ post) calls).subset h)

/-- A use of C22: devices at addresses 10, 20 and 30; device 20 has a single
reference. A get on 20 succeeds and counts; after the put that drops its last
reference, device 20 is gone and a get on it fails, also after other calls. -/
theorem qcusbnet_list_visibility_witness :
    qcusbnet_get 20 [⟨10, 1, 2⟩, ⟨20, 2, 1⟩, ⟨30, 3, 1⟩]
      = (some 20, [⟨10, 1, 2⟩] ++ ⟨20, 2, 1 + 1⟩ :: [⟨30, 3, 1⟩]) ∧
    qcusbnet_get 20 (List.foldl list_call.run
        (qcusbnet_put 20 [⟨10, 1, 2⟩, ⟨20, 2, 1⟩, ⟨30, 3, 1⟩])
        [list_call.get 10, list_call.put 30])
      = (none, List.foldl list_call.run
          (qcusbnet_put 20 [⟨10, 1, 2⟩, ⟨20, 2, 1⟩, ⟨30, 3, 1⟩])
          [list_call.get 10, list_call.put 30]) :=
  ⟨((qcusbnet_list_visibility 20 [⟨10, 1, 2⟩, ⟨20, 2, 1⟩, ⟨30, 3, 1⟩]).1
      [⟨10, 1, 2⟩] ⟨20, 2, 1⟩ [⟨30, 3, 1⟩] rfl rfl (by decide)).1,
    ((qcusbnet_list_visibility 20 [⟨10, 1, 2⟩, ⟨20, 2, 1⟩, ⟨30, 3, 1⟩]).2.2.2 (by decide)
      [⟨10, 1, 2⟩] ⟨20, 2, 1⟩ [⟨30, 3, 1⟩] rfl rfl rfl).2
      [list_call.get 10, list_call.put 30]⟩

/-! ## C21: the reference held by a handle -/

theorem same_ids_read_async (w : World) (cid tid hook data : Nat) :
    w.same_ids (read_async w cid tid hook data).2 := by
  unfold read_async
  cases hb : client_bycid w.dev cid with
  | none => exact same_ids_refl w
  | some c =>
    simp only []
    split_ifs
    · exact same_ids_emit w _
    · exact same_ids_trans (same_ids_mem w _)
        (same_ids_store _ cid _ ((client_addnotify_cid _ c tid hook data).trans
          (client_bycid_cid _ cid c hb)))

theorem read_async_found (w : World) (cid tid hook data : Nat) (c : client)
    (hc : client_bycid w.dev cid = some c) : (read_async w cid tid hook data).1 = 0 := by
  unfold read_async
  simp only [hc]
  split_ifs <;> rfl

theorem same_ids_registered {w w' : World} (h : w.same_ids w') (cid : Nat) (c : client)
    (hc : client_bycid w.dev cid = some c) : ∃ c', client_bycid w'.dev cid = some c' := by
  cases hb : client_bycid w'.dev cid with
  | some c' => exact ⟨c', rfl⟩
  | none =>
    have h1 := (client_bycid_none_iff w'.dev cid).mp hb
    rw [h.1] at h1
    have h2 : client_bycid w.dev cid = none := (client_bycid_none_iff w.dev cid).mpr h1
    rw [hc] at h2
    cases h2

theorem same_ids_qmi_ready_pass (q : qmi_codec) (new_ready : Nat → Option (List Nat))
    (sem : Nat) (e : ready_env) (wbuf : Option (List Nat)) (w : World) :
    w.same_ids (qmi_ready_pass q new_ready sem e wbuf w).2.2 := by
  unfold qmi_ready_pass
  simp only []
  have h2 : w.same_ids ((qmitid_next w).2.emit (kfree_opt wbuf)) :=
    same_ids_trans (same_ids_qmitid_next w) (same_ids_emit _ _)
  cases new_ready (qmitid_next w).1 with
  | none => exact h2
  | some buf =>
    simp only []
    have h3 := same_ids_trans h2 (same_ids_read_async
      ((qmitid_next w).2.emit (kfree_opt wbuf)) QMICTL (qmitid_next w).1 upsem sem)
    have h5 := same_ids_trans (same_ids_trans h3 (same_ids_write_sync q e.wr
      (read_async ((qmitid_next w).2.emit (kfree_opt wbuf)) QMICTL (qmitid_next w).1 upsem
        sem).2 buf buf.length QMICTL))
      (same_ids_sleep q ⟨e.msleep, 0⟩ _)
    simp only [Sleep.run] at h5
    split_ifs
    · exact same_ids_trans h3 (same_ids_emit _ _)
    · split
      · exact h5
      · next c hc =>
        have hcid : c.cid = QMICTL := client_bycid_cid _ _ c hc
        split
        · next rbuf n c1 hdel =>
          have hc1 : c1.cid = QMICTL := by
            have := client_delread_cid c (qmitid_next w).1
            rw [hdel] at this
            exact this.trans hcid
          exact same_ids_trans h5 (same_ids_trans (same_ids_store _ _ c1 hc1)
            (same_ids_emit _ _))
        · exact h5
    · split
      · exact h5
      · next c hc =>
        have hcid : c.cid = QMICTL := client_bycid_cid _ _ c hc
        exact same_ids_trans h5 (same_ids_trans
          (same_ids_store _ _ _ ((client_notify_frame c (qmitid_next w).1).1.trans hcid))
          (same_ids_emit _ _))

/-- While the control client is registered, no pass of the loop of `qmi_ready`
ends in `return false`. -/
theorem qmi_ready_pass_registered (q : qmi_codec) (new_ready : Nat → Option (List Nat))
    (sem : Nat) (e : ready_env) (wbuf : Option (List Nat)) (w : World) (c : client)
    (hc : client_bycid w.dev QMICTL = some c) :
    (qmi_ready_pass q new_ready sem e wbuf w).1 ≠ ready_exit.ret false := by
  have h2 : w.same_ids ((qmitid_next w).2.emit (kfree_opt wbuf)) :=
    same_ids_trans (same_ids_qmitid_next w) (same_ids_emit _ _)
  obtain ⟨c2, hc2⟩ := same_ids_registered h2 QMICTL c hc
  have hres := read_async_found ((qmitid_next w).2.emit (kfree_opt wbuf)) QMICTL
    (qmitid_next w).1 upsem sem c2 hc2
  unfold qmi_ready_pass
  simp only []
  cases new_ready (qmitid_next w).1 with
  | none => simp
  | some buf =>
    simp only [hres, ne_eq, not_true_eq_false, if_false]
    split_ifs
    · split
      · simp
      · split <;> simp
    · split <;> simp

theorem qmi_ready_loop_no_timeout (q : qmi_codec) (new_ready : Nat → Option (List Nat))
    (sem timeout : Nat) (envs : List ready_env) (now : Nat) (wbuf : Option (List Nat))
    (w : World) (c : client) (ht : 65532 < timeout) (hnow : now % 4 = 0)
    (hlt : now < 65536) (hc : client_bycid w.dev QMICTL = some c) :
    (qmi_ready_loop q new_ready sem timeout envs now wbuf w).1 ≠ Result.ok false := by
  induction envs generalizing now wbuf w c with
  | nil =>
    rw [qmi_ready_loop, if_pos (by omega)]
    simp
  | cons e rest ih =>
    rw [qmi_ready_loop, if_pos (by omega)]
    have hpass := qmi_ready_pass_registered q new_ready sem e wbuf w c hc
    have hsame := same_ids_qmi_ready_pass q new_ready sem e wbuf w
    rcases hp : qmi_ready_pass q new_ready sem e wbuf w with ⟨ex, wbuf1, w1⟩
    rw [hp] at hpass hsame
    cases ex with
    | next =>
      obtain ⟨c1, hc1⟩ := same_ids_registered hsame QMICTL c hc
      exact ih ((now + 100) % 65536) wbuf1 w1 c1 (by omega) (Nat.mod_lt _ (by norm_num)) hc1
    | brk =>
      have hge : ¬ now ≥ timeout := by omega
      simp [qmi_ready_end, hge]
    | ret value =>
      intro h
      simp only [Result.ok.injEq] at h
      exact hpass (by rw [h])

/-! ## C23: the bound on the passes of `qmi_ready` -/

theorem qmi_ready_exits_cons_next (q : qmi_codec) (new_ready : Nat → Option (List Nat))
    (sem : Nat) (e : ready_env) (rest : List ready_env) (wbuf wbuf1 : Option (List Nat))
    (w w1 : World) (k : Nat)
    (hp : qmi_ready_pass q new_ready sem e wbuf w = (ready_exit.next, wbuf1, w1))
    (h : qmi_ready_exits q new_ready sem (e :: rest) wbuf w
      = List.replicate (k + 1) ready_exit.next) :
    qmi_ready_exits q new_ready sem rest wbuf1 w1 = List.replicate k ready_exit.next := by
  rw [qmi_ready_exits, hp] at h
  simpa [List.replicate_succ] using h

theorem qmi_ready_exits_head (q : qmi_codec) (new_ready : Nat → Option (List Nat))
    (sem : Nat) (e : ready_env) (rest : List ready_env) (wbuf : Option (List Nat))
    (w : World) (k : Nat)
    (h : qmi_ready_exits q new_ready sem (e :: rest) wbuf w
      = List.replicate (k + 1) ready_exit.next) :
    (qmi_ready_pass q new_ready sem e wbuf w).1 = ready_exit.next := by
  rw [qmi_ready_exits] at h
  rcases hp : qmi_ready_pass q new_ready sem e wbuf w with ⟨ex, wbuf1, w1⟩
  rw [hp] at h
  cases ex with
  | next => rfl
  | brk => simp [List.replicate_succ] at h
  | ret v => simp [List.replicate_succ] at h

theorem qmi_ready_loop_cons (q : qmi_codec) (new_ready : Nat → Option (List Nat))
    (sem timeout : Nat) (e : ready_env) (rest : List ready_env) (now : Nat)
    (wbuf : Option (List Nat)) (w : World) (hlt : now < timeout) :
    qmi_ready_loop q new_ready sem timeout (e :: rest) now wbuf w =
      match qmi_ready_pass q new_ready sem e wbuf w with
      | (ready_exit.ret value, _, w1) => (Result.ok value, w1)
      | (ready_exit.brk, wbuf1, w1) => qmi_ready_end timeout now wbuf1 w1
      | (ready_exit.next, wbuf1, w1) =>
        qmi_ready_loop q new_ready sem timeout rest ((now + 100) % 65536) wbuf1 w1 := by
  rw [qmi_ready_loop, if_pos hlt]

theorem qmi_ready_loop_done (q : qmi_codec) (new_ready : Nat → Option (List Nat))
    (sem timeout : Nat) (envs : List ready_env) (now : Nat)
    (wbuf : Option (List Nat)) (w : World) (hge : ¬ now < timeout) :
    qmi_ready_loop q new_ready sem timeout envs now wbuf w
      = qmi_ready_end timeout now wbuf w := by
  cases envs <;> rw [qmi_ready_loop, if_neg hge]

/-- The loop of `qmi_ready` with a timeout of at most 65500, entered with the
counter at a multiple of 100: the counter does not wrap, so at most
`(timeout + 99 - now) / 100` passes are left. -/
theorem qmi_ready_loop_bounded (q : qmi_codec) (new_ready : Nat → Option (List Nat))
    (sem timeout : Nat) (envs : List ready_env) (now : Nat) (wbuf : Option (List Nat))
    (w : World) (ht : timeout ≤ 65500) (hnow : now % 100 = 0) :
    qmi_ready_loop q new_ready sem timeout envs now wbuf w
      = qmi_ready_loop q new_ready sem timeout (envs.take ((timeout + 99 - now) / 100))
          now wbuf w ∧
    ((timeout + 99 - now) / 100 ≤ envs.length →
      (qmi_ready_loop q new_ready sem timeout envs now wbuf w).1 ≠ Result.blocked) ∧
    ((timeout + 99 - now) / 100 ≤ envs.length →
      qmi_ready_exits q new_ready sem (envs.take ((timeout + 99 - now) / 100)) wbuf w
        = List.replicate ((timeout + 99 - now) / 100) ready_exit.next →
      (qmi_ready_loop q new_ready sem timeout envs now wbuf w).1 = Result.ok false) := by
  induction envs generalizing now wbuf w with
  | nil =>
    refine ⟨by simp, ?_, ?_⟩
    · intro hk
      have hge : ¬ now < timeout := by
        simp only [List.length_nil, Nat.le_zero] at hk
        omega
      rw [qmi_ready_loop_done _ _ _ _ _ _ _ _ hge]
      simp [qmi_ready_end]
    · intro hk _
      have hge : ¬ now < timeout := by
        simp only [List.length_nil, Nat.le_zero] at hk
        omega
      rw [qmi_ready_loop_done _ _ _ _ _ _ _ _ hge]
      simp [qmi_ready_end, not_lt.mp hge]
  | cons e rest ih =>
    by_cases hlt : now < timeout
    · have hk : (timeout + 99 - now) / 100 = (timeout + 99 - (now + 100)) / 100 + 1 := by omega
      have hmod : (now + 100) % 65536 = now + 100 := by omega
      have hnow1 : (now + 100) % 100 = 0 := by omega
      rw [hk, List.take_succ_cons, qmi_ready_loop_cons _ _ _ _ e rest _ _ _ hlt,
        qmi_ready_loop_cons _ _ _ _ e _ _ _ _ hlt]
      rcases hp : qmi_ready_pass q new_ready sem e wbuf w with ⟨ex, wbuf1, w1⟩
      obtain ⟨i1, i2, i3⟩ := ih (now + 100) wbuf1 w1 hnow1
      cases ex with
      | next =>
        simp only [hmod]
        refine ⟨i1, ?_, ?_⟩
        · intro hlen
          exact i2 (by simpa using hlen)
        · intro hlen hex
          exact i3 (by simpa using hlen)
            (qmi_ready_exits_cons_next q new_ready sem e _ wbuf wbuf1 w w1 _ hp hex)
      | brk =>
        refine ⟨rfl, ?_, ?_⟩
        · intro _
          simp [qmi_ready_end]
        · intro _ hex
          have := qmi_ready_exits_head q new_ready sem e _ wbuf w _ hex
          rw [hp] at this
          cases this
      | ret v =>
        refine ⟨rfl, ?_, ?_⟩
        · intro _
          simp
        · intro _ hex
          have := qmi_ready_exits_head q new_ready sem e _ wbuf w _ hex
          rw [hp] at this
          cases this
    · have hk : (timeout + 99 - now) / 100 = 0 := by omega
      rw [hk, List.take_zero, qmi_ready_loop_done _ _ _ _ _ _ _ _ hlt,
        qmi_ready_loop_done _ _ _ _ _ _ _ _ hlt]
      refine ⟨rfl, ?_, ?_⟩
      · intro _
        simp [qmi_ready_end]
      · intro _ _
        simp [qmi_ready_end, not_lt.mp hlt]

/-- What every pass of the loop of `qmi_ready` does first: it draws a
transaction id from the counter of the device, which advances; the id is not 0
and fits in 8 bits. Unless the pass leaves by `return -ENOMEM`, the probe
built for that id is the buffer of the pass, and the effects of the pass begin
with those of the one `write_sync` of that probe on the control client. -/
theorem qmi_ready_pass_probe (q : qmi_codec) (new_ready : Nat → Option (List Nat))
    (sem : Nat) (e : ready_env) (wbuf : Option (List Nat)) (w : World) :
    (qmitid_next w).1 ≠ 0 ∧ (qmitid_next w).1 < 256 ∧
    (qmitid_next w).2.dev.qmitid ≠ w.dev.qmitid ∧
    ((∀ value, (qmi_ready_pass q new_ready sem e wbuf w).1 ≠ ready_exit.ret value) →
      ∃ buf, new_ready (qmitid_next w).1 = some buf ∧
        (qmi_ready_pass q new_ready sem e wbuf w).2.1 = some buf ∧
        (write_sync q e.wr
            (read_async ((qmitid_next w).2.emit (kfree_opt wbuf)) QMICTL (qmitid_next w).1
              upsem sem).2 buf buf.length QMICTL).2.log
          <+: (qmi_ready_pass q new_ready sem e wbuf w).2.2.log) := by
  refine ⟨?_, ?_, ?_, ?_⟩
  · unfold qmitid_next
    simp only []
    split_ifs with h
    · simp only []
      norm_num at h ⊢
      omega
    · exact h
  · unfold qmitid_next
    simp only []
    split_ifs
    · exact Nat.mod_lt _ (by norm_num)
    · exact Nat.mod_lt _ (by norm_num)
  · unfold qmitid_next
    simp only []
    split_ifs with h
    · simp only []
      norm_num at h ⊢
      omega
    · simp only []
      norm_num at h ⊢
      omega
  · intro hne
    have hpre : ∀ (w4 : World), w4.log <+: (e.msleep.foldl (EnvEvent.run q) w4).log :=
      fun w4 => sleep_run_log q ⟨e.msleep, 0⟩ w4
    unfold qmi_ready_pass at hne ⊢
    simp only [] at hne ⊢
    cases hb : new_ready (qmitid_next w).1 with
    | none =>
      rw [hb] at hne
      exact absurd rfl (hne true)
    | some buf =>
      rw [hb] at hne
      simp only [] at hne ⊢
      refine ⟨buf, rfl, ?_⟩
      by_cases hr : (read_async ((qmitid_next w).2.emit (kfree_opt wbuf)) QMICTL
          (qmitid_next w).1 upsem sem).1 ≠ 0
      · rw [if_pos hr] at hne
        exact absurd rfl (hne false)
      · rw [if_neg hr]
        have h5 := hpre (write_sync q e.wr
          (read_async ((qmitid_next w).2.emit (kfree_opt wbuf)) QMICTL (qmitid_next w).1
            upsem sem).2 buf buf.length QMICTL).2
        split_ifs
        · split
          · exact ⟨rfl, h5⟩
          · split
            · exact ⟨rfl, h5.trans ⟨_, rfl⟩⟩
            · exact ⟨rfl, h5⟩
        · split
          · exact ⟨rfl, h5⟩
          · exact ⟨rfl, h5.trans ⟨_, rfl⟩⟩

/-- One pass on a device that takes every probe and never answers: the pass
runs to the end of the body, and the registry and the allocator are afterwards
as they were. -/
theorem qmi_ready_pass_silent (wbuf : Option (List Nat)) (w : World)
    (hcl : w.dev.clients = [⟨0, [], [], [], none⟩]) (hmem : w.mem = []) :
    (qmi_ready_pass test_codec (fun tid => some [1, 0, 0, 0, 0, 0, 0, tid, 0x21]) 900
        ⟨⟨5, 0, 0, ⟨[], 0⟩, 0⟩, []⟩ wbuf w).1 = ready_exit.next ∧
    (qmi_ready_pass test_codec (fun tid => some [1, 0, 0, 0, 0, 0, 0, tid, 0x21]) 900
        ⟨⟨5, 0, 0, ⟨[], 0⟩, 0⟩, []⟩ wbuf w).2.2.dev.clients = [⟨0, [], [], [], none⟩] ∧
    (qmi_ready_pass test_codec (fun tid => some [1, 0, 0, 0, 0, 0, 0, tid, 0x21]) 900
        ⟨⟨5, 0, 0, ⟨[], 0⟩, 0⟩, []⟩ wbuf w).2.2.mem = [] := by
  obtain ⟨hl, hm, hc⟩ := qmitid_next_frame w
  unfold qmi_ready_pass
  rcases hq : qmitid_next w with ⟨tid, w1⟩
  rw [hq] at hl hm hc
  simp only at hl hm hc
  obtain ⟨⟨valid, dying, qmitid, clients⟩, mem, log⟩ := w1
  simp only at hl hm hc
  rw [hcl] at hc
  rw [hmem] at hm
  subst hl hm hc
  cases wbuf <;> simp [read_async, write_sync, client_bycid, QMICTL, kmalloc, client_addnotify,
    client_addurb, client_delurb, World.store, World.emit, World.deref, client_store, Sleep.run,
    test_codec, read_matches, sem_released, client_notify, list_del_first, notify_matches,
    client_delread, upsem, kfree_opt]

/-- A device that takes every probe and never answers, `qmi_ready` called with
the timeout 65535: whatever the number of passes, the loop is still running
after them, and every one of them ran to the end of the body. -/
theorem qmi_ready_silent_run (n : Nat) (now : Nat) (wbuf : Option (List Nat)) (w : World)
    (hcl : w.dev.clients = [⟨0, [], [], [], none⟩]) (hmem : w.mem = [])
    (hnow : now % 4 = 0) (hlt : now < 65536) :
    (qmi_ready_loop test_codec (fun tid => some [1, 0, 0, 0, 0, 0, 0, tid, 0x21]) 900 65535
        (List.replicate n ⟨⟨5, 0, 0, ⟨[], 0⟩, 0⟩, []⟩) now wbuf w).1 = Result.blocked ∧
    qmi_ready_exits test_codec (fun tid => some [1, 0, 0, 0, 0, 0, 0, tid, 0x21]) 900
        (List.replicate n ⟨⟨5, 0, 0, ⟨[], 0⟩, 0⟩, []⟩) wbuf w
      = List.replicate n ready_exit.next := by
  induction n generalizing now wbuf w with
  | zero =>
    constructor
    · rw [List.replicate_zero, qmi_ready_loop, if_pos (by omega)]
    · rfl
  | succ n ih =>
    obtain ⟨h1, h2, h3⟩ := qmi_ready_pass_silent wbuf w hcl hmem
    rcases hp : qmi_ready_pass test_codec (fun tid => some [1, 0, 0, 0, 0, 0, 0, tid, 0x21]) 900
      ⟨⟨5, 0, 0, ⟨[], 0⟩, 0⟩, []⟩ wbuf w with ⟨ex, wbuf1, w1⟩
    rw [hp] at h1 h2 h3
    simp only at h1 h2 h3
    subst h1
    obtain ⟨i1, i2⟩ := ih ((now + 100) % 65536) wbuf1 w1 h2 h3 (by omega)
      (Nat.mod_lt _ (by norm_num))
    constructor
    · rw [List.replicate_succ, qmi_ready_loop_cons _ _ _ _ _ _ _ _ _ (by omega), hp]
      exact i1
    · rw [List.replicate_succ, qmi_ready_exits, hp]
      simp only [i2, List.replicate_succ]

/-- C23, as stated, fails for the timeout 65535, a 16-bit value: on a device
that takes every probe and never answers, the loop has not ended after
`ceil(65535 / 100) = 656` passes, none of which obtained a response, and
`qmi_ready` has not returned `false`; it has not ended after 100000 passes
either. -/
theorem qmi_ready_timeout_wraps :
    qmi_ready_exits test_codec (fun tid => some [1, 0, 0, 0, 0, 0, 0, tid, 0x21]) 900
        (List.replicate 656 ⟨⟨5, 0, 0, ⟨[], 0⟩, 0⟩, []⟩) none
        ⟨⟨true, false, 1, [⟨0, [], [], [], none⟩]⟩, [], []⟩
      = List.replicate 656 ready_exit.next ∧
    (qmi_ready test_codec (fun tid => some [1, 0, 0, 0, 0, 0, 0, tid, 0x21]) 900
        (List.replicate 656 ⟨⟨5, 0, 0, ⟨[], 0⟩, 0⟩, []⟩) 65535
        ⟨⟨true, false, 1, [⟨0, [], [], [], none⟩]⟩, [], []⟩).1 = Result.blocked ∧
    (qmi_ready test_codec (fun tid => some [1, 0, 0, 0, 0, 0, 0, tid, 0x21]) 900
        (List.replicate 100000 ⟨⟨5, 0, 0, ⟨[], 0⟩, 0⟩, []⟩) 65535
        ⟨⟨true, false, 1, [⟨0, [], [], [], none⟩]⟩, [], []⟩).1 = Result.blocked :=
  ⟨(qmi_ready_silent_run 656 0 none _ rfl rfl rfl (by norm_num)).2,
    (qmi_ready_silent_run 656 0 none _ rfl rfl rfl (by norm_num)).1,
    (qmi_ready_silent_run 100000 0 none _ rfl rfl rfl (by norm_num)).1⟩

/-- C23, amended: for every timeout of at most 65500 passed to `qmi_ready`
(30000 in `qc_register`), the loop makes at most `ceil(timeout / 100)` passes:
the environments after the first `ceil(timeout / 100)` are not used, and with
that many at hand the call returns. Every pass draws a transaction id from the
counter of the device, which advances, and, unless it returns, hands the probe
built for that id to `write_sync`. When every one of the `ceil(timeout / 100)`
passes runs to the end of the body, no response having been taken, `qmi_ready`
returns `false`. -/
theorem qmi_ready_bounded (q : qmi_codec) (new_ready : Nat → Option (List Nat))
    (sem : Nat) (envs : List ready_env) (timeout : Nat) (w : World)
    (ht : timeout ≤ 65500) :
    qmi_ready q new_ready sem envs timeout w
      = qmi_ready q new_ready sem (envs.take ((timeout + 99) / 100)) timeout w ∧
    ((timeout + 99) / 100 ≤ envs.length →
      (qmi_ready q new_ready sem envs timeout w).1 ≠ Result.blocked) ∧
    (∀ (e : ready_env) (wbuf : Option (List Nat)) (w1 : World),
      (qmitid_next w1).1 ≠ 0 ∧ (qmitid_next w1).1 < 256 ∧
      (qmitid_next w1).2.dev.qmitid ≠ w1.dev.qmitid ∧
      ((∀ value, (qmi_ready_pass q new_ready sem e wbuf w1).1 ≠ ready_exit.ret value) →
        ∃ buf, new_ready (qmitid_next w1).1 = some buf ∧
          (qmi_ready_pass q new_ready sem e wbuf w1).2.1 = some buf ∧
          (write_sync q e.wr
              (read_async ((qmitid_next w1).2.emit (kfree_opt wbuf)) QMICTL (qmitid_next w1).1
                upsem sem).2 buf buf.length QMICTL).2.log
            <+: (qmi_ready_pass q new_ready sem e wbuf w1).2.2.log)) ∧
    ((timeout + 99) / 100 ≤ envs.length →
      qmi_ready_exits q new_ready sem (envs.take ((timeout + 99) / 100)) none w
        = List.replicate ((timeout + 99) / 100) ready_exit.next →
      (qmi_ready q new_ready sem envs timeout w).1 = Result.ok false) := by
  have hmod : timeout % 65536 = timeout := Nat.mod_eq_of_lt (by omega)
  obtain ⟨h1, h2, h3⟩ := qmi_ready_loop_bounded q new_ready sem timeout envs 0 none w ht rfl
  unfold qmi_ready
  rw [hmod]
  exact ⟨h1, h2, fun e wbuf w1 => qmi_ready_pass_probe q new_ready sem e wbuf w1, h3⟩

/-- A use of the amended C23: with the timeout 300 and a device that takes
every probe and never answers, `qmi_ready` returns `false` after the three
passes, and a fourth environment is not used. -/
theorem qmi_ready_bounded_witness :
    (300 : Nat) ≤ 65500 ∧
    (qmi_ready test_codec (fun tid => some [1, 0, 0, 0, 0, 0, 0, tid, 0x21]) 900
        [⟨⟨5, 0, 0, ⟨[], 0⟩, 0⟩, []⟩, ⟨⟨5, 0, 0, ⟨[], 0⟩, 0⟩, []⟩, ⟨⟨5, 0, 0, ⟨[], 0⟩, 0⟩, []⟩,
          ⟨⟨5, 0, 0, ⟨[], 0⟩, 0⟩, []⟩] 300
        ⟨⟨true, false, 1, [⟨0, [], [], [], none⟩]⟩, [], []⟩).1 = Result.ok false :=
  ⟨by decide,
    (qmi_ready_bounded test_codec (fun tid => some [1, 0, 0, 0, 0, 0, 0, tid, 0x21]) 900
      [⟨⟨5, 0, 0, ⟨[], 0⟩, 0⟩, []⟩, ⟨⟨5, 0, 0, ⟨[], 0⟩, 0⟩, []⟩, ⟨⟨5, 0, 0, ⟨[], 0⟩, 0⟩, []⟩,
        ⟨⟨5, 0, 0, ⟨[], 0⟩, 0⟩, []⟩] 300
      ⟨⟨true, false, 1, [⟨0, [], [], [], none⟩]⟩, [], []⟩ (by decide)).2.2.2
      (by decide) (by decide)⟩

/-! ## C27: what `qmi_ready` returns -/

/-- When the probe message cannot be built in the first pass, `qmi_ready`
leaves by `return -ENOMEM`, that is `true`. -/
theorem qmi_ready_alloc_failure (q : qmi_codec) (new_ready : Nat → Option (List Nat))
    (sem : Nat) (e : ready_env) (rest : List ready_env) (timeout : Nat) (w : World)
    (ht : 0 < timeout % 65536) (hb : new_ready (qmitid_next w).1 = none) :
    qmi_ready q new_ready sem (e :: rest) timeout w = (Result.ok true, (qmitid_next w).2) := by
  unfold qmi_ready
  rw [qmi_ready_loop, if_pos ht]
  simp only [qmi_ready_pass, hb, kfree_opt, World.emit, List.append_nil]

/-- C27: `qmi_ready(dev, 30000)` on a device whose control client is registered,
when `qmictl_new_ready` returns `NULL`: it returns `true` in the first pass,
although no probe was sent and no response was received (nothing is logged,
no queue has changed; only the transaction counter has advanced). -/
theorem qmi_ready_true_without_response :
    qmi_ready test_codec (fun _ => none) 900 [⟨⟨500, 0, 0, ⟨[], 0⟩, 0⟩, []⟩] 30000
        ⟨⟨true, false, 1, [⟨0, [], [], [], none⟩]⟩, [], []⟩
      = (Result.ok true, ⟨⟨true, false, 2, [⟨0, [], [], [], none⟩]⟩, [], []⟩) := by
  rfl

/-! ## C25: `int_callback` -/

theorem set_bit_testBit (nr x i : Nat) :
    (set_bit nr x).testBit i = (x.testBit i || decide (nr = i)) := by
  simp [set_bit, Nat.testBit_or, Nat.one_shiftLeft, Nat.testBit_two_pow]

theorem clear_bit_testBit (nr x i : Nat) :
    (clear_bit nr x).testBit i = (x.testBit i && !decide (nr = i)) := by
  simp [clear_bit, Nat.testBit_xor, Nat.testBit_and, Nat.one_shiftLeft, Nat.testBit_two_pow]
  cases x.testBit i <;> simp

/-- C25, as stated, fails: an 8-byte interrupt payload `A1 01 ..` completes with
status 0 and the submission of the control read fails with `-ENOMEM`;
`int_callback` returns without resubmitting the interrupt URB. -/
theorem int_callback_claim_fails :
    ¬ (∀ (u : urb) (readurb : Nat) (submit : Int) (reason down : Nat),
        u.status = 0 →
        Event.resubmit_int_urb ∈ (int_callback u readurb submit reason down).2) := by
  intro h
  have := h ⟨0, [0xA1, 0x01, 0, 0, 0, 0, 0, 0], 8⟩ 700 (-ENOMEM) 1 0 rfl
  revert this
  decide

/-- C25, amended. For a completion with status 0: (1) an 8-byte payload whose
low 16 bits are `0x01A1` submits the control read; when that submission
succeeds the interrupt URB is resubmitted, when it fails `int_callback`
returns at once, without resubmitting; `dev->down` is unchanged. (2) A
16-byte payload whose first 8 bytes are `0x08000000002AA1` sets the bit
`DOWN_CDC_CONNECTION_SPEED` of `dev->down` (and turns the carrier off) when
the upstream or the downstream rate word is 0, clears it otherwise (turning
the carrier on when no bit is left); the other bits are unchanged and the
interrupt URB is resubmitted. (3) Any other payload changes nothing and the
interrupt URB is resubmitted. For a completion with another status:
(4) nothing is changed, and the interrupt URB is resubmitted exactly when the
status is `-EOVERFLOW`. -/
theorem int_callback_spec (u : urb) (readurb : Nat) (submit : Int) (reason down : Nat) :
    (u.status = 0 → u.actual_length = 8 →
      read_le u.transfer_buffer 0 8 &&& CDC_GET_MASK = CDC_GET_ENCAPSULATED_RESPONSE →
      int_callback u readurb submit reason down
        = (down, if submit = 0 then [Event.usb_submit_urb readurb 0, Event.resubmit_int_urb]
            else [Event.usb_submit_urb readurb submit])) ∧
    (u.status = 0 → u.actual_length = 16 →
      read_le u.transfer_buffer 0 8 = CDC_CONNECTION_SPEED_CHANGE →
      ((read_le u.transfer_buffer 8 4 = 0 ∨ read_le u.transfer_buffer 12 4 = 0) →
        (int_callback u readurb submit reason down).1.testBit reason = true ∧
        (∀ i, i ≠ reason →
          (int_callback u readurb submit reason down).1.testBit i = down.testBit i) ∧
        (int_callback u readurb submit reason down).2
          = [Event.netif_carrier_off, Event.resubmit_int_urb]) ∧
      (¬ (read_le u.transfer_buffer 8 4 = 0 ∨ read_le u.transfer_buffer 12 4 = 0) →
        (int_callback u readurb submit reason down).1.testBit reason = false ∧
        (∀ i, i ≠ reason →
          (int_callback u readurb submit reason down).1.testBit i = down.testBit i) ∧
        (int_callback u readurb submit reason down).2
          = (if (int_callback u readurb submit reason down).1 = 0
              then [Event.netif_carrier_on] else []) ++ [Event.resubmit_int_urb])) ∧
    (u.status = 0 →
      ¬ (u.actual_length = 8 ∧
        read_le u.transfer_buffer 0 8 &&& CDC_GET_MASK = CDC_GET_ENCAPSULATED_RESPONSE) →
      ¬ (u.actual_length = 16 ∧ read_le u.transfer_buffer 0 8 = CDC_CONNECTION_SPEED_CHANGE) →
      int_callback u readurb submit reason down = (down, [Event.resubmit_int_urb])) ∧
    (u.status ≠ 0 →
      int_callback u readurb submit reason down
        = (down, if u.status = -EOVERFLOW then [Event.resubmit_int_urb] else [])) := by
  refine ⟨?_, ?_, ?_, ?_⟩
  · intro hs hlen hmask
    unfold int_callback
    simp only [hs, ne_eq, not_true_eq_false, if_false, hlen, hmask, and_self, if_true]
    by_cases h0 : submit = 0
    · simp [h0]
    · simp [h0]
  · intro hs hlen hspeed
    have h8 : ¬ (u.actual_length = 8 ∧
        read_le u.transfer_buffer 0 8 &&& CDC_GET_MASK = CDC_GET_ENCAPSULATED_RESPONSE) := by
      rw [hlen]
      simp
    constructor
    · intro hzero
      have heq : int_callback u readurb submit reason down
          = (set_bit reason down, [Event.netif_carrier_off, Event.resubmit_int_urb]) := by
        unfold int_callback
        simp only [hs, ne_eq, not_true_eq_false, if_false, h8, hlen, hspeed, and_self, if_true,
          hzero, qc_setdown]
        rfl
      rw [heq]
      refine ⟨?_, ?_, rfl⟩
      · simp [set_bit_testBit]
      · intro i hi
        have : ¬ reason = i := fun h => hi h.symm
        simp [set_bit_testBit, this]
    · intro hnz
      have heq : int_callback u readurb submit reason down
          = (clear_bit reason down,
              (if clear_bit reason down = 0 then [Event.netif_carrier_on] else [])
                ++ [Event.resubmit_int_urb]) := by
        unfold int_callback
        simp only [hs, ne_eq, not_true_eq_false, if_false, h8, hlen, hspeed, and_self, if_true,
          hnz, qc_cleardown]
        rw [if_neg (by simp)]
      rw [heq]
      refine ⟨?_, ?_, rfl⟩
      · simp [clear_bit_testBit]
      · intro i hi
        have : ¬ reason = i := fun h => hi h.symm
        simp [clear_bit_testBit, this]
  · intro hs h8 h16
    unfold int_callback
    simp only [hs, ne_eq, not_true_eq_false, if_false, h8, h16]
  · intro hs
    unfold int_callback
    simp only [ne_eq, hs, not_false_eq_true, if_true]
    by_cases ho : u.status = -EOVERFLOW
    · simp [ho]
    · simp [ho]

/-- A use of the amended C25: a request for a control read whose submission
succeeds, and a speed change with a zero upstream rate on `dev->down = 0` with
`DOWN_CDC_CONNECTION_SPEED = 1`. -/
theorem int_callback_spec_witness :
    int_callback ⟨0, [0xA1, 0x01, 0, 0, 0, 0, 0, 0], 8⟩ 700 0 1 0
      = (0, if (0 : Int) = 0 then [Event.usb_submit_urb 700 0, Event.resubmit_int_urb]
          else [Event.usb_submit_urb 700 0]) ∧
    (int_callback ⟨0, [0xA1, 0x2A, 0, 0, 0, 0, 0x08, 0, 0, 0, 0, 0, 0x10, 0, 0, 0], 16⟩
        700 0 1 0).2 = [Event.netif_carrier_off, Event.resubmit_int_urb] :=
  ⟨(int_callback_spec ⟨0, [0xA1, 0x01, 0, 0, 0, 0, 0, 0], 8⟩ 700 0 1 0).1 rfl rfl (by decide),
    (((int_callback_spec ⟨0, [0xA1, 0x2A, 0, 0, 0, 0, 0x08, 0, 0, 0, 0, 0, 0x10, 0, 0, 0], 16⟩
      700 0 1 0).2.1 rfl rfl (by decide)).1 (Or.inl (by decide))).2.2⟩

end Qmi
